import Mathlib

/-! digiBassPreamp: the three-band equalizer core.

Shallow embedding of `src/digiBassPreamp/digiBassPreamp.cpp`: the struct `MyBiquad`
(lines 11-34) and the class `EQ3Band` (lines 38-150).

The C++ type `float` is embedded twice.  First as an arbitrary field `α` (exact
arithmetic, no rounding); the theorems that need order or analysis take `α = ℝ`.  Second
as IEEE 754 binary32 (`Fp`, with rounding to nearest, ties to even, overflow, underflow,
infinities and NaN), in the namespace `Binary32`; there the statements that depend on
rounding, overflow or NaN are settled, the C library being taken as correctly rounded
(`Fp.libm`) and bounded through intervals with binary32 ends.  A `float` literal with an
integral value (`80.0f`, `2.0f`, ...) is written as the numeral (`80`, `2`, ...).  The
four `<cmath>` functions the source calls (`powf`, `sinf`, `cosf`, `sqrtf`) and the
constant `M_PI` are collected in a record `Libm α`, so that every definition translated
from the source is an ordinary computable function; `realLibm` instantiates the record
with the real functions.  Member functions that mutate `*this` become functions returning
the new object, and `Process`, which both mutates and returns, yields the pair
(returned sample, new object).
-/

namespace DigiBassPreamp

/-- The `<cmath>` names used by the source: `powf`, `sinf`, `cosf`, `sqrtf`, `M_PI`. -/
structure Libm (α : Type) where
  powf : α → α → α
  sinf : α → α
  cosf : α → α
  sqrtf : α → α
  M_PI : α

/-- The exact real functions behind the `<cmath>` names. -/
noncomputable def realLibm : Libm ℝ where
  powf x y := x ^ y
  sinf := Real.sin
  cosf := Real.cos
  sqrtf := Real.sqrt
  M_PI := Real.pi

/-- The struct `MyBiquad` of lines 11-34: five coefficients and two delay registers. -/
structure MyBiquad (α : Type) where
  a0 : α
  a1 : α
  a2 : α
  b1 : α
  b2 : α
  z1 : α
  z2 : α
deriving DecidableEq

namespace MyBiquad

variable {α : Type} [Field α]

/-- A default-constructed `MyBiquad` (member initialisers of lines 13-14). -/
def fresh : MyBiquad α := ⟨0, 0, 0, 0, 0, 0, 0⟩

/-- Line 16: `void Init() { z1 = z2 = 0; }`. -/
def Init (f : MyBiquad α) : MyBiquad α :=
  { f with z1 := 0, z2 := 0 }

/-- Lines 18-24: `float Process(float x)`; returns `(y, *this afterwards)`. -/
def Process (f : MyBiquad α) (x : α) : α × MyBiquad α :=
  let y := f.a0 * x + f.a1 * f.z1 + f.a2 * f.z2 - f.b1 * f.z1 - f.b2 * f.z2
  (y, { f with z2 := f.z1, z1 := y })

/-- Lines 26-33: `void SetCoeffs(float _a0, float _a1, float _a2, float _b1, float _b2)`. -/
def SetCoeffs (f : MyBiquad α) (_a0 _a1 _a2 _b1 _b2 : α) : MyBiquad α :=
  { f with a0 := _a0, a1 := _a1, a2 := _a2, b1 := _b1, b2 := _b2 }

/-- The object after the first `n` samples of the stream `x` went through `Process`. -/
def stateAfter (f : MyBiquad α) (x : ℕ → α) : ℕ → MyBiquad α
  | 0 => f
  | n + 1 => ((stateAfter f x n).Process (x n)).2

/-- The sample returned by the `n`-th call of `Process` on the stream `x`. -/
def output (f : MyBiquad α) (x : ℕ → α) (n : ℕ) : α :=
  ((stateAfter f x n).Process (x n)).1

end MyBiquad

/-- The unit impulse 1, 0, 0, ... -/
def unitImpulse {α : Type} [Field α] (n : ℕ) : α :=
  if n = 0 then 1 else 0

/-- The data members of the class `EQ3Band` (lines 88-91). -/
structure EQ3Band (α : Type) where
  sr_ : α
  bass : MyBiquad α
  mid : MyBiquad α
  treble : MyBiquad α
  bass_freq_ : α
  mid_freq_ : α
  treble_freq_ : α
  bass_q_ : α
  mid_q_ : α
  treble_q_ : α
deriving DecidableEq

namespace EQ3Band

variable {α : Type} [Field α]

/-- The global `eq` of line 155 before `Init`: an object of static storage duration is
zero-initialised, and the members of its three sections are initialised to 0. -/
def fresh : EQ3Band α :=
  ⟨0, MyBiquad.fresh, MyBiquad.fresh, MyBiquad.fresh, 0, 0, 0, 0, 0, 0⟩

/-- Lines 41-58: `void Init(float sr)`. -/
def Init (e : EQ3Band α) (sr : α) : EQ3Band α :=
  { e with
    sr_ := sr
    bass_freq_ := 80
    mid_freq_ := 800
    treble_freq_ := 4000
    bass_q_ := 0.707
    mid_q_ := 1
    treble_q_ := 0.707
    bass := e.bass.Init
    mid := e.mid.Init
    treble := e.treble.Init }

/-- Lines 60-66: `float Process(float x)`; returns `(y, *this afterwards)`. -/
def Process (e : EQ3Band α) (x : α) : α × EQ3Band α :=
  let r1 := e.bass.Process x
  let r2 := e.mid.Process r1.1
  let r3 := e.treble.Process r2.1
  (r3.1, { e with bass := r1.2, mid := r2.2, treble := r3.2 })

/-- Lines 93-96: `float PotToDb(float pot, float maxDb)`. -/
def PotToDb (pot maxDb : α) : α :=
  (0.5 - pot) * 2 * maxDb

/-- The local `w0` of lines 103, 120 and 137: `2.0f * M_PI * freq / sr_`. -/
def designW0 (L : Libm α) (sr freq : α) : α :=
  2 * L.M_PI * freq / sr

/-- Lines 100-115: `void SetLowShelf(MyBiquad &f, float freq, float Q, float dbGain)`;
returns the section `f` afterwards. -/
def SetLowShelf (L : Libm α) (e : EQ3Band α) (f : MyBiquad α) (freq Q dbGain : α) :
    MyBiquad α :=
  let A := L.powf 10 (dbGain / 40)
  let w0 := designW0 L e.sr_ freq
  let alpha := L.sinf w0 / (2 * Q)
  let cosw0 := L.cosf w0
  let b0 := A * ((A + 1) - (A - 1) * cosw0 + 2 * L.sqrtf A * alpha)
  let b1 := 2 * A * ((A - 1) - (A + 1) * cosw0)
  let b2 := A * ((A + 1) - (A - 1) * cosw0 - 2 * L.sqrtf A * alpha)
  let a0 := (A + 1) + (A - 1) * cosw0 + 2 * L.sqrtf A * alpha
  let a1 := -2 * ((A - 1) + (A + 1) * cosw0)
  let a2 := (A + 1) + (A - 1) * cosw0 - 2 * L.sqrtf A * alpha
  f.SetCoeffs (b0 / a0) (b1 / a0) (b2 / a0) (a1 / a0) (a2 / a0)

/-- Lines 117-132: `void SetHighShelf(MyBiquad &f, float freq, float Q, float dbGain)`;
returns the section `f` afterwards. -/
def SetHighShelf (L : Libm α) (e : EQ3Band α) (f : MyBiquad α) (freq Q dbGain : α) :
    MyBiquad α :=
  let A := L.powf 10 (dbGain / 40)
  let w0 := designW0 L e.sr_ freq
  let alpha := L.sinf w0 / (2 * Q)
  let cosw0 := L.cosf w0
  let b0 := A * ((A + 1) + (A - 1) * cosw0 + 2 * L.sqrtf A * alpha)
  let b1 := -2 * A * ((A - 1) + (A + 1) * cosw0)
  let b2 := A * ((A + 1) + (A - 1) * cosw0 - 2 * L.sqrtf A * alpha)
  let a0 := (A + 1) - (A - 1) * cosw0 + 2 * L.sqrtf A * alpha
  let a1 := 2 * ((A - 1) - (A + 1) * cosw0)
  let a2 := (A + 1) - (A - 1) * cosw0 - 2 * L.sqrtf A * alpha
  f.SetCoeffs (b0 / a0) (b1 / a0) (b2 / a0) (a1 / a0) (a2 / a0)

/-- Lines 134-149: `void SetPeak(MyBiquad &f, float freq, float Q, float dbGain)`;
returns the section `f` afterwards. -/
def SetPeak (L : Libm α) (e : EQ3Band α) (f : MyBiquad α) (freq Q dbGain : α) :
    MyBiquad α :=
  let A := L.powf 10 (dbGain / 40)
  let w0 := designW0 L e.sr_ freq
  let alpha := L.sinf w0 / (2 * Q)
  let cosw0 := L.cosf w0
  let b0 := 1 + alpha * A
  let b1 := -2 * cosw0
  let b2 := 1 - alpha * A
  let a0 := 1 + alpha / A
  let a1 := -2 * cosw0
  let a2 := 1 - alpha / A
  f.SetCoeffs (b0 / a0) (b1 / a0) (b2 / a0) (a1 / a0) (a2 / a0)

/-- Lines 69-73: `void SetBass(float pot)`. -/
def SetBass (L : Libm α) (e : EQ3Band α) (pot : α) : EQ3Band α :=
  let db := PotToDb pot 15
  { e with bass := SetLowShelf L e e.bass e.bass_freq_ e.bass_q_ db }

/-- Lines 75-79: `void SetMid(float pot)`. -/
def SetMid (L : Libm α) (e : EQ3Band α) (pot : α) : EQ3Band α :=
  let db := PotToDb pot 12
  { e with mid := SetPeak L e e.mid e.mid_freq_ e.mid_q_ db }

/-- Lines 81-85: `void SetTreble(float pot)`. -/
def SetTreble (L : Libm α) (e : EQ3Band α) (pot : α) : EQ3Band α :=
  let db := PotToDb pot 15
  { e with treble := SetHighShelf L e e.treble e.treble_freq_ e.treble_q_ db }

/-- The equalizer after the first `n` samples of the stream `x` went through `Process`
(the loop of `AudioCallback`, lines 162-168). -/
def stateAfter (e : EQ3Band α) (x : ℕ → α) : ℕ → EQ3Band α
  | 0 => e
  | n + 1 => ((stateAfter e x n).Process (x n)).2

/-- The sample returned by the `n`-th call of `Process` on the stream `x`. -/
def output (e : EQ3Band α) (x : ℕ → α) (n : ℕ) : α :=
  ((stateAfter e x n).Process (x n)).1

/-- The six delay registers overwritten with the given values, everything else kept: used
to range over every content of the delay registers. -/
def withDelays (e : EQ3Band α) (zb1 zb2 zm1 zm2 zt1 zt2 : α) : EQ3Band α :=
  { e with
    bass := { e.bass with z1 := zb1, z2 := zb2 }
    mid := { e.mid with z1 := zm1, z2 := zm2 }
    treble := { e.treble with z1 := zt1, z2 := zt2 } }

end EQ3Band

/-! ## The side of the specification

Definitions written from the words of the specification (§3, §4.2, §7), to be compared
with the code above. -/

/-- Spec §3, FilterCoefficients: the stored `(ff, c1, c2, d1, d2)`. -/
structure FilterCoefficients (α : Type) where
  ff : α
  c1 : α
  c2 : α
  d1 : α
  d2 : α
deriving DecidableEq

/-- The coefficients a section stores, in the order `SetCoeffs` takes them. -/
def MyBiquad.coeffs {α : Type} (f : MyBiquad α) : FilterCoefficients α :=
  ⟨f.a0, f.a1, f.a2, f.b1, f.b2⟩

namespace Spec

variable {α : Type} [Field α]

/-- Spec §4.2, low-shelf: the normalized `(b0/a0, b1/a0, b2/a0, a1/a0, a2/a0)`. -/
def lowShelf (L : Libm α) (sampleRate centerFrequency Q gainDecibels : α) :
    FilterCoefficients α :=
  let A := L.powf 10 (gainDecibels / 40)
  let w0 := 2 * L.M_PI * centerFrequency / sampleRate
  let alpha := L.sinf w0 / (2 * Q)
  let cosw0 := L.cosf w0
  let b0 := A * ((A + 1) - (A - 1) * cosw0 + 2 * L.sqrtf A * alpha)
  let b1 := 2 * A * ((A - 1) - (A + 1) * cosw0)
  let b2 := A * ((A + 1) - (A - 1) * cosw0 - 2 * L.sqrtf A * alpha)
  let a0 := (A + 1) + (A - 1) * cosw0 + 2 * L.sqrtf A * alpha
  let a1 := -2 * ((A - 1) + (A + 1) * cosw0)
  let a2 := (A + 1) + (A - 1) * cosw0 - 2 * L.sqrtf A * alpha
  ⟨b0 / a0, b1 / a0, b2 / a0, a1 / a0, a2 / a0⟩

/-- Spec §4.2, peaking (bell): the normalized `(b0/a0, b1/a0, b2/a0, a1/a0, a2/a0)`. -/
def peaking (L : Libm α) (sampleRate centerFrequency Q gainDecibels : α) :
    FilterCoefficients α :=
  let A := L.powf 10 (gainDecibels / 40)
  let w0 := 2 * L.M_PI * centerFrequency / sampleRate
  let alpha := L.sinf w0 / (2 * Q)
  let cosw0 := L.cosf w0
  let b0 := 1 + alpha * A
  let b1 := -2 * cosw0
  let b2 := 1 - alpha * A
  let a0 := 1 + alpha / A
  let a1 := -2 * cosw0
  let a2 := 1 - alpha / A
  ⟨b0 / a0, b1 / a0, b2 / a0, a1 / a0, a2 / a0⟩

/-- Spec §4.2, high-shelf: the normalized `(b0/a0, b1/a0, b2/a0, a1/a0, a2/a0)`. -/
def highShelf (L : Libm α) (sampleRate centerFrequency Q gainDecibels : α) :
    FilterCoefficients α :=
  let A := L.powf 10 (gainDecibels / 40)
  let w0 := 2 * L.M_PI * centerFrequency / sampleRate
  let alpha := L.sinf w0 / (2 * Q)
  let cosw0 := L.cosf w0
  let b0 := A * ((A + 1) + (A - 1) * cosw0 + 2 * L.sqrtf A * alpha)
  let b1 := -2 * A * ((A - 1) + (A + 1) * cosw0)
  let b2 := A * ((A + 1) + (A - 1) * cosw0 - 2 * L.sqrtf A * alpha)
  let a0 := (A + 1) - (A - 1) * cosw0 + 2 * L.sqrtf A * alpha
  let a1 := 2 * ((A - 1) - (A + 1) * cosw0)
  let a2 := (A + 1) - (A - 1) * cosw0 - 2 * L.sqrtf A * alpha
  ⟨b0 / a0, b1 / a0, b2 / a0, a1 / a0, a2 / a0⟩

/-- Spec §7: a control value clamped to `[0, 1]`. -/
def clampPot {K : Type} [LinearOrderedField K] (pot : K) : K :=
  max 0 (min 1 pot)

end Spec

/-! ## Predicates used in the proofs -/

section Predicates

variable {α : Type} [Field α]

/-- A section whose feed-forward gain is 1 and whose two `z1` (and two `z2`) coefficients
coincide: its recurrence cancels to `y = x`. -/
def MyBiquad.Unity (f : MyBiquad α) : Prop :=
  f.a0 = 1 ∧ f.a1 = f.b1 ∧ f.a2 = f.b2

/-- All three sections of the equalizer are pass-through sections. -/
def EQ3Band.Flat (e : EQ3Band α) : Prop :=
  e.bass.Unity ∧ e.mid.Unity ∧ e.treble.Unity

end Predicates

/-- The registers hold values of opposite sign, the newer one of size at least `m`. -/
def MyBiquad.Alternating (f : MyBiquad ℝ) (m : ℝ) : Prop :=
  (m ≤ f.z1 ∧ f.z2 ≤ 0) ∨ (f.z1 ≤ -m ∧ 0 ≤ f.z2)

/-! ## Call sequences and the canonical section -/

/-- One call from outside on the equalizer: a setter with its control value, or
`Process` with its input sample. -/
inductive Call (α : Type) where
  | SetBass (pot : α)
  | SetMid (pot : α)
  | SetTreble (pot : α)
  | Process (x : α)
deriving DecidableEq

/-- The calls of the list made one after the other on `e`: the equalizer afterwards and
the samples the `Process` calls returned, in order. -/
def EQ3Band.run {α : Type} [Field α] (L : Libm α) (e : EQ3Band α) :
    List (Call α) → EQ3Band α × List α
  | [] => (e, [])
  | Call.SetBass pot :: cs => EQ3Band.run L (e.SetBass L pot) cs
  | Call.SetMid pot :: cs => EQ3Band.run L (e.SetMid L pot) cs
  | Call.SetTreble pot :: cs => EQ3Band.run L (e.SetTreble L pot) cs
  | Call.Process x :: cs =>
    ((EQ3Band.run L (e.Process x).2 cs).1,
      (e.Process x).1 :: (EQ3Band.run L (e.Process x).2 cs).2)

namespace Spec

variable {α : Type} [Field α]

/-- Spec §4.1: the history a canonical two-pole/two-zero section keeps, the two prior
inputs and the two prior outputs. -/
structure DirectForm (α : Type) where
  x1 : α
  x2 : α
  y1 : α
  y2 : α
deriving DecidableEq

/-- Spec §4.1: one sample of the canonical section,
`y = ff*x + c1*x1 + c2*x2 - d1*y1 - d2*y2`, then both histories shift. -/
def directFormStep (c : FilterCoefficients α) (h : DirectForm α) (x : α) :
    α × DirectForm α :=
  let y := c.ff * x + c.c1 * h.x1 + c.c2 * h.x2 - c.d1 * h.y1 - c.d2 * h.y2
  (y, ⟨x, h.x1, y, h.y1⟩)

/-- The history of the canonical section, started from zero, after `n` samples of `x`. -/
def directFormState (c : FilterCoefficients α) (x : ℕ → α) : ℕ → DirectForm α
  | 0 => ⟨0, 0, 0, 0⟩
  | n + 1 => (directFormStep c (directFormState c x n) (x n)).2

/-- The `n`-th output sample of the canonical section on the stream `x`. -/
def directFormOutput (c : FilterCoefficients α) (x : ℕ → α) (n : ℕ) : α :=
  (directFormStep c (directFormState c x n) (x n)).1

end Spec

/-! ## The local variables of the designers -/

/-- The ten `float` locals each designer computes before it calls `SetCoeffs`. -/
structure DesignLocals (α : Type) where
  A : α
  w0 : α
  alpha : α
  cosw0 : α
  b0 : α
  b1 : α
  b2 : α
  a0 : α
  a1 : α
  a2 : α

namespace EQ3Band

variable {α : Type} [Field α]

/-- Lines 102-112: the locals of `SetLowShelf`, for the sample rate `sr` held in `sr_`. -/
def lowShelfLocals (L : Libm α) (sr freq Q dbGain : α) : DesignLocals α :=
  let A := L.powf 10 (dbGain / 40)
  let w0 := 2 * L.M_PI * freq / sr
  let alpha := L.sinf w0 / (2 * Q)
  let cosw0 := L.cosf w0
  let b0 := A * ((A + 1) - (A - 1) * cosw0 + 2 * L.sqrtf A * alpha)
  let b1 := 2 * A * ((A - 1) - (A + 1) * cosw0)
  let b2 := A * ((A + 1) - (A - 1) * cosw0 - 2 * L.sqrtf A * alpha)
  let a0 := (A + 1) + (A - 1) * cosw0 + 2 * L.sqrtf A * alpha
  let a1 := -2 * ((A - 1) + (A + 1) * cosw0)
  let a2 := (A + 1) + (A - 1) * cosw0 - 2 * L.sqrtf A * alpha
  ⟨A, w0, alpha, cosw0, b0, b1, b2, a0, a1, a2⟩

/-- Lines 119-129: the locals of `SetHighShelf`, for the sample rate `sr` held in `sr_`. -/
def highShelfLocals (L : Libm α) (sr freq Q dbGain : α) : DesignLocals α :=
  let A := L.powf 10 (dbGain / 40)
  let w0 := 2 * L.M_PI * freq / sr
  let alpha := L.sinf w0 / (2 * Q)
  let cosw0 := L.cosf w0
  let b0 := A * ((A + 1) + (A - 1) * cosw0 + 2 * L.sqrtf A * alpha)
  let b1 := -2 * A * ((A - 1) + (A + 1) * cosw0)
  let b2 := A * ((A + 1) + (A - 1) * cosw0 - 2 * L.sqrtf A * alpha)
  let a0 := (A + 1) - (A - 1) * cosw0 + 2 * L.sqrtf A * alpha
  let a1 := 2 * ((A - 1) - (A + 1) * cosw0)
  let a2 := (A + 1) - (A - 1) * cosw0 - 2 * L.sqrtf A * alpha
  ⟨A, w0, alpha, cosw0, b0, b1, b2, a0, a1, a2⟩

/-- Lines 136-146: the locals of `SetPeak`, for the sample rate `sr` held in `sr_`. -/
def peakLocals (L : Libm α) (sr freq Q dbGain : α) : DesignLocals α :=
  let A := L.powf 10 (dbGain / 40)
  let w0 := 2 * L.M_PI * freq / sr
  let alpha := L.sinf w0 / (2 * Q)
  let cosw0 := L.cosf w0
  let b0 := 1 + alpha * A
  let b1 := -2 * cosw0
  let b2 := 1 - alpha * A
  let a0 := 1 + alpha / A
  let a1 := -2 * cosw0
  let a2 := 1 - alpha / A
  ⟨A, w0, alpha, cosw0, b0, b1, b2, a0, a1, a2⟩

end EQ3Band

/-- Spec §8: `v` lies within relative tolerance `tol` of the quoted value `q`. -/
def Spec.withinRel {K : Type} [LinearOrderedField K] (v q tol : K) : Prop :=
  |v - q| ≤ tol * |q|

/-! ## Series order in exact arithmetic -/

/-- The equalizer with the three given sections in its bass, mid and treble slots, which
`Process` runs in that order. -/
def EQ3Band.withSections {α : Type} (e : EQ3Band α) (s1 s2 s3 : MyBiquad α) : EQ3Band α :=
  { e with bass := s1, mid := s2, treble := s3 }

/-- The stream `y` one sample late, with 0 in front. -/
def delay {α : Type} [Zero α] (y : ℕ → α) : ℕ → α
  | 0 => 0
  | n + 1 => y n

/-- What is left of `y` once the feedback terms of the section are taken off:
`y[n] - (a1 - b1)*y[n-1] - (a2 - b2)*y[n-2]`. -/
def MyBiquad.residual {α : Type} [Field α] (f : MyBiquad α) (y : ℕ → α) (n : ℕ) : α :=
  y n - (f.a1 - f.b1) * delay y n - (f.a2 - f.b2) * delay (delay y) n

/-! ## IEEE 754 arithmetic

The source computes in `float` (binary32), and its `w0` in `double` (binary64).  The
values of both formats are embedded in one type `Fp`; a finite value is the rational it
stands for.  Every operation returns the exact result rounded to the format, to nearest
with ties to even, with gradual underflow, overflow to infinity, signed zeros and NaN. -/

/-- The integer nearest to `t`, a tie going to the even one. -/
def roundHalfEven {K : Type} [LinearOrderedField K] [FloorRing K] (t : K) : ℤ :=
  if t - ⌊t⌋ < 1 / 2 then ⌊t⌋
  else if 1 / 2 < t - ⌊t⌋ then ⌊t⌋ + 1
  else if Even ⌊t⌋ then ⌊t⌋ else ⌊t⌋ + 1

/-- A binary floating-point format: the number of significand bits, the exponent of the
least normal number and the exponent of the overflow threshold. -/
structure FpFormat where
  prec : ℕ
  emin : ℤ
  emax : ℕ

/-- The format of `float`: 24 bits, normal numbers from `2^-126`, overflow at `2^128`. -/
def binary32 : FpFormat := ⟨24, -126, 128⟩

/-- The format of `double`: 53 bits, normal numbers from `2^-1022`, overflow at
`2^1024`. -/
def binary64 : FpFormat := ⟨53, -1022, 1024⟩

/-- A floating-point value: a finite number (`fin 0` is `+0`), `-0`, the two infinities
or NaN. -/
inductive Fp where
  | fin (q : ℚ)
  | nzero
  | pinf
  | ninf
  | nan
deriving DecidableEq

namespace Fp

variable {K : Type} [LinearOrderedField K] [FloorRing K]

/-- The exponent of the unit in the last place of `x` in the format: that of its binade,
or of the subnormal range below the least normal number. -/
def quantum (fmt : FpFormat) (x : K) : ℤ :=
  max (Int.log 2 |x|) fmt.emin - (fmt.prec - 1)

/-- The real number `x` rounded to the format, to nearest with ties to even. -/
def round (fmt : FpFormat) (x : K) : Fp :=
  let r : ℚ := (roundHalfEven (x / (2 : K) ^ quantum fmt x) : ℚ) * (2 : ℚ) ^ quantum fmt x
  if (2 : ℚ) ^ fmt.emax ≤ |r| then (if 0 < x then pinf else ninf)
  else if r = 0 ∧ x < 0 then nzero
  else fin r

/-- The test `isnan`. -/
def isNaN : Fp → Bool
  | nan => true
  | _ => false

/-- The test `isinf`. -/
def isInf : Fp → Bool
  | pinf => true
  | ninf => true
  | _ => false

/-- The test `x == 0`, true of both zeros. -/
def isZero : Fp → Bool
  | fin q => decide (q = 0)
  | nzero => true
  | _ => false

/-- The test `isfinite`. -/
def isFinite : Fp → Bool
  | fin _ => true
  | nzero => true
  | _ => false

/-- The sign bit. -/
def signbit : Fp → Bool
  | fin q => decide (q < 0)
  | nzero => true
  | ninf => true
  | _ => false

/-- The number a finite value stands for (0 for the others). -/
def val : Fp → ℚ
  | fin q => q
  | _ => 0

/-- The zero with the given sign bit. -/
def signedZero (s : Bool) : Fp := if s then nzero else fin 0

/-- The infinity with the given sign bit. -/
def signedInf (s : Bool) : Fp := if s then ninf else pinf

/-- Negation: flips the sign bit. -/
def neg : Fp → Fp
  | fin q => if q = 0 then nzero else fin (-q)
  | nzero => fin 0
  | pinf => ninf
  | ninf => pinf
  | nan => nan

/-- Addition in the format. -/
def addF (fmt : FpFormat) (x y : Fp) : Fp :=
  if x.isNaN || y.isNaN then nan
  else if x.isInf && y.isInf then (if x.signbit = y.signbit then x else nan)
  else if x.isInf then x
  else if y.isInf then y
  else if x.isZero && y.isZero then signedZero (x.signbit && y.signbit)
  else if x.val + y.val = 0 then fin 0
  else round fmt (x.val + y.val)

/-- Multiplication in the format. -/
def mulF (fmt : FpFormat) (x y : Fp) : Fp :=
  if x.isNaN || y.isNaN then nan
  else if (x.isInf && y.isZero) || (x.isZero && y.isInf) then nan
  else if x.isInf || y.isInf then signedInf (xor x.signbit y.signbit)
  else if x.isZero || y.isZero then signedZero (xor x.signbit y.signbit)
  else round fmt (x.val * y.val)

/-- Division in the format. -/
def divF (fmt : FpFormat) (x y : Fp) : Fp :=
  if x.isNaN || y.isNaN then nan
  else if (x.isInf && y.isInf) || (x.isZero && y.isZero) then nan
  else if x.isInf || y.isZero then signedInf (xor x.signbit y.signbit)
  else if y.isInf || x.isZero then signedZero (xor x.signbit y.signbit)
  else round fmt (x.val / y.val)

/-- The conversion of a `double` to `float`. -/
def toFloat (x : Fp) : Fp :=
  if x.isFinite && !x.isZero then round binary32 x.val else x

instance : Add Fp := ⟨addF binary32⟩

instance : Sub Fp := ⟨fun x y => addF binary32 x (neg y)⟩

instance : Mul Fp := ⟨mulF binary32⟩

instance : Div Fp := ⟨divF binary32⟩

instance : Neg Fp := ⟨neg⟩

/-- An integer literal; those of the source are all binary32 numbers. -/
instance (n : ℕ) : OfNat Fp n := ⟨fin n⟩

/-- A decimal literal with suffix `f`: the nearest binary32 number. -/
instance : OfScientific Fp :=
  ⟨fun m s e => round binary32 (OfScientific.ofScientific m s e : ℚ)⟩

end Fp

/-- The C library in binary32, each function returning the exact result rounded to
nearest.  `powf` is given for a positive finite base (the source passes `10.0f`); every
other base yields NaN here. -/
noncomputable def Fp.libm : Libm Fp where
  powf x y :=
    if x.isFinite && decide (0 < x.val) then
      if y.isNaN then (if x.val = 1 then 1 else Fp.nan)
      else if y.isInf then
        (if x.val = 1 then 1
        else if decide (1 < x.val) = !y.signbit then Fp.pinf else 0)
      else Fp.round binary32 ((x.val : ℝ) ^ (y.val : ℝ))
    else Fp.nan
  sinf x :=
    if x.isZero then x
    else if x.isFinite then Fp.round binary32 (Real.sin (x.val : ℝ))
    else Fp.nan
  cosf x :=
    if x.isFinite then Fp.round binary32 (Real.cos (x.val : ℝ)) else Fp.nan
  sqrtf x :=
    if x.isNaN then Fp.nan
    else if x.isZero then x
    else if x.signbit then Fp.nan
    else if x.isInf then Fp.pinf
    else Fp.round binary32 (Real.sqrt (x.val : ℝ))
  M_PI := Fp.round binary64 Real.pi

/-! ## The program in binary32

The functions of the source once more, term by term, on `Fp`: `+`, `-`, `*`, `/` are the
binary32 operations; `w0` is computed in binary64, as `M_PI` is a `double`, and converted
to `float` on assignment. -/

namespace Binary32

/-- Line 16: `void Init() { z1 = z2 = 0; }`. -/
def MyBiquad.Init (f : MyBiquad Fp) : MyBiquad Fp :=
  { f with z1 := 0, z2 := 0 }

/-- Lines 18-24: `float Process(float x)`; returns `(y, *this afterwards)`. -/
def MyBiquad.Process (f : MyBiquad Fp) (x : Fp) : Fp × MyBiquad Fp :=
  let y := f.a0 * x + f.a1 * f.z1 + f.a2 * f.z2 - f.b1 * f.z1 - f.b2 * f.z2
  (y, { f with z2 := f.z1, z1 := y })

/-- Lines 26-33: `void SetCoeffs(float _a0, float _a1, float _a2, float _b1, float _b2)`. -/
def MyBiquad.SetCoeffs (f : MyBiquad Fp) (_a0 _a1 _a2 _b1 _b2 : Fp) : MyBiquad Fp :=
  { f with a0 := _a0, a1 := _a1, a2 := _a2, b1 := _b1, b2 := _b2 }

/-- A default-constructed `MyBiquad` (member initialisers of lines 13-14). -/
def MyBiquad.fresh : MyBiquad Fp := ⟨0, 0, 0, 0, 0, 0, 0⟩

/-- The global `eq` of line 155 before `Init`, zero-initialised. -/
def EQ3Band.fresh : EQ3Band Fp :=
  ⟨0, MyBiquad.fresh, MyBiquad.fresh, MyBiquad.fresh, 0, 0, 0, 0, 0, 0⟩

/-- Lines 41-58: `void Init(float sr)`. -/
def EQ3Band.Init (e : EQ3Band Fp) (sr : Fp) : EQ3Band Fp :=
  { e with
    sr_ := sr
    bass_freq_ := 80
    mid_freq_ := 800
    treble_freq_ := 4000
    bass_q_ := 0.707
    mid_q_ := 1
    treble_q_ := 0.707
    bass := MyBiquad.Init e.bass
    mid := MyBiquad.Init e.mid
    treble := MyBiquad.Init e.treble }

/-- Lines 60-66: `float Process(float x)`; returns `(y, *this afterwards)`. -/
def EQ3Band.Process (e : EQ3Band Fp) (x : Fp) : Fp × EQ3Band Fp :=
  let r1 := MyBiquad.Process e.bass x
  let r2 := MyBiquad.Process e.mid r1.1
  let r3 := MyBiquad.Process e.treble r2.1
  (r3.1, { e with bass := r1.2, mid := r2.2, treble := r3.2 })

/-- Lines 93-96: `float PotToDb(float pot, float maxDb)`. -/
def EQ3Band.PotToDb (pot maxDb : Fp) : Fp :=
  (0.5 - pot) * 2 * maxDb

/-- The local `A` of lines 102, 119 and 136: `powf(10.0f, dbGain / 40.0f)`. -/
def EQ3Band.designA (L : Libm Fp) (dbGain : Fp) : Fp :=
  L.powf 10 (dbGain / 40)

/-- The local `w0` of lines 103, 120 and 137: `2.0f * M_PI * freq / sr_`, evaluated in
`double` and converted to `float`. -/
def EQ3Band.designW0 (L : Libm Fp) (sr freq : Fp) : Fp :=
  Fp.toFloat (Fp.divF binary64 (Fp.mulF binary64 (Fp.mulF binary64 2 L.M_PI) freq) sr)

/-- Lines 100-115: `void SetLowShelf(MyBiquad &f, float freq, float Q, float dbGain)`;
returns the section `f` afterwards. -/
def EQ3Band.SetLowShelf (L : Libm Fp) (e : EQ3Band Fp) (f : MyBiquad Fp)
    (freq Q dbGain : Fp) : MyBiquad Fp :=
  let A := EQ3Band.designA L dbGain
  let w0 := EQ3Band.designW0 L e.sr_ freq
  let alpha := L.sinf w0 / (2 * Q)
  let cosw0 := L.cosf w0
  let b0 := A * ((A + 1) - (A - 1) * cosw0 + 2 * L.sqrtf A * alpha)
  let b1 := 2 * A * ((A - 1) - (A + 1) * cosw0)
  let b2 := A * ((A + 1) - (A - 1) * cosw0 - 2 * L.sqrtf A * alpha)
  let a0 := (A + 1) + (A - 1) * cosw0 + 2 * L.sqrtf A * alpha
  let a1 := -2 * ((A - 1) + (A + 1) * cosw0)
  let a2 := (A + 1) + (A - 1) * cosw0 - 2 * L.sqrtf A * alpha
  MyBiquad.SetCoeffs f (b0 / a0) (b1 / a0) (b2 / a0) (a1 / a0) (a2 / a0)

/-- Lines 117-132: `void SetHighShelf(MyBiquad &f, float freq, float Q, float dbGain)`;
returns the section `f` afterwards. -/
def EQ3Band.SetHighShelf (L : Libm Fp) (e : EQ3Band Fp) (f : MyBiquad Fp)
    (freq Q dbGain : Fp) : MyBiquad Fp :=
  let A := EQ3Band.designA L dbGain
  let w0 := EQ3Band.designW0 L e.sr_ freq
  let alpha := L.sinf w0 / (2 * Q)
  let cosw0 := L.cosf w0
  let b0 := A * ((A + 1) + (A - 1) * cosw0 + 2 * L.sqrtf A * alpha)
  let b1 := -2 * A * ((A - 1) + (A + 1) * cosw0)
  let b2 := A * ((A + 1) + (A - 1) * cosw0 - 2 * L.sqrtf A * alpha)
  let a0 := (A + 1) - (A - 1) * cosw0 + 2 * L.sqrtf A * alpha
  let a1 := 2 * ((A - 1) - (A + 1) * cosw0)
  let a2 := (A + 1) - (A - 1) * cosw0 - 2 * L.sqrtf A * alpha
  MyBiquad.SetCoeffs f (b0 / a0) (b1 / a0) (b2 / a0) (a1 / a0) (a2 / a0)

/-- Lines 134-149: `void SetPeak(MyBiquad &f, float freq, float Q, float dbGain)`;
returns the section `f` afterwards. -/
def EQ3Band.SetPeak (L : Libm Fp) (e : EQ3Band Fp) (f : MyBiquad Fp)
    (freq Q dbGain : Fp) : MyBiquad Fp :=
  let A := EQ3Band.designA L dbGain
  let w0 := EQ3Band.designW0 L e.sr_ freq
  let alpha := L.sinf w0 / (2 * Q)
  let cosw0 := L.cosf w0
  let b0 := 1 + alpha * A
  let b1 := -2 * cosw0
  let b2 := 1 - alpha * A
  let a0 := 1 + alpha / A
  let a1 := -2 * cosw0
  let a2 := 1 - alpha / A
  MyBiquad.SetCoeffs f (b0 / a0) (b1 / a0) (b2 / a0) (a1 / a0) (a2 / a0)

/-- Lines 69-73: `void SetBass(float pot)`. -/
def EQ3Band.SetBass (L : Libm Fp) (e : EQ3Band Fp) (pot : Fp) : EQ3Band Fp :=
  let db := EQ3Band.PotToDb pot 15
  { e with bass := EQ3Band.SetLowShelf L e e.bass e.bass_freq_ e.bass_q_ db }

/-- Lines 75-79: `void SetMid(float pot)`. -/
def EQ3Band.SetMid (L : Libm Fp) (e : EQ3Band Fp) (pot : Fp) : EQ3Band Fp :=
  let db := EQ3Band.PotToDb pot 12
  { e with mid := EQ3Band.SetPeak L e e.mid e.mid_freq_ e.mid_q_ db }

/-- Lines 81-85: `void SetTreble(float pot)`. -/
def EQ3Band.SetTreble (L : Libm Fp) (e : EQ3Band Fp) (pot : Fp) : EQ3Band Fp :=
  let db := EQ3Band.PotToDb pot 15
  { e with treble := EQ3Band.SetHighShelf L e e.treble e.treble_freq_ e.treble_q_ db }

/-- The calls of the list made one after the other on `e`: the equalizer afterwards and
the samples the `Process` calls returned, in order. -/
def EQ3Band.run (L : Libm Fp) (e : EQ3Band Fp) : List (Call Fp) → EQ3Band Fp × List Fp
  | [] => (e, [])
  | Call.SetBass pot :: cs => EQ3Band.run L (EQ3Band.SetBass L e pot) cs
  | Call.SetMid pot :: cs => EQ3Band.run L (EQ3Band.SetMid L e pot) cs
  | Call.SetTreble pot :: cs => EQ3Band.run L (EQ3Band.SetTreble L e pot) cs
  | Call.Process x :: cs =>
    ((EQ3Band.run L (EQ3Band.Process e x).2 cs).1,
      (EQ3Band.Process e x).1 :: (EQ3Band.run L (EQ3Band.Process e x).2 cs).2)

end Binary32

/-- The place of a value that is not NaN in the order of the extended reals; the two
zeros share one place. -/
def Fp.ord : Fp → WithBot (WithTop ℚ)
  | Fp.fin q => ((q : WithTop ℚ) : WithBot (WithTop ℚ))
  | Fp.nzero => ((0 : WithTop ℚ) : WithBot (WithTop ℚ))
  | Fp.pinf => ((⊤ : WithTop ℚ) : WithBot (WithTop ℚ))
  | Fp.ninf => ⊥
  | Fp.nan => ⊥

/-- The comparison `x < y` of C: false when an operand is NaN. -/
def Fp.lt (x y : Fp) : Prop :=
  x.isNaN = false ∧ y.isNaN = false ∧ x.ord < y.ord

/-- The comparison `x <= y` of C: false when an operand is NaN. -/
def Fp.le (x y : Fp) : Prop :=
  x.isNaN = false ∧ y.isNaN = false ∧ x.ord ≤ y.ord

namespace Fp

variable {K : Type} [LinearOrderedField K] [FloorRing K]

/-- The number the rounding picks for `x`: the multiple of the unit in the last place that
is nearest to `x`, before the tests for overflow and for the sign of a zero. -/
def roundedValue (fmt : FpFormat) (x : K) : ℚ :=
  (roundHalfEven (x / (2 : K) ^ quantum fmt x) : ℚ) * (2 : ℚ) ^ quantum fmt x

/-- The rational `q` is a finite number of the format: an integer of fewer than `prec`
bits times a power of two in the range of the format. -/
def Rep (fmt : FpFormat) (q : ℚ) : Prop :=
  ∃ n e : ℤ, |n| < 2 ^ fmt.prec ∧ fmt.emin - fmt.prec + 1 ≤ e ∧
    e + fmt.prec ≤ fmt.emax ∧ q = (n : ℚ) * (2 : ℚ) ^ e

/-- The value `x` is finite and stands for a number from `lo` to `hi`. -/
def Btw (x : Fp) (lo hi : ℚ) : Prop :=
  x.isFinite = true ∧ lo ≤ x.val ∧ x.val ≤ hi

end Fp

/-- The equalizer after `Init(sr)`, `SetBass(potB)`, `SetMid(potM)` and
`SetTreble(potT)`, its delay registers still zeroed. -/
def Binary32.EQ3Band.configured (L : Libm Fp) (sr potB potM potT : Fp) :
    EQ3Band Fp :=
  Binary32.EQ3Band.SetTreble L
    (Binary32.EQ3Band.SetMid L
      (Binary32.EQ3Band.SetBass L (Binary32.EQ3Band.Init Binary32.EQ3Band.fresh sr) potB)
      potM)
    potT

/-- The same three sections in the series order bass, treble, mid: `Process` then runs the
treble section second and the mid section third. -/
def Binary32.EQ3Band.trebleBeforeMid (e : EQ3Band Fp) : EQ3Band Fp :=
  EQ3Band.withSections e e.bass e.treble e.mid

/-- The five coefficients of the section are finite: no infinity, no NaN. -/
def Binary32.MyBiquad.FiniteCoeffs (f : MyBiquad Fp) : Prop :=
  f.a0.isFinite = true ∧ f.a1.isFinite = true ∧ f.a2.isFinite = true ∧
    f.b1.isFinite = true ∧ f.b2.isFinite = true

/-- No infinity and no NaN enters the calls of the list made one after the other on `e`:
at every `Process` call the sample is finite, the coefficients of the three sections are
finite, and the samples that come out of the bass section and out of the mid section are
finite. -/
def Binary32.EQ3Band.Tame (L : Libm Fp) (e : EQ3Band Fp) : List (Call Fp) → Prop
  | [] => True
  | Call.SetBass pot :: cs => Binary32.EQ3Band.Tame L (Binary32.EQ3Band.SetBass L e pot) cs
  | Call.SetMid pot :: cs => Binary32.EQ3Band.Tame L (Binary32.EQ3Band.SetMid L e pot) cs
  | Call.SetTreble pot :: cs =>
    Binary32.EQ3Band.Tame L (Binary32.EQ3Band.SetTreble L e pot) cs
  | Call.Process x :: cs =>
    x.isFinite = true ∧
    Binary32.MyBiquad.FiniteCoeffs e.bass ∧ Binary32.MyBiquad.FiniteCoeffs e.mid ∧
    Binary32.MyBiquad.FiniteCoeffs e.treble ∧
    (Binary32.MyBiquad.Process e.bass x).1.isFinite = true ∧
    (Binary32.MyBiquad.Process e.mid (Binary32.MyBiquad.Process e.bass x).1).1.isFinite
      = true ∧
    Binary32.EQ3Band.Tame L (Binary32.EQ3Band.Process e x).2 cs

/-- Lines 102-112: the locals of `SetLowShelf` in binary32, for the sample rate `sr` held
in `sr_`. -/
def Binary32.EQ3Band.lowShelfLocals (L : Libm Fp) (sr freq Q dbGain : Fp) :
    DesignLocals Fp :=
  let A := Binary32.EQ3Band.designA L dbGain
  let w0 := Binary32.EQ3Band.designW0 L sr freq
  let alpha := L.sinf w0 / (2 * Q)
  let cosw0 := L.cosf w0
  let b0 := A * ((A + 1) - (A - 1) * cosw0 + 2 * L.sqrtf A * alpha)
  let b1 := 2 * A * ((A - 1) - (A + 1) * cosw0)
  let b2 := A * ((A + 1) - (A - 1) * cosw0 - 2 * L.sqrtf A * alpha)
  let a0 := (A + 1) + (A - 1) * cosw0 + 2 * L.sqrtf A * alpha
  let a1 := -2 * ((A - 1) + (A + 1) * cosw0)
  let a2 := (A + 1) + (A - 1) * cosw0 - 2 * L.sqrtf A * alpha
  ⟨A, w0, alpha, cosw0, b0, b1, b2, a0, a1, a2⟩

/-- Lines 119-129: the locals of `SetHighShelf` in binary32, for the sample rate `sr` held
in `sr_`. -/
def Binary32.EQ3Band.highShelfLocals (L : Libm Fp) (sr freq Q dbGain : Fp) :
    DesignLocals Fp :=
  let A := Binary32.EQ3Band.designA L dbGain
  let w0 := Binary32.EQ3Band.designW0 L sr freq
  let alpha := L.sinf w0 / (2 * Q)
  let cosw0 := L.cosf w0
  let b0 := A * ((A + 1) + (A - 1) * cosw0 + 2 * L.sqrtf A * alpha)
  let b1 := -2 * A * ((A - 1) + (A + 1) * cosw0)
  let b2 := A * ((A + 1) + (A - 1) * cosw0 - 2 * L.sqrtf A * alpha)
  let a0 := (A + 1) - (A - 1) * cosw0 + 2 * L.sqrtf A * alpha
  let a1 := 2 * ((A - 1) - (A + 1) * cosw0)
  let a2 := (A + 1) - (A - 1) * cosw0 - 2 * L.sqrtf A * alpha
  ⟨A, w0, alpha, cosw0, b0, b1, b2, a0, a1, a2⟩

/-- Lines 136-146: the locals of `SetPeak` in binary32, for the sample rate `sr` held in
`sr_`. -/
def Binary32.EQ3Band.peakLocals (L : Libm Fp) (sr freq Q dbGain : Fp) : DesignLocals Fp :=
  let A := Binary32.EQ3Band.designA L dbGain
  let w0 := Binary32.EQ3Band.designW0 L sr freq
  let alpha := L.sinf w0 / (2 * Q)
  let cosw0 := L.cosf w0
  let b0 := 1 + alpha * A
  let b1 := -2 * cosw0
  let b2 := 1 - alpha * A
  let a0 := 1 + alpha / A
  let a1 := -2 * cosw0
  let a2 := 1 - alpha / A
  ⟨A, w0, alpha, cosw0, b0, b1, b2, a0, a1, a2⟩


/-! ## Auxiliary lemmas -/

section Passthrough

variable {α : Type} [Field α]

theorem MyBiquad.unity_process_out {f : MyBiquad α} (h : f.Unity) (x : α) :
    (f.Process x).1 = x := by
  obtain ⟨h0, h1, h2⟩ := h
  simp only [MyBiquad.Process, h0, h1, h2]
  ring

theorem MyBiquad.unity_process_state {f : MyBiquad α} (h : f.Unity) (x : α) :
    (f.Process x).2.Unity := h

theorem EQ3Band.flat_process_out {e : EQ3Band α} (h : e.Flat) (x : α) :
    (e.Process x).1 = x := by
  obtain ⟨hb, hm, ht⟩ := h
  simp only [EQ3Band.Process, MyBiquad.unity_process_out hb, MyBiquad.unity_process_out hm,
    MyBiquad.unity_process_out ht]

theorem EQ3Band.flat_process_state {e : EQ3Band α} (h : e.Flat) (x : α) :
    (e.Process x).2.Flat := h

theorem EQ3Band.flat_stateAfter {e : EQ3Band α} (h : e.Flat) (x : ℕ → α) (n : ℕ) :
    (e.stateAfter x n).Flat := by
  induction n with
  | zero => exact h
  | succ n ih => exact EQ3Band.flat_process_state ih (x n)

theorem EQ3Band.flat_output {e : EQ3Band α} (h : e.Flat) (x : ℕ → α) (n : ℕ) :
    e.output x n = x n :=
  EQ3Band.flat_process_out (EQ3Band.flat_stateAfter h x n) (x n)

end Passthrough

section ZeroGain

theorem realLibm_powf (x y : ℝ) : realLibm.powf x y = x ^ y := rfl

theorem realLibm_sinf (x : ℝ) : realLibm.sinf x = Real.sin x := rfl

theorem realLibm_cosf (x : ℝ) : realLibm.cosf x = Real.cos x := rfl

theorem realLibm_sqrtf (x : ℝ) : realLibm.sqrtf x = Real.sqrt x := rfl

theorem realLibm_M_PI : realLibm.M_PI = Real.pi := rfl

/-- A low-shelf design at 0 dB with `0 < sin w0` and `0 < Q` is a pass-through section. -/
theorem SetLowShelf_zero_unity (e : EQ3Band ℝ) (f : MyBiquad ℝ) (freq Q : ℝ)
    (hs : 0 < Real.sin (EQ3Band.designW0 realLibm e.sr_ freq)) (hQ : 0 < Q) :
    (EQ3Band.SetLowShelf realLibm e f freq Q 0).Unity := by
  have hα : 0 < Real.sin (EQ3Band.designW0 realLibm e.sr_ freq) / (2 * Q) := by positivity
  simp only [MyBiquad.Unity, EQ3Band.SetLowShelf, MyBiquad.SetCoeffs, realLibm_powf,
    realLibm_sinf, realLibm_cosf, realLibm_sqrtf, zero_div, Real.rpow_zero, Real.sqrt_one]
  generalize Real.sin (EQ3Band.designW0 realLibm e.sr_ freq) / (2 * Q) = t at hα
  generalize Real.cos (EQ3Band.designW0 realLibm e.sr_ freq) = c
  have hne : (1 + 1 : ℝ) + (1 - 1) * c + 2 * 1 * t ≠ 0 := by
    have : (0 : ℝ) < (1 + 1 : ℝ) + (1 - 1) * c + 2 * 1 * t := by linarith
    exact ne_of_gt this
  refine ⟨?_, ?_, ?_⟩
  · rw [div_eq_one_iff_eq hne]
    ring
  · congr 1
    ring
  · congr 1
    ring

/-- A high-shelf design at 0 dB with `0 < sin w0` and `0 < Q` is a pass-through section. -/
theorem SetHighShelf_zero_unity (e : EQ3Band ℝ) (f : MyBiquad ℝ) (freq Q : ℝ)
    (hs : 0 < Real.sin (EQ3Band.designW0 realLibm e.sr_ freq)) (hQ : 0 < Q) :
    (EQ3Band.SetHighShelf realLibm e f freq Q 0).Unity := by
  have hα : 0 < Real.sin (EQ3Band.designW0 realLibm e.sr_ freq) / (2 * Q) := by positivity
  simp only [MyBiquad.Unity, EQ3Band.SetHighShelf, MyBiquad.SetCoeffs, realLibm_powf,
    realLibm_sinf, realLibm_cosf, realLibm_sqrtf, zero_div, Real.rpow_zero, Real.sqrt_one]
  generalize Real.sin (EQ3Band.designW0 realLibm e.sr_ freq) / (2 * Q) = t at hα
  generalize Real.cos (EQ3Band.designW0 realLibm e.sr_ freq) = c
  have hne : (1 + 1 : ℝ) - (1 - 1) * c + 2 * 1 * t ≠ 0 := by
    have : (0 : ℝ) < (1 + 1 : ℝ) - (1 - 1) * c + 2 * 1 * t := by linarith
    exact ne_of_gt this
  refine ⟨?_, ?_, ?_⟩
  · rw [div_eq_one_iff_eq hne]
    ring
  · congr 1
    ring
  · congr 1
    ring

/-- A peaking design at 0 dB with `0 < sin w0` and `0 < Q` is a pass-through section. -/
theorem SetPeak_zero_unity (e : EQ3Band ℝ) (f : MyBiquad ℝ) (freq Q : ℝ)
    (hs : 0 < Real.sin (EQ3Band.designW0 realLibm e.sr_ freq)) (hQ : 0 < Q) :
    (EQ3Band.SetPeak realLibm e f freq Q 0).Unity := by
  have hα : 0 < Real.sin (EQ3Band.designW0 realLibm e.sr_ freq) / (2 * Q) := by positivity
  simp only [MyBiquad.Unity, EQ3Band.SetPeak, MyBiquad.SetCoeffs, realLibm_powf,
    realLibm_sinf, realLibm_cosf, zero_div, Real.rpow_zero, mul_one, div_one, and_self,
    and_true]
  generalize Real.sin (EQ3Band.designW0 realLibm e.sr_ freq) / (2 * Q) = t at hα
  exact div_self (by linarith)

/-- The mapping gives 0 dB at mid-travel, for every `maxDb`. -/
theorem PotToDb_half (maxDb : ℝ) : EQ3Band.PotToDb 0.5 maxDb = 0 := by
  unfold EQ3Band.PotToDb
  norm_num

/-- At 48 kHz the bass band sits at `w0 = π/300`. -/
theorem designW0_bass : EQ3Band.designW0 realLibm 48000 80 = Real.pi / 300 := by
  simp only [EQ3Band.designW0, realLibm]
  ring

/-- At 48 kHz the mid band sits at `w0 = π/30`. -/
theorem designW0_mid : EQ3Band.designW0 realLibm 48000 800 = Real.pi / 30 := by
  simp only [EQ3Band.designW0, realLibm]
  ring

/-- At 48 kHz the treble band sits at `w0 = π/6`. -/
theorem designW0_treble : EQ3Band.designW0 realLibm 48000 4000 = Real.pi / 6 := by
  simp only [EQ3Band.designW0, realLibm]
  ring

/-- The sine of a positive fraction `π/k`, `1 < k`, is positive. -/
theorem sin_pi_div_pos (k : ℝ) (hk : 1 < k) : 0 < Real.sin (Real.pi / k) := by
  have hpi := Real.pi_pos
  have hk0 : 0 < k := by linarith
  apply Real.sin_pos_of_pos_of_lt_pi
  · positivity
  · rw [div_lt_iff₀ hk0]
    nlinarith

end ZeroGain

section Divergence

/-- With `a1 - b1 ≤ -2` and `0 ≤ a2 - b2`, a zero input sample flips the sign of the
newest register and at least doubles its size. -/
theorem MyBiquad.alternating_step {f : MyBiquad ℝ} {m : ℝ} (hp : f.a1 - f.b1 ≤ -2)
    (hq : 0 ≤ f.a2 - f.b2) (hm : 0 ≤ m) (h : f.Alternating m) :
    (f.Process 0).2.Alternating (2 * m) := by
  have hy : (f.Process 0).2.z1 = (f.a1 - f.b1) * f.z1 + (f.a2 - f.b2) * f.z2 := by
    simp only [MyBiquad.Process]
    ring
  have hz : (f.Process 0).2.z2 = f.z1 := rfl
  unfold MyBiquad.Alternating
  rw [hy, hz]
  rcases h with ⟨h1, h2⟩ | ⟨h1, h2⟩
  · right
    have hz1 : 0 ≤ f.z1 := le_trans hm h1
    refine ⟨?_, hz1⟩
    have e1 : (f.a1 - f.b1) * f.z1 ≤ -2 * f.z1 := mul_le_mul_of_nonneg_right hp hz1
    have e2 : (f.a2 - f.b2) * f.z2 ≤ 0 := mul_nonpos_of_nonneg_of_nonpos hq h2
    linarith
  · left
    have hz1 : f.z1 ≤ 0 := by linarith
    refine ⟨?_, hz1⟩
    have e1 : -2 * f.z1 ≤ (f.a1 - f.b1) * f.z1 := mul_le_mul_of_nonpos_right hp hz1
    have e2 : 0 ≤ (f.a2 - f.b2) * f.z2 := mul_nonneg hq h2
    linarith

/-- Since `Process` never writes a coefficient, a stream leaves all five as they were. -/
theorem MyBiquad.stateAfter_coeffs (f : MyBiquad ℝ) (x : ℕ → ℝ) (n : ℕ) :
    (f.stateAfter x n).coeffs = f.coeffs := by
  induction n with
  | zero => rfl
  | succ n ih => exact ih

/-- The impulse response of a section with `1 ≤ a0`, `a1 - b1 ≤ -2`, `0 ≤ a2 - b2` and
zeroed registers: after `n + 1` samples the registers alternate with size `2 ^ n`. -/
theorem MyBiquad.impulse_alternating {f : MyBiquad ℝ} (h0 : 1 ≤ f.a0)
    (hp : f.a1 - f.b1 ≤ -2) (hq : 0 ≤ f.a2 - f.b2) (hz1 : f.z1 = 0) (hz2 : f.z2 = 0)
    (n : ℕ) : (f.stateAfter unitImpulse (n + 1)).Alternating (2 ^ n) := by
  induction n with
  | zero =>
    left
    simp only [MyBiquad.stateAfter, MyBiquad.Process, unitImpulse, hz1, hz2]
    constructor
    · simpa using h0
    · exact le_refl 0
  | succ n ih =>
    have hc := MyBiquad.stateAfter_coeffs f unitImpulse (n + 1)
    simp only [MyBiquad.coeffs, FilterCoefficients.mk.injEq] at hc
    obtain ⟨-, c1, c2, c3, c4⟩ := hc
    have hx : (unitImpulse (n + 1) : ℝ) = 0 := by simp [unitImpulse]
    have := MyBiquad.alternating_step (f := f.stateAfter unitImpulse (n + 1)) (m := 2 ^ n)
      (by rw [c1, c3]; exact hp) (by rw [c2, c4]; exact hq) (by positivity) ih
    rw [pow_succ, mul_comm]
    show ((f.stateAfter unitImpulse (n + 1)).Process (unitImpulse (n + 1))).2.Alternating _
    rw [hx]
    exact this

/-- Under the same hypotheses the `n`-th sample of the impulse response has size at
least `2 ^ n`. -/
theorem MyBiquad.impulse_output_ge {f : MyBiquad ℝ} (h0 : 1 ≤ f.a0)
    (hp : f.a1 - f.b1 ≤ -2) (hq : 0 ≤ f.a2 - f.b2) (hz1 : f.z1 = 0) (hz2 : f.z2 = 0)
    (n : ℕ) : (2 : ℝ) ^ n ≤ |f.output unitImpulse n| := by
  have h := MyBiquad.impulse_alternating h0 hp hq hz1 hz2 n
  have hpos : (0 : ℝ) < 2 ^ n := by positivity
  have ho : f.output unitImpulse n = (f.stateAfter unitImpulse (n + 1)).z1 := rfl
  rw [ho]
  rcases h with ⟨h1, -⟩ | ⟨h1, -⟩
  · exact le_trans h1 (le_abs_self _)
  · exact le_trans (by linarith) (neg_le_abs _)

/-- A sequence bounded below in size by `2 ^ n` does not converge to 0. -/
theorem not_tendsto_zero_of_pow_le (u : ℕ → ℝ) (h : ∀ n, (2 : ℝ) ^ n ≤ |u n|) :
    ¬ Filter.Tendsto u Filter.atTop (nhds 0) := by
  intro ht
  rw [Metric.tendsto_atTop] at ht
  obtain ⟨N, hN⟩ := ht 1 one_pos
  have h1 := hN N (le_refl N)
  rw [Real.dist_eq, sub_zero] at h1
  have h2 : (1 : ℝ) ≤ 2 ^ N := one_le_pow₀ (by norm_num)
  linarith [h N]

/-- The amplitude `A = 10^(15/40)` of a 15 dB boost lies between 2 and 3. -/
theorem boost_amplitude_bounds :
    (2 : ℝ) ≤ (10 : ℝ) ^ (EQ3Band.PotToDb (0 : ℝ) 15 / 40) ∧
      (10 : ℝ) ^ (EQ3Band.PotToDb (0 : ℝ) 15 / 40) ≤ 3 := by
  have he : EQ3Band.PotToDb (0 : ℝ) 15 / 40 = 3 / 8 := by
    unfold EQ3Band.PotToDb
    norm_num
  rw [he]
  have h8 : ((10 : ℝ) ^ ((3 : ℝ) / 8)) ^ 8 = 1000 := by
    rw [← Real.rpow_natCast, ← Real.rpow_mul (by norm_num)]
    norm_num
  have hpos : (0 : ℝ) ≤ (10 : ℝ) ^ ((3 : ℝ) / 8) := by positivity
  constructor
  · by_contra hlt
    push_neg at hlt
    have := pow_lt_pow_left₀ hlt hpos (by norm_num : (8 : ℕ) ≠ 0)
    rw [h8] at this
    norm_num at this
  · by_contra hlt
    push_neg at hlt
    have := pow_lt_pow_left₀ hlt (by norm_num : (0 : ℝ) ≤ 3) (by norm_num : (8 : ℕ) ≠ 0)
    rw [h8] at this
    norm_num at this

/-- The polynomial `z^2 - p*z - q` with `p ≤ -2` and `0 ≤ q` has a real root `z ≤ -1`. -/
theorem exists_root_le_neg_one (p q : ℝ) (hp : p ≤ -2) (hq : 0 ≤ q) :
    ∃ z : ℝ, z ≤ -1 ∧ z ^ 2 - p * z - q = 0 := by
  have hD : 0 ≤ p ^ 2 + 4 * q := by positivity
  refine ⟨(p - √(p ^ 2 + 4 * q)) / 2, ?_, ?_⟩
  · have := Real.sqrt_nonneg (p ^ 2 + 4 * q)
    linarith
  · have hsq := Real.sq_sqrt hD
    nlinarith

/-- The treble section after `Init(48000)` and `SetTreble(0)` (a 15 dB boost). -/
theorem treble_boost_facts (e : EQ3Band ℝ) :
    1 ≤ ((e.Init 48000).SetTreble realLibm 0).treble.a0 ∧
    ((e.Init 48000).SetTreble realLibm 0).treble.a1 -
      ((e.Init 48000).SetTreble realLibm 0).treble.b1 ≤ -2 ∧
    0 ≤ ((e.Init 48000).SetTreble realLibm 0).treble.a2 -
      ((e.Init 48000).SetTreble realLibm 0).treble.b2 ∧
    ((e.Init 48000).SetTreble realLibm 0).treble.z1 = 0 ∧
    ((e.Init 48000).SetTreble realLibm 0).treble.z2 = 0 := by
  obtain ⟨hA2, hA3⟩ := boost_amplitude_bounds
  simp only [EQ3Band.SetTreble, EQ3Band.Init, EQ3Band.SetHighShelf, MyBiquad.SetCoeffs,
    MyBiquad.Init, realLibm_powf, realLibm_sinf, realLibm_cosf, realLibm_sqrtf,
    designW0_treble, Real.sin_pi_div_six, Real.cos_pi_div_six, and_true]
  have hs0 : 0 ≤ √((10 : ℝ) ^ (EQ3Band.PotToDb (0 : ℝ) 15 / 40)) := Real.sqrt_nonneg _
  have hs2 : √((10 : ℝ) ^ (EQ3Band.PotToDb (0 : ℝ) 15 / 40)) ≤ 2 :=
    Real.sqrt_le_iff.mpr ⟨by norm_num, by linarith⟩
  have hc : (0.86 : ℝ) ≤ √3 / 2 := by
    have : (1.72 : ℝ) ≤ √3 := (Real.le_sqrt (by norm_num) (by norm_num)).mpr (by norm_num)
    linarith
  have hc1 : √3 / 2 ≤ (1 : ℝ) := by
    have : √3 ≤ (2 : ℝ) := Real.sqrt_le_iff.mpr ⟨by norm_num, by norm_num⟩
    linarith
  have ht0 : (0 : ℝ) ≤ 1 / 2 / (2 * 0.707) := by norm_num
  have ht1 : (1 : ℝ) / 2 / (2 * 0.707) ≤ 0.36 := by norm_num
  generalize √((10 : ℝ) ^ (EQ3Band.PotToDb (0 : ℝ) 15 / 40)) = s at hs0 hs2 ⊢
  generalize (10 : ℝ) ^ (EQ3Band.PotToDb (0 : ℝ) 15 / 40) = A at hA2 hA3 ⊢
  generalize √3 / 2 = c at hc hc1 ⊢
  generalize (1 : ℝ) / 2 / (2 * 0.707) = t at ht0 ht1 ⊢
  have hst0 : 0 ≤ s * t := mul_nonneg hs0 ht0
  have hst1 : s * t ≤ 2 * 0.36 := mul_le_mul hs2 ht1 ht0 (by norm_num)
  have hAc0 : (A - 1) * 0.86 ≤ (A - 1) * c := mul_le_mul_of_nonneg_left hc (by linarith)
  have hAc1 : (A - 1) * c ≤ (A - 1) * 1 := mul_le_mul_of_nonneg_left hc1 (by linarith)
  have hBc0 : (A + 1) * 0.86 ≤ (A + 1) * c := mul_le_mul_of_nonneg_left hc (by linarith)
  have hD : 0 < A + 1 - (A - 1) * c + 2 * s * t := by nlinarith
  refine ⟨?_, ?_, ?_⟩
  · rw [one_le_div hD]
    have hX : 0 ≤ A + 1 + (A - 1) * c + 2 * s * t := by nlinarith
    have : 2 * (A + 1 + (A - 1) * c + 2 * s * t) ≤ A * (A + 1 + (A - 1) * c + 2 * s * t) :=
      mul_le_mul_of_nonneg_right hA2 hX
    nlinarith
  · rw [← sub_div, div_le_iff₀ hD]
    have hAA : 2 * (A - 1) ≤ A * (A - 1) := mul_le_mul_of_nonneg_right hA2 (by linarith)
    have hAB : 2 * ((A + 1) * c) ≤ A * ((A + 1) * c) :=
      mul_le_mul_of_nonneg_right hA2 (by nlinarith)
    nlinarith
  · rw [← sub_div]
    apply div_nonneg _ hD.le
    have hX : 0 ≤ A + 1 + (A - 1) * c - 2 * s * t := by nlinarith
    have : 2 * (A + 1 + (A - 1) * c - 2 * s * t) ≤ A * (A + 1 + (A - 1) * c - 2 * s * t) :=
      mul_le_mul_of_nonneg_right hA2 hX
    nlinarith

end Divergence

section Muted

variable {α : Type} [Field α]

/-- A default-constructed section returns 0 on every sample and stays as it is. -/
theorem MyBiquad.process_fresh (x : α) :
    (MyBiquad.fresh : MyBiquad α).Process x = (0, MyBiquad.fresh) := by
  simp [MyBiquad.Process, MyBiquad.fresh]

/-- The sections of the zero-initialised equalizer are unchanged by `Init`. -/
theorem EQ3Band.init_fresh_sections (sr : α) :
    ((EQ3Band.fresh : EQ3Band α).Init sr).bass = MyBiquad.fresh ∧
    ((EQ3Band.fresh : EQ3Band α).Init sr).mid = MyBiquad.fresh ∧
    ((EQ3Band.fresh : EQ3Band α).Init sr).treble = MyBiquad.fresh :=
  ⟨rfl, rfl, rfl⟩

/-- An equalizer whose three sections are default-constructed returns 0 and keeps its
state. -/
theorem EQ3Band.process_all_fresh (e : EQ3Band α) (hb : e.bass = MyBiquad.fresh)
    (hm : e.mid = MyBiquad.fresh) (ht : e.treble = MyBiquad.fresh) (x : α) :
    e.Process x = (0, e) := by
  cases e
  simp only at hb hm ht
  subst hb hm ht
  simp only [EQ3Band.Process, MyBiquad.process_fresh]

/-- No sample changes an equalizer whose three sections are default-constructed. -/
theorem EQ3Band.stateAfter_all_fresh (e : EQ3Band α) (hb : e.bass = MyBiquad.fresh)
    (hm : e.mid = MyBiquad.fresh) (ht : e.treble = MyBiquad.fresh) (x : ℕ → α) (n : ℕ) :
    e.stateAfter x n = e := by
  induction n with
  | zero => rfl
  | succ n ih =>
    show ((e.stateAfter x n).Process (x n)).2 = e
    rw [ih, EQ3Band.process_all_fresh e hb hm ht]

end Muted

section MutedCalls

variable {α : Type} [Field α]

/-- A section with zeroed delay registers returns 0 on the input 0 and stays as it is,
whatever its coefficients. -/
theorem MyBiquad.process_zero_quiet (f : MyBiquad α) (h1 : f.z1 = 0) (h2 : f.z2 = 0) :
    f.Process 0 = (0, f) := by
  cases f
  simp only at h1 h2
  subst h1 h2
  simp [MyBiquad.Process]

/-- While the treble section is default-constructed and `SetTreble` is not called, every
`Process` call returns 0. -/
theorem EQ3Band.run_treble_unset (L : Libm α) (cs : List (Call α))
    (h : ∀ p, Call.SetTreble p ∉ cs) (e : EQ3Band α) (ht : e.treble = MyBiquad.fresh) :
    ∀ y ∈ (EQ3Band.run L e cs).2, y = 0 := by
  induction cs generalizing e with
  | nil => simp [EQ3Band.run]
  | cons c cs ih =>
    have hcs : ∀ p, Call.SetTreble p ∉ cs := fun p hp => h p (List.mem_cons_of_mem _ hp)
    cases c with
    | SetBass pot => exact ih hcs _ ht
    | SetMid pot => exact ih hcs _ ht
    | SetTreble pot => exact absurd (List.mem_cons_self _ _) (h pot)
    | Process x =>
      have ho : (e.Process x).1 = 0 := by
        simp only [EQ3Band.Process, ht, MyBiquad.process_fresh]
      have hs : (e.Process x).2.treble = MyBiquad.fresh := by
        simp only [EQ3Band.Process, ht, MyBiquad.process_fresh]
      intro y hy
      simp only [EQ3Band.run, List.mem_cons] at hy
      rcases hy with hy | hy
      · rw [hy, ho]
      · exact ih hcs _ hs y hy

/-- While the mid section is default-constructed, the treble registers are zero and
`SetMid` is not called, every `Process` call returns 0. -/
theorem EQ3Band.run_mid_unset (L : Libm α) (cs : List (Call α))
    (h : ∀ p, Call.SetMid p ∉ cs) (e : EQ3Band α) (hm : e.mid = MyBiquad.fresh)
    (ht1 : e.treble.z1 = 0) (ht2 : e.treble.z2 = 0) :
    ∀ y ∈ (EQ3Band.run L e cs).2, y = 0 := by
  induction cs generalizing e with
  | nil => simp [EQ3Band.run]
  | cons c cs ih =>
    have hcs : ∀ p, Call.SetMid p ∉ cs := fun p hp => h p (List.mem_cons_of_mem _ hp)
    cases c with
    | SetBass pot => exact ih hcs _ hm ht1 ht2
    | SetMid pot => exact absurd (List.mem_cons_self _ _) (h pot)
    | SetTreble pot => exact ih hcs _ hm ht1 ht2
    | Process x =>
      have hp : e.Process x = (0, { e with bass := (e.bass.Process x).2 }) := by
        simp only [EQ3Band.Process, hm, MyBiquad.process_fresh,
          MyBiquad.process_zero_quiet e.treble ht1 ht2]
      intro y hy
      simp only [EQ3Band.run, List.mem_cons, hp] at hy
      rcases hy with hy | hy
      · exact hy
      · exact ih hcs { e with bass := (e.bass.Process x).2 } hm ht1 ht2 y hy

/-- While the bass section is default-constructed, the mid and treble registers are zero
and `SetBass` is not called, every `Process` call returns 0. -/
theorem EQ3Band.run_bass_unset (L : Libm α) (cs : List (Call α))
    (h : ∀ p, Call.SetBass p ∉ cs) (e : EQ3Band α) (hb : e.bass = MyBiquad.fresh)
    (hm1 : e.mid.z1 = 0) (hm2 : e.mid.z2 = 0)
    (ht1 : e.treble.z1 = 0) (ht2 : e.treble.z2 = 0) :
    ∀ y ∈ (EQ3Band.run L e cs).2, y = 0 := by
  induction cs generalizing e with
  | nil => simp [EQ3Band.run]
  | cons c cs ih =>
    have hcs : ∀ p, Call.SetBass p ∉ cs := fun p hp => h p (List.mem_cons_of_mem _ hp)
    cases c with
    | SetBass pot => exact absurd (List.mem_cons_self _ _) (h pot)
    | SetMid pot => exact ih hcs _ hb hm1 hm2 ht1 ht2
    | SetTreble pot => exact ih hcs _ hb hm1 hm2 ht1 ht2
    | Process x =>
      have hp : e.Process x = (0, e) := by
        simp only [EQ3Band.Process, hb, MyBiquad.process_fresh,
          MyBiquad.process_zero_quiet e.mid hm1 hm2,
          MyBiquad.process_zero_quiet e.treble ht1 ht2]
        rw [← hb]
      intro y hy
      simp only [EQ3Band.run, List.mem_cons, hp] at hy
      rcases hy with hy | hy
      · exact hy
      · exact ih hcs _ hb hm1 hm2 ht1 ht2 y hy

end MutedCalls

section Locals

variable {α : Type} [Field α]

/-- The section `SetLowShelf` leaves is `SetCoeffs` of its locals, each divided by `a0`. -/
theorem SetLowShelf_eq_locals (L : Libm α) (e : EQ3Band α) (f : MyBiquad α)
    (freq Q dbGain : α) :
    EQ3Band.SetLowShelf L e f freq Q dbGain =
      f.SetCoeffs
        ((EQ3Band.lowShelfLocals L e.sr_ freq Q dbGain).b0 /
          (EQ3Band.lowShelfLocals L e.sr_ freq Q dbGain).a0)
        ((EQ3Band.lowShelfLocals L e.sr_ freq Q dbGain).b1 /
          (EQ3Band.lowShelfLocals L e.sr_ freq Q dbGain).a0)
        ((EQ3Band.lowShelfLocals L e.sr_ freq Q dbGain).b2 /
          (EQ3Band.lowShelfLocals L e.sr_ freq Q dbGain).a0)
        ((EQ3Band.lowShelfLocals L e.sr_ freq Q dbGain).a1 /
          (EQ3Band.lowShelfLocals L e.sr_ freq Q dbGain).a0)
        ((EQ3Band.lowShelfLocals L e.sr_ freq Q dbGain).a2 /
          (EQ3Band.lowShelfLocals L e.sr_ freq Q dbGain).a0) :=
  rfl

/-- The section `SetHighShelf` leaves is `SetCoeffs` of its locals, each divided by
`a0`. -/
theorem SetHighShelf_eq_locals (L : Libm α) (e : EQ3Band α) (f : MyBiquad α)
    (freq Q dbGain : α) :
    EQ3Band.SetHighShelf L e f freq Q dbGain =
      f.SetCoeffs
        ((EQ3Band.highShelfLocals L e.sr_ freq Q dbGain).b0 /
          (EQ3Band.highShelfLocals L e.sr_ freq Q dbGain).a0)
        ((EQ3Band.highShelfLocals L e.sr_ freq Q dbGain).b1 /
          (EQ3Band.highShelfLocals L e.sr_ freq Q dbGain).a0)
        ((EQ3Band.highShelfLocals L e.sr_ freq Q dbGain).b2 /
          (EQ3Band.highShelfLocals L e.sr_ freq Q dbGain).a0)
        ((EQ3Band.highShelfLocals L e.sr_ freq Q dbGain).a1 /
          (EQ3Band.highShelfLocals L e.sr_ freq Q dbGain).a0)
        ((EQ3Band.highShelfLocals L e.sr_ freq Q dbGain).a2 /
          (EQ3Band.highShelfLocals L e.sr_ freq Q dbGain).a0) :=
  rfl

/-- The section `SetPeak` leaves is `SetCoeffs` of its locals, each divided by `a0`. -/
theorem SetPeak_eq_locals (L : Libm α) (e : EQ3Band α) (f : MyBiquad α)
    (freq Q dbGain : α) :
    EQ3Band.SetPeak L e f freq Q dbGain =
      f.SetCoeffs
        ((EQ3Band.peakLocals L e.sr_ freq Q dbGain).b0 /
          (EQ3Band.peakLocals L e.sr_ freq Q dbGain).a0)
        ((EQ3Band.peakLocals L e.sr_ freq Q dbGain).b1 /
          (EQ3Band.peakLocals L e.sr_ freq Q dbGain).a0)
        ((EQ3Band.peakLocals L e.sr_ freq Q dbGain).b2 /
          (EQ3Band.peakLocals L e.sr_ freq Q dbGain).a0)
        ((EQ3Band.peakLocals L e.sr_ freq Q dbGain).a1 /
          (EQ3Band.peakLocals L e.sr_ freq Q dbGain).a0)
        ((EQ3Band.peakLocals L e.sr_ freq Q dbGain).a2 /
          (EQ3Band.peakLocals L e.sr_ freq Q dbGain).a0) :=
  rfl

/-- Below Nyquist the sine of `w0 = 2*pi*freq/sr` is positive. -/
theorem sin_w0_pos (sr freq : ℝ) (hf : 0 < freq) (h : 2 * freq < sr) :
    0 < Real.sin (2 * Real.pi * freq / sr) := by
  have hpi := Real.pi_pos
  have hsr : 0 < sr := by linarith
  apply Real.sin_pos_of_pos_of_lt_pi
  · positivity
  · rw [div_lt_iff₀ hsr]
    have : Real.pi * (2 * freq) < Real.pi * sr := mul_lt_mul_of_pos_left h hpi
    linarith

/-- The shelf divisor `(A+1) ± (A-1)*c + 2*s*t` is positive for `0 < A`, `|c| ≤ 1` and
`0 < s*t`, in the form with `+`. -/
theorem shelf_divisor_pos_add (A c s t : ℝ) (hA : 0 < A) (hc1 : -1 ≤ c) (hc2 : c ≤ 1)
    (hs : 0 < s) (ht : 0 < t) : 0 < A + 1 + (A - 1) * c + 2 * s * t := by
  have h1 : 0 ≤ A * (1 + c) := mul_nonneg hA.le (by linarith)
  have h2 : 0 < s * t := mul_pos hs ht
  nlinarith

/-- The same divisor in the form with `-`. -/
theorem shelf_divisor_pos_sub (A c s t : ℝ) (hA : 0 < A) (hc1 : -1 ≤ c) (hc2 : c ≤ 1)
    (hs : 0 < s) (ht : 0 < t) : 0 < A + 1 - (A - 1) * c + 2 * s * t := by
  have h1 : 0 ≤ A * (1 - c) := mul_nonneg hA.le (by linarith)
  have h2 : 0 < s * t := mul_pos hs ht
  nlinarith

end Locals

section Scenario

/-- The amplitude `A = 10^(15/40)` of a 15 dB boost, to four decimals. -/
theorem boost_amplitude_tight :
    (2.3712 : ℝ) ≤ (10 : ℝ) ^ (EQ3Band.PotToDb (0 : ℝ) 15 / 40) ∧
      (10 : ℝ) ^ (EQ3Band.PotToDb (0 : ℝ) 15 / 40) ≤ 2.3716 := by
  have he : EQ3Band.PotToDb (0 : ℝ) 15 / 40 = 3 / 8 := by
    unfold EQ3Band.PotToDb
    norm_num
  rw [he]
  have h8 : ((10 : ℝ) ^ ((3 : ℝ) / 8)) ^ 8 = 1000 := by
    rw [← Real.rpow_natCast, ← Real.rpow_mul (by norm_num)]
    norm_num
  have hpos : (0 : ℝ) ≤ (10 : ℝ) ^ ((3 : ℝ) / 8) := by positivity
  constructor
  · by_contra hlt
    push_neg at hlt
    have := pow_lt_pow_left₀ hlt hpos (by norm_num : (8 : ℕ) ≠ 0)
    rw [h8] at this
    norm_num at this
  · by_contra hlt
    push_neg at hlt
    have := pow_lt_pow_left₀ hlt (by norm_num : (0 : ℝ) ≤ 2.3716)
      (by norm_num : (8 : ℕ) ≠ 0)
    rw [h8] at this
    norm_num at this

/-- The bass band at 48 kHz: bounds on `w0 = 2*pi*80/48000`, its sine and its cosine. -/
theorem bass_w0_bounds :
    (0.01047197 : ℝ) < 2 * Real.pi * 80 / 48000 ∧
    2 * Real.pi * 80 / 48000 < (0.01047198 : ℝ) ∧
    (0.01047168 : ℝ) < Real.sin (2 * Real.pi * 80 / 48000) ∧
    Real.sin (2 * Real.pi * 80 / 48000) < (0.01047198 : ℝ) ∧
    (0.9999448 : ℝ) < Real.cos (2 * Real.pi * 80 / 48000) ∧
    Real.cos (2 * Real.pi * 80 / 48000) ≤ 1 := by
  have h1 := Real.pi_gt_d6
  have h2 := Real.pi_lt_d6
  have hw : 2 * Real.pi * 80 / 48000 = Real.pi / 300 := by ring
  rw [hw]
  have hlo : (0.01047197 : ℝ) < Real.pi / 300 := by
    rw [lt_div_iff₀ (by norm_num)]
    norm_num
    linarith
  have hhi : Real.pi / 300 < (0.01047198 : ℝ) := by
    rw [div_lt_iff₀ (by norm_num)]
    norm_num
    linarith
  have hpos : 0 < Real.pi / 300 := by positivity
  have hs1 := Real.sin_lt hpos
  have hs2 := Real.sin_gt_sub_cube hpos (by linarith)
  have hc := Real.one_sub_sq_div_two_le_cos (x := Real.pi / 300)
  have hsq : (Real.pi / 300) ^ 2 < 0.0105 ^ 2 := by
    apply pow_lt_pow_left₀ _ hpos.le (by norm_num)
    linarith
  have hcu : (Real.pi / 300) ^ 3 < 0.0105 ^ 3 := by
    apply pow_lt_pow_left₀ _ hpos.le (by norm_num)
    linarith
  refine ⟨hlo, hhi, ?_, by linarith, ?_, Real.cos_le_one _⟩
  · norm_num at hcu ⊢
    linarith
  · norm_num at hsq ⊢
    linarith

/-- For a positive quoted value the tolerance band is `[q - tol*q, q + tol*q]`. -/
theorem withinRel_iff_of_pos (v q tol : ℝ) (hq : 0 < q) :
    Spec.withinRel v q tol ↔ q - tol * q ≤ v ∧ v ≤ q + tol * q := by
  unfold Spec.withinRel
  rw [abs_of_pos hq, abs_sub_le_iff]
  constructor
  · rintro ⟨h1, h2⟩
    exact ⟨by linarith, by linarith⟩
  · rintro ⟨h1, h2⟩
    exact ⟨by linarith, by linarith⟩

end Scenario

section SeriesOrder

/-- From zeroed registers, after `n` samples `z1` holds the previous output and `z2` the
one before. -/
theorem MyBiquad.stateAfter_registers (f : MyBiquad ℝ) (h1 : f.z1 = 0) (h2 : f.z2 = 0)
    (x : ℕ → ℝ) (n : ℕ) :
    (f.stateAfter x n).z1 = delay (f.output x) n ∧
      (f.stateAfter x n).z2 = delay (delay (f.output x)) n := by
  induction n with
  | zero => exact ⟨h1, h2⟩
  | succ n ih => exact ⟨rfl, ih.1⟩

/-- From zeroed registers the output stream satisfies the recurrence of `Process`: its
residual is `a0` times the input. -/
theorem MyBiquad.residual_output (f : MyBiquad ℝ) (h1 : f.z1 = 0) (h2 : f.z2 = 0)
    (x : ℕ → ℝ) (n : ℕ) : f.residual (f.output x) n = f.a0 * x n := by
  obtain ⟨r1, r2⟩ := MyBiquad.stateAfter_registers f h1 h2 x n
  have hc := MyBiquad.stateAfter_coeffs f x n
  simp only [MyBiquad.coeffs, FilterCoefficients.mk.injEq] at hc
  obtain ⟨c0, c1, c2, c3, c4⟩ := hc
  have ho : f.output x n = f.a0 * x n + f.a1 * delay (f.output x) n
      + f.a2 * delay (delay (f.output x)) n - f.b1 * delay (f.output x) n
      - f.b2 * delay (delay (f.output x)) n := by
    rw [← r1, ← r2, ← c0, ← c1, ← c2, ← c3, ← c4]
    rfl
  unfold MyBiquad.residual
  linarith

/-- Two streams with the same residual are the same stream. -/
theorem MyBiquad.residual_injective (f : MyBiquad ℝ) (y y' : ℕ → ℝ)
    (h : ∀ n, f.residual y n = f.residual y' n) : ∀ n, y n = y' n := by
  intro n
  induction n using Nat.strong_induction_on with
  | _ n ih =>
    have hn := h n
    unfold MyBiquad.residual at hn
    rcases n with _ | _ | n
    · simp only [delay] at hn
      linarith
    · have e0 := ih 0 (by omega)
      simp only [delay] at hn
      rw [e0] at hn
      linarith
    · have e0 := ih n (by omega)
      have e1 := ih (n + 1) (by omega)
      simp only [delay] at hn
      rw [e0, e1] at hn
      linarith

/-- The residuals of two sections can be taken in either order. -/
theorem MyBiquad.residual_comm (f g : MyBiquad ℝ) (y : ℕ → ℝ) (n : ℕ) :
    f.residual (g.residual y) n = g.residual (f.residual y) n := by
  rcases n with _ | _ | _ | _ | n <;>
  · simp only [MyBiquad.residual, delay]
    ring

/-- The residual of a scaled stream is the scaled residual. -/
theorem MyBiquad.residual_scale (f : MyBiquad ℝ) (c : ℝ) (y : ℕ → ℝ) (n : ℕ) :
    f.residual (fun k => c * y k) n = c * f.residual y n := by
  rcases n with _ | _ | n <;>
  · simp only [MyBiquad.residual, delay]
    ring

/-- The residual only looks at the stream it is given. -/
theorem MyBiquad.residual_congr (f : MyBiquad ℝ) (y y' : ℕ → ℝ) (h : ∀ n, y n = y' n)
    (n : ℕ) : f.residual y n = f.residual y' n := by
  have : y = y' := funext h
  rw [this]

/-- In exact arithmetic, from zeroed registers two sections in series give the same
output stream in either order. -/
theorem MyBiquad.output_swap (f g : MyBiquad ℝ) (hf1 : f.z1 = 0) (hf2 : f.z2 = 0)
    (hg1 : g.z1 = 0) (hg2 : g.z2 = 0) (x : ℕ → ℝ) :
    f.output (g.output x) = g.output (f.output x) := by
  funext n
  revert n
  apply MyBiquad.residual_injective g
  apply MyBiquad.residual_injective f
  intro n
  have hR : f.residual (g.residual (g.output (f.output x))) n
      = g.a0 * (f.a0 * x n) := by
    have h1 : ∀ k, g.residual (g.output (f.output x)) k = g.a0 * f.output x k :=
      fun k => MyBiquad.residual_output g hg1 hg2 _ k
    rw [MyBiquad.residual_congr f _ _ h1, MyBiquad.residual_scale,
      MyBiquad.residual_output f hf1 hf2]
  have hL : g.residual (f.residual (f.output (g.output x))) n
      = f.a0 * (g.a0 * x n) := by
    have h1 : ∀ k, f.residual (f.output (g.output x)) k = f.a0 * g.output x k :=
      fun k => MyBiquad.residual_output f hf1 hf2 _ k
    rw [MyBiquad.residual_congr g _ _ h1, MyBiquad.residual_scale,
      MyBiquad.residual_output g hg1 hg2]
  rw [MyBiquad.residual_comm f g, hL, hR]
  ring

/-- The sections of the equalizer after `n` samples are its sections after `n` samples
of the streams they are fed in series. -/
theorem EQ3Band.stateAfter_sections (e : EQ3Band ℝ) (x : ℕ → ℝ) (n : ℕ) :
    (e.stateAfter x n).bass = e.bass.stateAfter x n ∧
    (e.stateAfter x n).mid = e.mid.stateAfter (e.bass.output x) n ∧
    (e.stateAfter x n).treble =
      e.treble.stateAfter (e.mid.output (e.bass.output x)) n := by
  induction n with
  | zero => exact ⟨rfl, rfl, rfl⟩
  | succ n ih =>
    obtain ⟨hb, hm, ht⟩ := ih
    refine ⟨?_, ?_, ?_⟩
    · show ((e.stateAfter x n).bass.Process (x n)).2 = _
      rw [hb]
      rfl
    · show ((e.stateAfter x n).mid.Process
        ((e.stateAfter x n).bass.Process (x n)).1).2 = _
      rw [hb, hm]
      rfl
    · show ((e.stateAfter x n).treble.Process ((e.stateAfter x n).mid.Process
        ((e.stateAfter x n).bass.Process (x n)).1).1).2 = _
      rw [hb, hm, ht]
      rfl

/-- The output of the equalizer is the output of its three sections in series. -/
theorem EQ3Band.output_series (e : EQ3Band ℝ) (x : ℕ → ℝ) :
    e.output x = e.treble.output (e.mid.output (e.bass.output x)) := by
  funext n
  obtain ⟨hb, hm, ht⟩ := EQ3Band.stateAfter_sections e x n
  show ((e.stateAfter x n).treble.Process ((e.stateAfter x n).mid.Process
    ((e.stateAfter x n).bass.Process (x n)).1).1).1 = _
  rw [hb, hm, ht]
  rfl

/-- In exact arithmetic three sections with zeroed registers give the same output stream
in all six series orders: a difference between two orders can only come from the rounding
of binary32, where products taken in a different order round differently. -/
theorem EQ3Band.output_any_order (e : EQ3Band ℝ) (b m t : MyBiquad ℝ)
    (hb1 : b.z1 = 0) (hb2 : b.z2 = 0) (hm1 : m.z1 = 0) (hm2 : m.z2 = 0)
    (ht1 : t.z1 = 0) (ht2 : t.z2 = 0) (x : ℕ → ℝ) :
    (e.withSections b t m).output x = (e.withSections b m t).output x ∧
    (e.withSections m b t).output x = (e.withSections b m t).output x ∧
    (e.withSections m t b).output x = (e.withSections b m t).output x ∧
    (e.withSections t b m).output x = (e.withSections b m t).output x ∧
    (e.withSections t m b).output x = (e.withSections b m t).output x := by
  simp only [EQ3Band.output_series, EQ3Band.withSections]
  have sbm := MyBiquad.output_swap b m hb1 hb2 hm1 hm2
  have sbt := MyBiquad.output_swap b t hb1 hb2 ht1 ht2
  have smt := MyBiquad.output_swap m t hm1 hm2 ht1 ht2
  refine ⟨?_, ?_, ?_, ?_, ?_⟩
  · rw [smt]
  · rw [sbm]
  · rw [sbt, sbm]
  · rw [sbt, smt]
  · rw [smt, sbt, sbm]

end SeriesOrder

section Rounding

variable {K : Type} [LinearOrderedField K] [FloorRing K]

/-- A number within less than one half of an integer rounds to that integer. -/
theorem roundHalfEven_eq_of_abs_lt (t : K) (n : ℤ) (h : |t - n| < 1 / 2) :
    roundHalfEven t = n := by
  rw [abs_lt] at h
  obtain ⟨h1, h2⟩ := h
  unfold roundHalfEven
  rcases le_or_lt (n : K) t with hle | hlt
  · have hf : ⌊t⌋ = n := by
      rw [Int.floor_eq_iff]
      exact ⟨hle, by linarith⟩
    rw [hf, if_pos (by linarith)]
  · have hf : ⌊t⌋ = n - 1 := by
      rw [Int.floor_eq_iff]
      push_cast
      exact ⟨by linarith, by linarith⟩
    rw [hf]
    push_cast
    rw [if_neg (by linarith), if_pos (by linarith)]
    ring

/-- Rounding never goes below the floor. -/
theorem floor_le_roundHalfEven (t : K) : ⌊t⌋ ≤ roundHalfEven t := by
  unfold roundHalfEven
  split_ifs <;> omega

/-- In the binade of exponent `e` the unit in the last place of binary32 is
`2^(e-23)`. -/
theorem Fp.quantum32_eq (x : K) (e : ℤ) (he : -126 ≤ e) (h1 : (2 : K) ^ e ≤ |x|)
    (h2 : |x| < (2 : K) ^ (e + 1)) : Fp.quantum binary32 x = e - 23 := by
  have hpos : 0 < |x| := lt_of_lt_of_le (zpow_pos (by norm_num) e) h1
  have hl : Int.log 2 |x| = e := by
    apply le_antisymm
    · have := (Int.lt_zpow_iff_log_lt (b := 2) (by norm_num) hpos).mp h2
      omega
    · exact (Int.zpow_le_iff_le_log (b := 2) (by norm_num) hpos).mp h1
  unfold Fp.quantum
  rw [hl]
  show max e (-126) - (((24 : ℕ) : ℤ) - 1) = e - 23
  rw [max_eq_left he]
  norm_num

/-- Below the least normal number the unit in the last place of binary32 is `2^-149`. -/
theorem Fp.quantum32_tiny (x : K) (h0 : x ≠ 0) (h : |x| < (2 : K) ^ (-126 : ℤ)) :
    Fp.quantum binary32 x = -149 := by
  have hpos : 0 < |x| := abs_pos.mpr h0
  have hl : Int.log 2 |x| ≤ -126 := by
    have := (Int.lt_zpow_iff_log_lt (b := 2) (by norm_num) hpos).mp h
    omega
  unfold Fp.quantum
  show max (Int.log 2 |x|) (-126) - (((24 : ℕ) : ℤ) - 1) = -149
  rw [max_eq_right hl]
  norm_num

/-- The value of `round` in the normal range: for `x` in the binade of exponent `e`,
with `n` the integer nearest to `x / 2^(e-23)`, it is `n * 2^(e-23)`. -/
theorem Fp.round32_eq_fin (x : K) (e n : ℤ) (he : -126 ≤ e) (h1 : (2 : K) ^ e ≤ |x|)
    (h2 : |x| < (2 : K) ^ (e + 1)) (hn : |x / (2 : K) ^ (e - 23) - n| < 1 / 2)
    (hn0 : n ≠ 0) (hov : |(n : ℚ) * (2 : ℚ) ^ (e - 23)| < (2 : ℚ) ^ (128 : ℕ)) :
    Fp.round binary32 x = Fp.fin ((n : ℚ) * (2 : ℚ) ^ (e - 23)) := by
  unfold Fp.round
  simp only [Fp.quantum32_eq x e he h1 h2, roundHalfEven_eq_of_abs_lt _ n hn,
    show binary32.emax = 128 from rfl]
  rw [if_neg (not_le.mpr hov), if_neg]
  rintro ⟨h, -⟩
  have : (2 : ℚ) ^ (e - 23) ≠ 0 := zpow_ne_zero _ (by norm_num)
  rcases mul_eq_zero.mp h with h | h
  · exact hn0 (by exact_mod_cast h)
  · exact this h

/-- Zero rounds to `+0`. -/
theorem Fp.round32_zero : Fp.round binary32 (0 : K) = Fp.fin 0 := by
  have h : roundHalfEven ((0 : K) / (2 : K) ^ Fp.quantum binary32 (0 : K)) = 0 := by
    apply roundHalfEven_eq_of_abs_lt
    simp
  unfold Fp.round
  simp only [h, show binary32.emax = 128 from rfl]
  norm_num

/-- A value from 0 to below `2^-150`, half the least subnormal number, rounds to `+0`
(underflow). -/
theorem Fp.round32_underflow (x : K) (h0 : 0 ≤ x) (h : x < (2 : K) ^ (-150 : ℤ)) :
    Fp.round binary32 x = Fp.fin 0 := by
  rcases eq_or_lt_of_le h0 with hz | hpos
  · rw [← hz]
    exact Fp.round32_zero
  have hx : |x| < (2 : K) ^ (-126 : ℤ) := by
    rw [abs_of_nonneg h0]
    exact lt_trans h (zpow_lt_zpow_right₀ (by norm_num) (by norm_num))
  have ht : |x / (2 : K) ^ (-149 : ℤ) - ((0 : ℤ) : K)| < 1 / 2 := by
    have hp : (0 : K) < (2 : K) ^ (-149 : ℤ) := zpow_pos (by norm_num) _
    rw [Int.cast_zero, sub_zero, abs_of_nonneg (div_nonneg h0 hp.le), div_lt_iff₀ hp]
    have h2 : (2 : K) ^ (-150 : ℤ) = 1 / 2 * (2 : K) ^ (-149 : ℤ) := by
      rw [show (-149 : ℤ) = -150 + 1 by norm_num, zpow_add_one₀ (by norm_num)]
      ring
    rw [← h2]
    exact h
  unfold Fp.round
  simp only [Fp.quantum32_tiny x hpos.ne' hx, roundHalfEven_eq_of_abs_lt _ 0 ht,
    show binary32.emax = 128 from rfl]
  rw [if_neg (by norm_num), if_neg (by intro hc; exact absurd hc.2 (not_lt.mpr h0))]
  norm_num

/-- The factor `2^23` and the unit in the last place give back the power of the
binade. -/
theorem two_zpow_split {F : Type} [Field F] [CharZero F] (L : ℤ) :
    (2 : F) ^ (23 : ℕ) * (2 : F) ^ (L - 23) = (2 : F) ^ L := by
  rw [← zpow_natCast, ← zpow_add₀ (by norm_num)]
  congr 1
  push_cast
  ring

/-- A value of `2^128` or more rounds to `+inf` (overflow). -/
theorem Fp.round32_overflow (x : K) (h : (2 : K) ^ (128 : ℤ) ≤ x) :
    Fp.round binary32 x = Fp.pinf := by
  have hx0 : 0 < x := lt_of_lt_of_le (zpow_pos (by norm_num) _) h
  have habs : |x| = x := abs_of_pos hx0
  have hlog : (128 : ℤ) ≤ Int.log 2 |x| := by
    rw [habs]
    exact (Int.zpow_le_iff_le_log (b := 2) (by norm_num) hx0).mp h
  have hq : Fp.quantum binary32 x = Int.log 2 |x| - 23 := by
    unfold Fp.quantum
    show max (Int.log 2 |x|) (-126) - (((24 : ℕ) : ℤ) - 1) = Int.log 2 |x| - 23
    rw [max_eq_left (by omega)]
    norm_num
  have hle : (2 : K) ^ Int.log 2 |x| ≤ x := by
    have := Int.zpow_log_le_self (b := 2) (r := |x|) (by norm_num) (by rw [habs]; exact hx0)
    rw [habs] at this ⊢
    exact_mod_cast this
  have hp : (0 : K) < (2 : K) ^ (Int.log 2 |x| - 23) := zpow_pos (by norm_num) _
  have ht : (((2 : ℤ) ^ (23 : ℕ) : ℤ) : K) ≤ x / (2 : K) ^ (Int.log 2 |x| - 23) := by
    rw [le_div_iff₀ hp, Int.cast_pow, Int.cast_ofNat, two_zpow_split]
    exact hle
  have hn : (2 : ℤ) ^ (23 : ℕ) ≤ roundHalfEven (x / (2 : K) ^ (Int.log 2 |x| - 23)) :=
    le_trans (Int.le_floor.mpr ht) (floor_le_roundHalfEven _)
  have hr : (2 : ℚ) ^ (128 : ℕ) ≤
      |(roundHalfEven (x / (2 : K) ^ (Int.log 2 |x| - 23)) : ℚ)
        * (2 : ℚ) ^ (Int.log 2 |x| - 23)| := by
    have hpq : (0 : ℚ) < (2 : ℚ) ^ (Int.log 2 |x| - 23) := zpow_pos (by norm_num) _
    have hnq : ((2 : ℚ) ^ (23 : ℕ)) ≤
        (roundHalfEven (x / (2 : K) ^ (Int.log 2 |x| - 23)) : ℚ) := by
      exact_mod_cast hn
    have h1 : (2 : ℚ) ^ (23 : ℕ) * (2 : ℚ) ^ (Int.log 2 |x| - 23)
        ≤ (roundHalfEven (x / (2 : K) ^ (Int.log 2 |x| - 23)) : ℚ)
          * (2 : ℚ) ^ (Int.log 2 |x| - 23) :=
      mul_le_mul_of_nonneg_right hnq hpq.le
    rw [two_zpow_split] at h1
    have h3 : (2 : ℚ) ^ (128 : ℕ) ≤ (2 : ℚ) ^ Int.log 2 |x| := by
      rw [← zpow_natCast]
      exact zpow_le_zpow_right₀ (by norm_num) (by exact_mod_cast hlog)
    rw [abs_of_nonneg (le_trans (by positivity) h1)]
    linarith
  unfold Fp.round
  simp only [hq, show binary32.emax = 128 from rfl]
  rw [if_pos hr, if_pos hx0]

end Rounding

section FpArith

/-- NaN on the left of a sum. -/
theorem Fp.nan_add (x : Fp) : Fp.nan + x = Fp.nan := rfl

/-- NaN on the left of a difference. -/
theorem Fp.nan_sub (x : Fp) : Fp.nan - x = Fp.nan := rfl

/-- NaN on the left of a product. -/
theorem Fp.nan_mul (x : Fp) : Fp.nan * x = Fp.nan := rfl

/-- NaN on the right of a product. -/
theorem Fp.mul_nan (x : Fp) : x * Fp.nan = Fp.nan := by
  cases x <;> rfl

/-- NaN on the left of a quotient. -/
theorem Fp.nan_div (x : Fp) : Fp.nan / x = Fp.nan := rfl

/-- NaN on the right of a quotient. -/
theorem Fp.div_nan (x : Fp) : x / Fp.nan = Fp.nan := by
  cases x <;> rfl

/-- The product of two finite non-zero values is the rounded exact product. -/
theorem Fp.fin_mul_fin (a b : ℚ) (ha : a ≠ 0) (hb : b ≠ 0) :
    Fp.fin a * Fp.fin b = Fp.round binary32 (a * b) := by
  show Fp.mulF binary32 (Fp.fin a) (Fp.fin b) = _
  simp [Fp.mulF, Fp.isNaN, Fp.isInf, Fp.isZero, Fp.val, ha, hb]

/-- The quotient of two finite non-zero values is the rounded exact quotient. -/
theorem Fp.fin_div_fin (a b : ℚ) (ha : a ≠ 0) (hb : b ≠ 0) :
    Fp.fin a / Fp.fin b = Fp.round binary32 (a / b) := by
  show Fp.divF binary32 (Fp.fin a) (Fp.fin b) = _
  simp [Fp.divF, Fp.isNaN, Fp.isInf, Fp.isZero, Fp.val, ha, hb]

/-- The difference of two finite values, the first not zero, that do not cancel is the
rounded exact difference. -/
theorem Fp.fin_sub_fin (a b : ℚ) (ha : a ≠ 0) (hs : a - b ≠ 0) :
    Fp.fin a - Fp.fin b = Fp.round binary32 (a - b) := by
  show Fp.addF binary32 (Fp.fin a) (Fp.neg (Fp.fin b)) = _
  by_cases hb : b = 0
  · subst hb
    simp [Fp.addF, Fp.neg, Fp.isNaN, Fp.isInf, Fp.isZero, Fp.val, ha]
  · have hs2 : a + -b ≠ 0 := by rwa [← sub_eq_add_neg]
    simp [Fp.addF, Fp.neg, Fp.isNaN, Fp.isInf, Fp.isZero, Fp.val, ha, hb, hs2,
      sub_eq_add_neg]

/-- The literal `0.5f`. -/
theorem Fp.half_eq : (0.5 : Fp) = Fp.fin (1 / 2) := by
  show Fp.round binary32 (OfScientific.ofScientific 5 true 1 : ℚ) = _
  rw [Fp.round32_eq_fin _ (-1) (2 ^ 23) (by norm_num) (by norm_num [abs_of_pos])
    (by norm_num [abs_of_pos]) (by norm_num) (by norm_num) (by norm_num [abs_of_pos])]
  norm_num

end FpArith

section FpProgram

/-- An integer literal is the finite value of that integer. -/
theorem Fp.ofNat_eq (n : ℕ) : (OfNat.ofNat n : Fp) = Fp.fin (n : ℚ) := rfl

/-- In binary32 `PotToDb(0, 15)` is 15. -/
theorem potToDb32_zero : Binary32.EQ3Band.PotToDb 0 15 = Fp.fin 15 := by
  have e1 : Fp.round binary32 ((1 : ℚ) / 2) = Fp.fin (1 / 2) := by
    rw [Fp.round32_eq_fin _ (-1) (2 ^ 23) (by norm_num) (by norm_num [abs_of_pos])
      (by norm_num [abs_of_pos]) (by norm_num) (by norm_num) (by norm_num [abs_of_pos])]
    norm_num
  have e2 : Fp.round binary32 (1 : ℚ) = Fp.fin 1 := by
    rw [Fp.round32_eq_fin _ 0 (2 ^ 23) (by norm_num) (by norm_num)
      (by norm_num) (by norm_num) (by norm_num) (by norm_num [abs_of_pos])]
    norm_num
  have e3 : Fp.round binary32 (15 : ℚ) = Fp.fin 15 := by
    rw [Fp.round32_eq_fin _ 3 15728640 (by norm_num) (by norm_num)
      (by norm_num) (by norm_num) (by norm_num) (by norm_num [abs_of_pos])]
    norm_num
  unfold Binary32.EQ3Band.PotToDb
  rw [Fp.half_eq, Fp.ofNat_eq 0, Fp.ofNat_eq 2, Fp.ofNat_eq 15,
    Fp.fin_sub_fin _ _ (by norm_num) (by norm_num)]
  norm_num only [Nat.cast_ofNat, Nat.cast_zero, sub_zero]
  rw [e1, Fp.fin_mul_fin _ _ (by norm_num) (by norm_num)]
  norm_num only
  rw [e2, Fp.fin_mul_fin _ _ (by norm_num) (by norm_num)]
  norm_num only
  rw [e3]

/-- In binary32 `PotToDb(2^-30, 15)` is 15 as well: `0.5f - pot` absorbs the small
`pot`. -/
theorem potToDb32_absorbed :
    Binary32.EQ3Band.PotToDb (Fp.fin (1 / 2 ^ 30)) 15 = Fp.fin 15 := by
  have e1 : Fp.round binary32 ((1 : ℚ) / 2 - 1 / 2 ^ 30) = Fp.fin (1 / 2) := by
    rw [Fp.round32_eq_fin _ (-2) (2 ^ 24) (by norm_num) (by norm_num [abs_of_pos])
      (by norm_num [abs_of_pos]) (by norm_num [abs_lt]) (by norm_num)
      (by norm_num [abs_of_pos])]
    norm_num
  have e2 : Fp.round binary32 (1 : ℚ) = Fp.fin 1 := by
    rw [Fp.round32_eq_fin _ 0 (2 ^ 23) (by norm_num) (by norm_num)
      (by norm_num) (by norm_num) (by norm_num) (by norm_num [abs_of_pos])]
    norm_num
  have e3 : Fp.round binary32 (15 : ℚ) = Fp.fin 15 := by
    rw [Fp.round32_eq_fin _ 3 15728640 (by norm_num) (by norm_num)
      (by norm_num) (by norm_num) (by norm_num) (by norm_num [abs_of_pos])]
    norm_num
  unfold Binary32.EQ3Band.PotToDb
  rw [Fp.half_eq, Fp.ofNat_eq 2, Fp.ofNat_eq 15,
    Fp.fin_sub_fin _ _ (by norm_num) (by norm_num), e1,
    Fp.fin_mul_fin _ _ (by norm_num) (by norm_num)]
  norm_num only [Nat.cast_ofNat]
  rw [e2, Fp.fin_mul_fin _ _ (by norm_num) (by norm_num)]
  norm_num only
  rw [e3]

/-- In binary32 `PotToDb(-1000, 15)` is 30015. -/
theorem potToDb32_far_left :
    Binary32.EQ3Band.PotToDb (Fp.fin (-1000)) 15 = Fp.fin 30015 := by
  have e1 : Fp.round binary32 ((2001 : ℚ) / 2) = Fp.fin (2001 / 2) := by
    rw [Fp.round32_eq_fin _ 9 16392192 (by norm_num) (by norm_num [abs_of_pos])
      (by norm_num [abs_of_pos]) (by norm_num) (by norm_num) (by norm_num [abs_of_pos])]
    norm_num
  have e2 : Fp.round binary32 (2001 : ℚ) = Fp.fin 2001 := by
    rw [Fp.round32_eq_fin _ 10 16392192 (by norm_num) (by norm_num)
      (by norm_num) (by norm_num) (by norm_num) (by norm_num [abs_of_pos])]
    norm_num
  have e3 : Fp.round binary32 (30015 : ℚ) = Fp.fin 30015 := by
    rw [Fp.round32_eq_fin _ 14 15367680 (by norm_num) (by norm_num)
      (by norm_num) (by norm_num) (by norm_num) (by norm_num [abs_of_pos])]
    norm_num
  unfold Binary32.EQ3Band.PotToDb
  rw [Fp.half_eq, Fp.ofNat_eq 2, Fp.ofNat_eq 15,
    Fp.fin_sub_fin _ _ (by norm_num) (by norm_num)]
  norm_num only [Nat.cast_ofNat]
  rw [e1, Fp.fin_mul_fin _ _ (by norm_num) (by norm_num)]
  norm_num only
  rw [e2, Fp.fin_mul_fin _ _ (by norm_num) (by norm_num)]
  norm_num only
  rw [e3]

/-- In binary32 `PotToDb(100, 12)` is -2388. -/
theorem potToDb32_far_right :
    Binary32.EQ3Band.PotToDb 100 12 = Fp.fin (-2388) := by
  have e1 : Fp.round binary32 (-((199 : ℚ) / 2)) = Fp.fin (-(199 / 2)) := by
    rw [Fp.round32_eq_fin _ 6 (-13041664) (by norm_num) (by norm_num [abs_of_neg])
      (by norm_num [abs_of_neg]) (by norm_num) (by norm_num) (by norm_num [abs_of_pos])]
    norm_num
  have e2 : Fp.round binary32 (-199 : ℚ) = Fp.fin (-199) := by
    rw [Fp.round32_eq_fin _ 7 (-13041664) (by norm_num) (by norm_num)
      (by norm_num) (by norm_num) (by norm_num) (by norm_num [abs_of_pos])]
    norm_num
  have e3 : Fp.round binary32 (-2388 : ℚ) = Fp.fin (-2388) := by
    rw [Fp.round32_eq_fin _ 11 (-9781248) (by norm_num) (by norm_num)
      (by norm_num) (by norm_num) (by norm_num) (by norm_num [abs_of_pos])]
    norm_num
  unfold Binary32.EQ3Band.PotToDb
  rw [Fp.half_eq, Fp.ofNat_eq 2, Fp.ofNat_eq 12, Fp.ofNat_eq 100,
    Fp.fin_sub_fin _ _ (by norm_num) (by norm_num)]
  norm_num only [Nat.cast_ofNat]
  rw [e1, Fp.fin_mul_fin _ _ (by norm_num) (by norm_num)]
  norm_num only
  rw [e2, Fp.fin_mul_fin _ _ (by norm_num) (by norm_num)]
  norm_num only
  rw [e3]

/-- The model `powf` at base 10 and a finite exponent. -/
theorem libm_powf_ten (y : ℚ) :
    Fp.libm.powf 10 (Fp.fin y) = Fp.round binary32 ((10 : ℝ) ^ (y : ℝ)) := by
  simp [Fp.libm, Fp.ofNat_eq, Fp.isFinite, Fp.isNaN, Fp.isInf, Fp.val]

/-- For a gain of 30015 dB, `A = powf(10, 750.375)` overflows to `+inf`. -/
theorem designA32_overflow :
    Binary32.EQ3Band.designA Fp.libm (Fp.fin 30015) = Fp.pinf := by
  have e1 : Fp.round binary32 ((6003 : ℚ) / 8) = Fp.fin (6003 / 8) := by
    rw [Fp.round32_eq_fin _ 9 12294144 (by norm_num) (by norm_num [abs_of_pos])
      (by norm_num [abs_of_pos]) (by norm_num) (by norm_num) (by norm_num [abs_of_pos])]
    norm_num
  unfold Binary32.EQ3Band.designA
  rw [Fp.ofNat_eq 40, Fp.fin_div_fin _ _ (by norm_num) (by norm_num)]
  norm_num only [Nat.cast_ofNat]
  rw [e1, libm_powf_ten]
  apply Fp.round32_overflow
  have h1 : (10 : ℝ) ^ ((39 : ℕ) : ℝ) ≤ (10 : ℝ) ^ (((6003 / 8 : ℚ)) : ℝ) := by
    apply Real.rpow_le_rpow_of_exponent_le (by norm_num)
    push_cast
    norm_num
  rw [Real.rpow_natCast] at h1
  refine le_trans ?_ h1
  norm_num

/-- For a gain of -2388 dB, `A = powf(10, -59.7)` underflows to `+0`. -/
theorem designA32_underflow :
    Binary32.EQ3Band.designA Fp.libm (Fp.fin (-2388)) = Fp.fin 0 := by
  have e1 : Fp.round binary32 (-((597 : ℚ) / 10))
      = Fp.fin (-15649997 / 262144) := by
    rw [Fp.round32_eq_fin _ 5 (-15649997) (by norm_num) (by norm_num [abs_of_neg])
      (by norm_num [abs_of_neg]) (by norm_num [abs_lt]) (by norm_num)
      (by norm_num [abs_of_pos])]
    norm_num
  unfold Binary32.EQ3Band.designA
  rw [Fp.ofNat_eq 40, Fp.fin_div_fin _ _ (by norm_num) (by norm_num)]
  norm_num only [Nat.cast_ofNat]
  rw [e1, libm_powf_ten]
  apply Fp.round32_underflow
  · positivity
  · have h1 : (10 : ℝ) ^ (((-15649997 / 262144 : ℚ)) : ℝ) ≤ (10 : ℝ) ^ (-((59 : ℕ) : ℝ)) := by
      apply Real.rpow_le_rpow_of_exponent_le (by norm_num)
      push_cast
      norm_num
    rw [Real.rpow_neg (by norm_num), Real.rpow_natCast] at h1
    refine lt_of_le_of_lt h1 ?_
    rw [zpow_neg, show (150 : ℤ) = ((150 : ℕ) : ℤ) by norm_num, zpow_natCast]
    apply inv_strictAnti₀ (by positivity)
    norm_num

/-- Adding a finite value to `+inf` leaves `+inf`. -/
theorem Fp.pinf_add_fin (q : ℚ) : Fp.pinf + Fp.fin q = Fp.pinf := rfl

/-- Subtracting a finite value from `+inf` leaves `+inf`. -/
theorem Fp.pinf_sub_fin (q : ℚ) : Fp.pinf - Fp.fin q = Fp.pinf := by
  show Fp.addF binary32 Fp.pinf (Fp.neg (Fp.fin q)) = Fp.pinf
  by_cases h : q = 0
  · simp [Fp.neg, h, Fp.addF, Fp.isNaN, Fp.isInf]
  · simp [Fp.neg, h, Fp.addF, Fp.isNaN, Fp.isInf]

/-- The product of `+inf` and `c` is NaN, `+inf` or `-inf`. -/
theorem Fp.pinf_mul_cases (c : Fp) :
    Fp.pinf * c = Fp.nan ∨ Fp.pinf * c = Fp.pinf ∨ Fp.pinf * c = Fp.ninf := by
  show Fp.mulF binary32 Fp.pinf c = Fp.nan ∨ Fp.mulF binary32 Fp.pinf c = Fp.pinf ∨
    Fp.mulF binary32 Fp.pinf c = Fp.ninf
  cases c with
  | fin q =>
    by_cases h0 : q = 0
    · left
      simp [Fp.mulF, Fp.isNaN, Fp.isInf, Fp.isZero, h0]
    · by_cases hneg : q < 0
      · right
        right
        simp [Fp.mulF, Fp.isNaN, Fp.isInf, Fp.isZero, Fp.signbit, Fp.signedInf, h0, hneg]
      · right
        left
        simp [Fp.mulF, Fp.isNaN, Fp.isInf, Fp.isZero, Fp.signbit, Fp.signedInf, h0, hneg]
  | nzero => exact Or.inl rfl
  | pinf => exact Or.inr (Or.inl rfl)
  | ninf => exact Or.inr (Or.inr rfl)
  | nan => exact Or.inl rfl

/-- With `A = +inf` the first coefficient `b0 / a0` of the low-shelf design is NaN,
whatever `cosw0` and `2 * sqrtf(A) * alpha` are. -/
theorem lowShelf32_ff_nan (c v : Fp) :
    (Fp.pinf * ((Fp.pinf + 1) - (Fp.pinf - 1) * c + v)) /
      ((Fp.pinf + 1) + (Fp.pinf - 1) * c + v) = Fp.nan := by
  rw [Fp.ofNat_eq 1, Fp.pinf_add_fin, Fp.pinf_sub_fin]
  rcases Fp.pinf_mul_cases c with h | h | h <;> rw [h]
  · have : Fp.pinf - Fp.nan = Fp.nan := rfl
    rw [this, Fp.nan_add, Fp.mul_nan, Fp.nan_div]
  · have : Fp.pinf - Fp.pinf = Fp.nan := rfl
    rw [this, Fp.nan_add, Fp.mul_nan, Fp.nan_div]
  · have : Fp.pinf + Fp.ninf = Fp.nan := rfl
    rw [this, Fp.nan_add, Fp.div_nan]

/-- With `A = +0` the coefficient `a2 / a0` of the peaking design is NaN, whatever
`alpha` is. -/
theorem peak32_b2_nan (alpha : Fp) :
    (1 - alpha / Fp.fin 0) / (1 + alpha / Fp.fin 0) = Fp.nan := by
  have hq : alpha / Fp.fin 0 = Fp.nan ∨ alpha / Fp.fin 0 = Fp.pinf ∨
      alpha / Fp.fin 0 = Fp.ninf := by
    show Fp.divF binary32 alpha (Fp.fin 0) = Fp.nan ∨
      Fp.divF binary32 alpha (Fp.fin 0) = Fp.pinf ∨
      Fp.divF binary32 alpha (Fp.fin 0) = Fp.ninf
    cases alpha with
    | fin q =>
      by_cases h0 : q = 0
      · left
        simp [Fp.divF, Fp.isNaN, Fp.isInf, Fp.isZero, h0]
      · by_cases hneg : q < 0
        · right
          right
          simp [Fp.divF, Fp.isNaN, Fp.isInf, Fp.isZero, Fp.signbit, Fp.signedInf, h0,
            hneg]
        · right
          left
          simp [Fp.divF, Fp.isNaN, Fp.isInf, Fp.isZero, Fp.signbit, Fp.signedInf, h0,
            hneg]
    | nzero => exact Or.inl (by decide)
    | pinf => exact Or.inr (Or.inl (by decide))
    | ninf => exact Or.inr (Or.inr (by decide))
    | nan => exact Or.inl rfl
  rcases hq with h | h | h <;> rw [h]
  · have : (1 : Fp) - Fp.nan = Fp.nan := by decide
    rw [this, Fp.nan_div]
  · decide
  · decide

/-- A NaN sample makes `Process` return NaN. -/
theorem process32_nan_sample (f : MyBiquad Fp) :
    (Binary32.MyBiquad.Process f Fp.nan).1 = Fp.nan := by
  simp only [Binary32.MyBiquad.Process, Fp.mul_nan, Fp.nan_add, Fp.nan_sub]

/-- A NaN coefficient `a0` makes `Process` return NaN. -/
theorem process32_nan_coeff (f : MyBiquad Fp) (x : Fp) (h : f.a0 = Fp.nan) :
    (Binary32.MyBiquad.Process f x).1 = Fp.nan := by
  simp only [Binary32.MyBiquad.Process, h, Fp.nan_mul, Fp.nan_add, Fp.nan_sub]

/-- A default-constructed section returns NaN on the sample `+inf`: `0 * inf`. -/
theorem process32_fresh_inf :
    (Binary32.MyBiquad.Process Binary32.MyBiquad.fresh Fp.pinf).1 = Fp.nan := by
  have h : (0 : Fp) * Fp.pinf = Fp.nan := by decide
  simp only [Binary32.MyBiquad.Process, Binary32.MyBiquad.fresh, h, Fp.nan_add, Fp.nan_sub]

/-- The output of the equalizer is NaN as soon as the output of its bass section is. -/
theorem eq32_process_nan (e : EQ3Band Fp) (x : Fp)
    (h : (Binary32.MyBiquad.Process e.bass x).1 = Fp.nan) :
    (Binary32.EQ3Band.Process e x).1 = Fp.nan := by
  simp only [Binary32.EQ3Band.Process, h, process32_nan_sample]

end FpProgram

section Monotone

variable {K : Type} [LinearOrderedField K] [FloorRing K]

/-- Rounding never goes above an integer that is not below the number. -/
theorem roundHalfEven_le_of_le (t : K) (G : ℤ) (h : t ≤ G) : roundHalfEven t ≤ G := by
  have hf : ⌊t⌋ ≤ G := by
    have := Int.floor_le t
    exact_mod_cast (le_trans this h)
  unfold roundHalfEven
  by_cases h1 : t - ⌊t⌋ < 1 / 2
  · rw [if_pos h1]
    exact hf
  · have hlt : ⌊t⌋ < G := by
      have h2 : ((⌊t⌋ : ℤ) : K) < t := by linarith
      exact_mod_cast (lt_of_lt_of_le h2 h)
    rw [if_neg h1]
    split_ifs <;> omega

/-- Rounding never goes below an integer that is not above the number. -/
theorem le_roundHalfEven_of_le (t : K) (G : ℤ) (h : (G : K) ≤ t) : G ≤ roundHalfEven t :=
  le_trans (Int.le_floor.mpr h) (floor_le_roundHalfEven t)

/-- An integer rounds to itself. -/
theorem roundHalfEven_intCast (n : ℤ) : roundHalfEven (n : K) = n :=
  roundHalfEven_eq_of_abs_lt _ n (by simp)

/-- Rounding to nearest, ties to even, is an odd function. -/
theorem roundHalfEven_neg (t : K) : roundHalfEven (-t) = -roundHalfEven t := by
  by_cases hint : ((⌊t⌋ : ℤ) : K) = t
  · rw [← hint, ← Int.cast_neg, roundHalfEven_intCast, roundHalfEven_intCast]
  · have hlt : ((⌊t⌋ : ℤ) : K) < t := lt_of_le_of_ne (Int.floor_le t) hint
    have hfl : ⌊-t⌋ = -⌊t⌋ - 1 := by
      rw [Int.floor_eq_iff]
      push_cast
      have := Int.lt_floor_add_one t
      constructor <;> linarith
    unfold roundHalfEven
    rw [hfl]
    push_cast
    by_cases h1 : t - ⌊t⌋ < 1 / 2
    · rw [if_pos h1, if_neg (by linarith), if_pos (by linarith)]
      ring
    · by_cases h2 : 1 / 2 < t - ⌊t⌋
      · rw [if_neg h1, if_pos h2, if_pos (by linarith)]
        ring
      · have h3 : t - ⌊t⌋ = 1 / 2 := le_antisymm (not_lt.mp h2) (not_lt.mp h1)
        rw [if_neg h1, if_neg h2, if_neg (by linarith), if_neg (by linarith)]
        by_cases he : Even ⌊t⌋
        · have ho : ¬ Even (-⌊t⌋ - 1) := by
            rw [Int.not_even_iff_odd]
            obtain ⟨k, hk⟩ := he
            exact ⟨-k - 1, by omega⟩
          rw [if_pos he, if_neg ho]
          ring
        · have ho : Even (-⌊t⌋ - 1) := by
            rw [Int.not_even_iff_odd] at he
            obtain ⟨k, hk⟩ := he
            exact ⟨-k - 1, by omega⟩
          rw [if_neg he, if_pos ho]
          ring

/-- The unit in the last place depends on the magnitude only. -/
theorem Fp.quantum_neg (fmt : FpFormat) (x : K) :
    Fp.quantum fmt (-x) = Fp.quantum fmt x := by
  unfold Fp.quantum
  rw [abs_neg]

/-- The rounded value is an odd function. -/
theorem Fp.roundedValue_neg (fmt : FpFormat) (x : K) :
    Fp.roundedValue fmt (-x) = -Fp.roundedValue fmt x := by
  unfold Fp.roundedValue
  rw [Fp.quantum_neg, neg_div, roundHalfEven_neg]
  push_cast
  ring

/-- Zero rounds to zero. -/
theorem Fp.roundedValue_zero (fmt : FpFormat) : Fp.roundedValue fmt (0 : K) = 0 := by
  unfold Fp.roundedValue
  rw [zero_div]
  have : roundHalfEven (0 : K) = 0 := by
    have := roundHalfEven_intCast (K := K) 0
    simpa using this
  rw [this]
  simp

/-- A number that is not positive does not round to a positive one. -/
theorem Fp.roundedValue_nonpos (fmt : FpFormat) (x : K) (h : x ≤ 0) :
    Fp.roundedValue fmt x ≤ 0 := by
  unfold Fp.roundedValue
  have hp : (0 : K) < (2 : K) ^ Fp.quantum fmt x := zpow_pos (by norm_num) _
  have ht : x / (2 : K) ^ Fp.quantum fmt x ≤ ((0 : ℤ) : K) := by
    rw [Int.cast_zero]
    exact div_nonpos_of_nonpos_of_nonneg h hp.le
  have hn := roundHalfEven_le_of_le _ 0 ht
  have hq : (0 : ℚ) < (2 : ℚ) ^ Fp.quantum fmt x := zpow_pos (by norm_num) _
  have hn2 : (roundHalfEven (x / (2 : K) ^ Fp.quantum fmt x) : ℚ) ≤ 0 := by exact_mod_cast hn
  exact mul_nonpos_of_nonpos_of_nonneg hn2 hq.le

/-- The unit in the last place of a positive number below a number of the format is not
above the exponent with which that number is written. -/
theorem Fp.quantum_le_of_le_rep (fmt : FpFormat) (x : K) (n e : ℤ) (hx : 0 < x)
    (hn : |n| < 2 ^ fmt.prec) (he : fmt.emin - fmt.prec + 1 ≤ e)
    (hxg : x ≤ (n : K) * (2 : K) ^ e) : Fp.quantum fmt x ≤ e := by
  have hlt : x < (2 : K) ^ ((fmt.prec : ℤ) + e) := by
    have hp : (0 : K) < (2 : K) ^ e := zpow_pos (by norm_num) _
    have hn2 : (n : K) < (2 : K) ^ fmt.prec := by
      have : n < 2 ^ fmt.prec := lt_of_le_of_lt (le_abs_self n) hn
      exact_mod_cast this
    rw [zpow_add₀ (by norm_num), zpow_natCast]
    exact lt_of_le_of_lt hxg (mul_lt_mul_of_pos_right hn2 hp)
  have hlog : Int.log 2 |x| < (fmt.prec : ℤ) + e := by
    rw [abs_of_pos hx]
    exact (Int.lt_zpow_iff_log_lt (b := 2) (by norm_num) hx).mp (by exact_mod_cast hlt)
  unfold Fp.quantum
  rcases le_total (Int.log 2 |x|) fmt.emin with h | h
  · rw [max_eq_right h]
    omega
  · rw [max_eq_left h]
    omega

/-- A positive number not above a positive number of the format does not round above
it. -/
theorem Fp.roundedValue_le_rep_pos (fmt : FpFormat) (x : K) (n e : ℤ) (hx : 0 < x)
    (hn : |n| < 2 ^ fmt.prec) (he : fmt.emin - fmt.prec + 1 ≤ e)
    (hxg : x ≤ (n : K) * (2 : K) ^ e) :
    Fp.roundedValue fmt x ≤ (n : ℚ) * (2 : ℚ) ^ e := by
  have hq := Fp.quantum_le_of_le_rep fmt x n e hx hn he hxg
  obtain ⟨d, hd⟩ : ∃ d : ℕ, e = Fp.quantum fmt x + d :=
    ⟨(e - Fp.quantum fmt x).toNat, by omega⟩
  have hp : (0 : K) < (2 : K) ^ Fp.quantum fmt x := zpow_pos (by norm_num) _
  have hpq : (0 : ℚ) < (2 : ℚ) ^ Fp.quantum fmt x := zpow_pos (by norm_num) _
  have ht : x / (2 : K) ^ Fp.quantum fmt x ≤ ((n * 2 ^ d : ℤ) : K) := by
    rw [div_le_iff₀ hp]
    push_cast
    rw [mul_assoc, ← zpow_natCast, ← zpow_add₀ (by norm_num), add_comm, ← hd]
    exact hxg
  have hr := roundHalfEven_le_of_le _ _ ht
  unfold Fp.roundedValue
  have hr2 : (roundHalfEven (x / (2 : K) ^ Fp.quantum fmt x) : ℚ) ≤
      ((n * 2 ^ d : ℤ) : ℚ) := by
    exact_mod_cast hr
  calc (roundHalfEven (x / (2 : K) ^ Fp.quantum fmt x) : ℚ) * (2 : ℚ) ^ Fp.quantum fmt x
      ≤ ((n * 2 ^ d : ℤ) : ℚ) * (2 : ℚ) ^ Fp.quantum fmt x :=
        mul_le_mul_of_nonneg_right hr2 hpq.le
    _ = (n : ℚ) * (2 : ℚ) ^ e := by
        push_cast
        rw [mul_assoc, ← zpow_natCast, ← zpow_add₀ (by norm_num), add_comm, ← hd]

/-- A positive number not below a positive number of the format does not round below
it. -/
theorem Fp.rep_le_roundedValue_pos (fmt : FpFormat) (x : K) (n e : ℤ) (hp1 : 1 ≤ fmt.prec)
    (hn : |n| < 2 ^ fmt.prec) (he : fmt.emin - fmt.prec + 1 ≤ e)
    (hn0 : 0 < n) (hgx : (n : K) * (2 : K) ^ e ≤ x) :
    (n : ℚ) * (2 : ℚ) ^ e ≤ Fp.roundedValue fmt x := by
  have hpe : (0 : K) < (2 : K) ^ e := zpow_pos (by norm_num) _
  have hx : 0 < x := lt_of_lt_of_le (mul_pos (by exact_mod_cast hn0) hpe) hgx
  have hp : (0 : K) < (2 : K) ^ Fp.quantum fmt x := zpow_pos (by norm_num) _
  have hpq : (0 : ℚ) < (2 : ℚ) ^ Fp.quantum fmt x := zpow_pos (by norm_num) _
  rcases le_or_lt (Fp.quantum fmt x) e with hq | hq
  · obtain ⟨d, hd⟩ : ∃ d : ℕ, e = Fp.quantum fmt x + d :=
      ⟨(e - Fp.quantum fmt x).toNat, by omega⟩
    have ht : ((n * 2 ^ d : ℤ) : K) ≤ x / (2 : K) ^ Fp.quantum fmt x := by
      rw [le_div_iff₀ hp]
      push_cast
      rw [mul_assoc, ← zpow_natCast, ← zpow_add₀ (by norm_num), add_comm, ← hd]
      exact hgx
    have hr := le_roundHalfEven_of_le _ _ ht
    have hr2 : ((n * 2 ^ d : ℤ) : ℚ) ≤
        (roundHalfEven (x / (2 : K) ^ Fp.quantum fmt x) : ℚ) := by
      exact_mod_cast hr
    unfold Fp.roundedValue
    calc (n : ℚ) * (2 : ℚ) ^ e = ((n * 2 ^ d : ℤ) : ℚ) * (2 : ℚ) ^ Fp.quantum fmt x := by
          push_cast
          rw [mul_assoc, ← zpow_natCast, ← zpow_add₀ (by norm_num), add_comm, ← hd]
      _ ≤ _ := mul_le_mul_of_nonneg_right hr2 hpq.le
  · -- `x` lies in a binade above that of the number of the format
    have hE : fmt.emin < Int.log 2 |x| := by
      unfold Fp.quantum at hq
      rcases le_total (Int.log 2 |x|) fmt.emin with h | h
      · rw [max_eq_right h] at hq
        omega
      · rw [max_eq_left h] at hq
        omega
    have hqe : Fp.quantum fmt x = Int.log 2 |x| - (fmt.prec - 1) := by
      unfold Fp.quantum
      rw [max_eq_left hE.le]
    have hxl : (2 : K) ^ Int.log 2 |x| ≤ x := by
      have := Int.zpow_log_le_self (b := 2) (r := |x|) (by norm_num) (abs_pos.mpr hx.ne')
      rw [abs_of_pos hx] at this ⊢
      exact_mod_cast this
    obtain ⟨m, hm⟩ : ∃ m : ℕ, fmt.prec = m + 1 := ⟨fmt.prec - 1, by omega⟩
    have hsplit : ∀ (F : Type) [Field F] [CharZero F],
        ((2 ^ m : ℤ) : F) * (2 : F) ^ Fp.quantum fmt x = (2 : F) ^ Int.log 2 |x| := by
      intro F _ _
      push_cast
      rw [← zpow_natCast, ← zpow_add₀ (by norm_num), hqe, hm]
      congr 1
      push_cast
      ring
    have ht : ((2 ^ m : ℤ) : K) ≤ x / (2 : K) ^ Fp.quantum fmt x := by
      rw [le_div_iff₀ hp, hsplit K]
      exact hxl
    have hr := le_roundHalfEven_of_le _ _ ht
    have hr2 : ((2 ^ m : ℤ) : ℚ) ≤
        (roundHalfEven (x / (2 : K) ^ Fp.quantum fmt x) : ℚ) := by
      exact_mod_cast hr
    have hg : (n : ℚ) * (2 : ℚ) ^ e ≤ (2 : ℚ) ^ Int.log 2 |x| := by
      have hn2 : (n : ℚ) ≤ (2 : ℚ) ^ fmt.prec := by
        have : n < 2 ^ fmt.prec := lt_of_le_of_lt (le_abs_self n) hn
        exact_mod_cast this.le
      have hpeq : (0 : ℚ) < (2 : ℚ) ^ e := zpow_pos (by norm_num) _
      calc (n : ℚ) * (2 : ℚ) ^ e ≤ (2 : ℚ) ^ fmt.prec * (2 : ℚ) ^ e :=
            mul_le_mul_of_nonneg_right hn2 hpeq.le
        _ = (2 : ℚ) ^ ((fmt.prec : ℤ) + e) := by
            rw [zpow_add₀ (by norm_num), zpow_natCast]
        _ ≤ (2 : ℚ) ^ Int.log 2 |x| := by
            apply zpow_le_zpow_right₀ (by norm_num)
            rw [hqe] at hq
            omega
    unfold Fp.roundedValue
    calc (n : ℚ) * (2 : ℚ) ^ e ≤ (2 : ℚ) ^ Int.log 2 |x| := hg
      _ = ((2 ^ m : ℤ) : ℚ) * (2 : ℚ) ^ Fp.quantum fmt x := (hsplit ℚ).symm
      _ ≤ _ := mul_le_mul_of_nonneg_right hr2 hpq.le

end Monotone

section Intervals

variable {K : Type} [LinearOrderedField K] [FloorRing K]

/-- The negative of a number of the format is a number of the format. -/
theorem Fp.rep_neg {fmt : FpFormat} {g : ℚ} (h : Fp.Rep fmt g) : Fp.Rep fmt (-g) := by
  obtain ⟨n, e, hn, he, he2, hg⟩ := h
  exact ⟨-n, e, by rwa [abs_neg], he, he2, by rw [hg]; push_cast; ring⟩

/-- A number of the format is below the overflow threshold in magnitude. -/
theorem Fp.rep_abs_lt {fmt : FpFormat} {g : ℚ} (h : Fp.Rep fmt g) :
    |g| < (2 : ℚ) ^ fmt.emax := by
  obtain ⟨n, e, hn, he, he2, hg⟩ := h
  have hpe : (0 : ℚ) < (2 : ℚ) ^ e := zpow_pos (by norm_num) _
  have hn2 : |(n : ℚ)| < (2 : ℚ) ^ fmt.prec := by
    have : ((|n| : ℤ) : ℚ) < ((2 ^ fmt.prec : ℤ) : ℚ) := by exact_mod_cast hn
    simpa using this
  rw [hg, abs_mul, abs_of_pos hpe]
  calc |(n : ℚ)| * (2 : ℚ) ^ e < (2 : ℚ) ^ fmt.prec * (2 : ℚ) ^ e :=
        mul_lt_mul_of_pos_right hn2 hpe
    _ = (2 : ℚ) ^ ((fmt.prec : ℤ) + e) := by rw [zpow_add₀ (by norm_num), zpow_natCast]
    _ ≤ (2 : ℚ) ^ (fmt.emax : ℤ) := zpow_le_zpow_right₀ (by norm_num) (by omega)
    _ = (2 : ℚ) ^ fmt.emax := zpow_natCast _ _

/-- A number not above a multiple `n * 2^e` of a unit of the format, `n` of fewer than
`prec` bits, does not round above it. -/
theorem Fp.roundedValue_le_grid (fmt : FpFormat) (hp1 : 1 ≤ fmt.prec) (x : K) (n e : ℤ)
    (hn : |n| < 2 ^ fmt.prec) (he : fmt.emin - fmt.prec + 1 ≤ e)
    (h : x ≤ (n : K) * (2 : K) ^ e) : Fp.roundedValue fmt x ≤ (n : ℚ) * (2 : ℚ) ^ e := by
  have hpe : (0 : ℚ) < (2 : ℚ) ^ e := zpow_pos (by norm_num) _
  rcases le_or_lt x 0 with hx | hx
  · rcases le_or_lt 0 n with hn0 | hn0
    · exact le_trans (Fp.roundedValue_nonpos fmt x hx)
        (mul_nonneg (by exact_mod_cast hn0) hpe.le)
    · -- both negative: mirror the lower bound for positive numbers
      have hn1 : |(-n)| < 2 ^ fmt.prec := by rwa [abs_neg]
      have hgx : ((-n : ℤ) : K) * (2 : K) ^ e ≤ -x := by
        push_cast
        linarith
      have := Fp.rep_le_roundedValue_pos fmt (-x) (-n) e hp1 hn1 he (by omega) hgx
      rw [Fp.roundedValue_neg] at this
      push_cast at this
      linarith
  · exact Fp.roundedValue_le_rep_pos fmt x n e hx hn he h

/-- A number not above a number of the format does not round above it. -/
theorem Fp.roundedValue_le_rep (fmt : FpFormat) (hp1 : 1 ≤ fmt.prec) (x : K) (g : ℚ)
    (hg : Fp.Rep fmt g) (h : x ≤ (g : K)) : Fp.roundedValue fmt x ≤ g := by
  obtain ⟨n, e, hn, he, he2, rfl⟩ := hg
  have hcast : (((n : ℚ) * (2 : ℚ) ^ e : ℚ) : K) = (n : K) * (2 : K) ^ e := by
    push_cast
    rfl
  rw [hcast] at h
  exact Fp.roundedValue_le_grid fmt hp1 x n e hn he h

/-- A number not below a number of the format does not round below it. -/
theorem Fp.rep_le_roundedValue (fmt : FpFormat) (hp1 : 1 ≤ fmt.prec) (x : K) (g : ℚ)
    (hg : Fp.Rep fmt g) (h : (g : K) ≤ x) : g ≤ Fp.roundedValue fmt x := by
  have h2 : -x ≤ ((-g : ℚ) : K) := by
    push_cast
    linarith
  have := Fp.roundedValue_le_rep fmt hp1 (-x) (-g) (Fp.rep_neg hg) h2
  rw [Fp.roundedValue_neg] at this
  linarith

/-- Rounding keeps a number between two numbers of the format between them: the result
is finite and within the same bounds. -/
theorem Fp.round_btw (fmt : FpFormat) (hp1 : 1 ≤ fmt.prec) (x : K) (lo hi : ℚ)
    (hlo : Fp.Rep fmt lo) (hhi : Fp.Rep fmt hi) (h1 : (lo : K) ≤ x) (h2 : x ≤ (hi : K)) :
    Fp.Btw (Fp.round fmt x) lo hi := by
  have hl := Fp.rep_le_roundedValue fmt hp1 x lo hlo h1
  have hh := Fp.roundedValue_le_rep fmt hp1 x hi hhi h2
  have habs : |Fp.roundedValue fmt x| < (2 : ℚ) ^ fmt.emax := by
    rw [abs_lt]
    have a1 := abs_lt.mp (Fp.rep_abs_lt hlo)
    have a2 := abs_lt.mp (Fp.rep_abs_lt hhi)
    constructor <;> linarith [a1.1, a2.2]
  have hr : Fp.round fmt x =
      if (2 : ℚ) ^ fmt.emax ≤ |Fp.roundedValue fmt x| then
        (if 0 < x then Fp.pinf else Fp.ninf)
      else if Fp.roundedValue fmt x = 0 ∧ x < 0 then Fp.nzero
      else Fp.fin (Fp.roundedValue fmt x) := rfl
  rw [hr, if_neg (not_le.mpr habs)]
  split_ifs with hz
  · refine ⟨rfl, ?_, ?_⟩
    · show lo ≤ 0
      rw [← hz.1]
      exact hl
    · show 0 ≤ hi
      rw [← hz.1]
      exact hh
  · exact ⟨rfl, hl, hh⟩

/-- A finite value is not NaN and not infinite. -/
theorem Fp.finite_cases {x : Fp} (h : x.isFinite = true) :
    x.isNaN = false ∧ x.isInf = false := by
  cases x <;> simp [Fp.isFinite, Fp.isNaN, Fp.isInf] at h ⊢

/-- A zero stands for 0. -/
theorem Fp.val_of_isZero {x : Fp} (h : x.isZero = true) : x.val = 0 := by
  cases x <;> simp [Fp.isZero, Fp.val] at h ⊢
  exact h

/-- A finite value that is not a zero stands for a number other than 0. -/
theorem Fp.val_ne_zero {x : Fp} (hf : x.isFinite = true) (h : x.isZero = false) :
    x.val ≠ 0 := by
  cases x <;> simp [Fp.isZero, Fp.val, Fp.isFinite] at h hf ⊢
  exact h

/-- A signed zero is finite and stands for 0. -/
theorem Fp.signedZero_btw (s : Bool) (lo hi : ℚ) (h1 : lo ≤ 0) (h2 : 0 ≤ hi) :
    Fp.Btw (Fp.signedZero s) lo hi := by
  cases s
  · exact ⟨rfl, h1, h2⟩
  · exact ⟨rfl, h1, h2⟩

/-- The product of two finite values is finite and within every pair of numbers of the
format that bound the exact product. -/
theorem Fp.mulF_btw (fmt : FpFormat) (hp1 : 1 ≤ fmt.prec) {x y : Fp} (lo hi : ℚ)
    (hx : x.isFinite = true) (hy : y.isFinite = true)
    (hlo : Fp.Rep fmt lo) (hhi : Fp.Rep fmt hi)
    (h1 : lo ≤ x.val * y.val) (h2 : x.val * y.val ≤ hi) :
    Fp.Btw (Fp.mulF fmt x y) lo hi := by
  obtain ⟨hxn, hxi⟩ := Fp.finite_cases hx
  obtain ⟨hyn, hyi⟩ := Fp.finite_cases hy
  unfold Fp.mulF
  simp only [hxn, hyn, hxi, hyi, Bool.or_self, Bool.false_and, Bool.and_false,
    Bool.false_eq_true, if_false]
  by_cases hz : (x.isZero || y.isZero) = true
  · rw [if_pos hz]
    have h0 : x.val * y.val = 0 := by
      rcases Bool.or_eq_true _ _ ▸ hz with h | h
      · rw [Fp.val_of_isZero h, zero_mul]
      · rw [Fp.val_of_isZero h, mul_zero]
    rw [h0] at h1 h2
    exact Fp.signedZero_btw _ lo hi h1 h2
  · rw [if_neg hz]
    exact Fp.round_btw fmt hp1 _ lo hi hlo hhi (by exact_mod_cast h1) (by exact_mod_cast h2)

/-- The sum of two finite values is finite and within every pair of numbers of the format
that bound the exact sum. -/
theorem Fp.addF_btw (fmt : FpFormat) (hp1 : 1 ≤ fmt.prec) {x y : Fp} (lo hi : ℚ)
    (hx : x.isFinite = true) (hy : y.isFinite = true)
    (hlo : Fp.Rep fmt lo) (hhi : Fp.Rep fmt hi)
    (h1 : lo ≤ x.val + y.val) (h2 : x.val + y.val ≤ hi) :
    Fp.Btw (Fp.addF fmt x y) lo hi := by
  obtain ⟨hxn, hxi⟩ := Fp.finite_cases hx
  obtain ⟨hyn, hyi⟩ := Fp.finite_cases hy
  unfold Fp.addF
  simp only [hxn, hyn, hxi, hyi, Bool.or_self, Bool.and_self, Bool.false_eq_true, if_false]
  by_cases hz : (x.isZero && y.isZero) = true
  · rw [if_pos hz]
    have h0 : x.val + y.val = 0 := by
      rw [Bool.and_eq_true] at hz
      rw [Fp.val_of_isZero hz.1, Fp.val_of_isZero hz.2, add_zero]
    rw [h0] at h1 h2
    exact Fp.signedZero_btw _ lo hi h1 h2
  · rw [if_neg hz]
    by_cases hs : x.val + y.val = 0
    · rw [if_pos hs]
      rw [hs] at h1 h2
      exact ⟨rfl, h1, h2⟩
    · rw [if_neg hs]
      exact Fp.round_btw fmt hp1 _ lo hi hlo hhi (by exact_mod_cast h1)
        (by exact_mod_cast h2)

/-- The quotient of a finite value by a finite value that is not a zero is finite and
within every pair of numbers of the format that bound the exact quotient. -/
theorem Fp.divF_btw (fmt : FpFormat) (hp1 : 1 ≤ fmt.prec) {x y : Fp} (lo hi : ℚ)
    (hx : x.isFinite = true) (hy : y.isFinite = true) (hy0 : y.val ≠ 0)
    (hlo : Fp.Rep fmt lo) (hhi : Fp.Rep fmt hi)
    (h1 : lo ≤ x.val / y.val) (h2 : x.val / y.val ≤ hi) :
    Fp.Btw (Fp.divF fmt x y) lo hi := by
  obtain ⟨hxn, hxi⟩ := Fp.finite_cases hx
  obtain ⟨hyn, hyi⟩ := Fp.finite_cases hy
  have hyz : y.isZero = false := by
    by_contra hc
    rw [Bool.not_eq_false] at hc
    exact hy0 (Fp.val_of_isZero hc)
  unfold Fp.divF
  simp only [hxn, hyn, hxi, hyi, hyz, Bool.or_self, Bool.and_self, Bool.and_false,
    Bool.false_or, Bool.or_false, Bool.false_eq_true, if_false]
  by_cases hz : x.isZero = true
  · rw [if_pos hz]
    have h0 : x.val / y.val = 0 := by rw [Fp.val_of_isZero hz, zero_div]
    rw [h0] at h1 h2
    exact Fp.signedZero_btw _ lo hi h1 h2
  · rw [if_neg hz]
    exact Fp.round_btw fmt hp1 _ lo hi hlo hhi (by exact_mod_cast h1) (by exact_mod_cast h2)

/-- The negative of a finite value is finite and stands for the negative number. -/
theorem Fp.neg_btw {x : Fp} {a b : ℚ} (hx : Fp.Btw x a b) : Fp.Btw (Fp.neg x) (-b) (-a) := by
  obtain ⟨hf, h1, h2⟩ := hx
  cases x with
  | fin q =>
    simp only [Fp.val] at h1 h2
    by_cases hq : q = 0
    · subst hq
      have : Fp.neg (Fp.fin 0) = Fp.nzero := by simp [Fp.neg]
      rw [this]
      exact ⟨rfl, by simpa [Fp.val] using h2, by simpa [Fp.val] using h1⟩
    · have : Fp.neg (Fp.fin q) = Fp.fin (-q) := by simp [Fp.neg, hq]
      rw [this]
      exact ⟨rfl, by simpa [Fp.val] using h2, by simpa [Fp.val] using h1⟩
  | nzero =>
    simp only [Fp.val] at h1 h2
    exact ⟨rfl, by simpa [Fp.val, Fp.neg] using h2, by simpa [Fp.val, Fp.neg] using h1⟩
  | pinf => simp [Fp.isFinite] at hf
  | ninf => simp [Fp.isFinite] at hf
  | nan => simp [Fp.isFinite] at hf

/-- The product of two numbers in intervals lies between the least and the greatest of
the four products of the ends. -/
theorem mul_mem_corners {F : Type} [LinearOrderedField F] {a b c d u v lo hi : F}
    (hu1 : a ≤ u) (hu2 : u ≤ b) (hv1 : c ≤ v) (hv2 : v ≤ d)
    (l1 : lo ≤ a * c) (l2 : lo ≤ a * d) (l3 : lo ≤ b * c) (l4 : lo ≤ b * d)
    (u1 : a * c ≤ hi) (u2 : a * d ≤ hi) (u3 : b * c ≤ hi) (u4 : b * d ≤ hi) :
    lo ≤ u * v ∧ u * v ≤ hi := by
  have key : ∀ w : F, a ≤ w → w ≤ b → (w = a ∨ w = b) →
      lo ≤ w * v ∧ w * v ≤ hi := by
    intro w _ _ hw
    rcases hw with rfl | rfl
    · rcases le_total 0 w with h | h
      · exact ⟨le_trans l1 (mul_le_mul_of_nonneg_left hv1 h),
          le_trans (mul_le_mul_of_nonneg_left hv2 h) u2⟩
      · exact ⟨le_trans l2 (mul_le_mul_of_nonpos_left hv2 h),
          le_trans (mul_le_mul_of_nonpos_left hv1 h) u1⟩
    · rcases le_total 0 w with h | h
      · exact ⟨le_trans l3 (mul_le_mul_of_nonneg_left hv1 h),
          le_trans (mul_le_mul_of_nonneg_left hv2 h) u4⟩
      · exact ⟨le_trans l4 (mul_le_mul_of_nonpos_left hv2 h),
          le_trans (mul_le_mul_of_nonpos_left hv1 h) u3⟩
  have hab : a ≤ b := le_trans hu1 hu2
  have ka := key a le_rfl hab (Or.inl rfl)
  have kb := key b hab le_rfl (Or.inr rfl)
  rcases le_total 0 v with h | h
  · exact ⟨le_trans ka.1 (mul_le_mul_of_nonneg_right hu1 h),
      le_trans (mul_le_mul_of_nonneg_right hu2 h) kb.2⟩
  · exact ⟨le_trans kb.1 (mul_le_mul_of_nonpos_right hu2 h),
      le_trans (mul_le_mul_of_nonpos_right hu1 h) ka.2⟩

/-- The quotient of a number in an interval by a number in a positive interval lies
between the least and the greatest of the four quotients of the ends. -/
theorem div_mem_corners {F : Type} [LinearOrderedField F] {a b c d u v lo hi : F}
    (hc : 0 < c) (hu1 : a ≤ u) (hu2 : u ≤ b) (hv1 : c ≤ v) (hv2 : v ≤ d)
    (l1 : lo ≤ a / c) (l2 : lo ≤ a / d) (l3 : lo ≤ b / c) (l4 : lo ≤ b / d)
    (u1 : a / c ≤ hi) (u2 : a / d ≤ hi) (u3 : b / c ≤ hi) (u4 : b / d ≤ hi) :
    lo ≤ u / v ∧ u / v ≤ hi := by
  have hv : 0 < v := lt_of_lt_of_le hc hv1
  have hd : 0 < d := lt_of_lt_of_le hv hv2
  have i1 : d⁻¹ ≤ v⁻¹ := inv_anti₀ hv hv2
  have i2 : v⁻¹ ≤ c⁻¹ := inv_anti₀ hc hv1
  simp only [div_eq_mul_inv] at *
  exact mul_mem_corners hu1 hu2 i1 i2 l2 l1 l4 l3 u2 u1 u4 u3

end Intervals

section Float32

/-- The format `binary32` has at least one significand bit. -/
theorem binary32_prec_pos : 1 ≤ binary32.prec := by decide

/-- The format `binary64` has at least one significand bit. -/
theorem binary64_prec_pos : 1 ≤ binary64.prec := by decide

/-- An integer of fewer than 24 bits times a power of two from `2^-149` to `2^104` is a
binary32 number. -/
theorem Fp.rep32_of (q : ℚ) (n e : ℤ)
    (h : |n| < 2 ^ 24 ∧ -149 ≤ e ∧ e ≤ 104 ∧ q = (n : ℚ) * (2 : ℚ) ^ e) :
    Fp.Rep binary32 q :=
  ⟨n, e, h.1, by show (-126 : ℤ) - ((24 : ℕ) : ℤ) + 1 ≤ e; omega,
    by show e + ((24 : ℕ) : ℤ) ≤ ((128 : ℕ) : ℤ); omega, h.2.2.2⟩

/-- An integer of fewer than 53 bits times a power of two from `2^-1074` to `2^971` is a
binary64 number. -/
theorem Fp.rep64_of (q : ℚ) (n e : ℤ)
    (h : |n| < 2 ^ 53 ∧ -1074 ≤ e ∧ e ≤ 971 ∧ q = (n : ℚ) * (2 : ℚ) ^ e) :
    Fp.Rep binary64 q :=
  ⟨n, e, h.1, by show (-1022 : ℤ) - ((53 : ℕ) : ℤ) + 1 ≤ e; omega,
    by show e + ((53 : ℕ) : ℤ) ≤ ((1024 : ℕ) : ℤ); omega, h.2.2.2⟩

/-- Wider bounds hold as well. -/
theorem Fp.btw_mono {x : Fp} {a b : ℚ} (lo hi : ℚ) (h : Fp.Btw x a b) (h1 : lo ≤ a)
    (h2 : b ≤ hi) : Fp.Btw x lo hi :=
  ⟨h.1, le_trans h1 h.2.1, le_trans h.2.2 h2⟩

/-- A value within positive bounds is a positive finite number. -/
theorem Fp.btw_eq_fin {x : Fp} {a b : ℚ} (h : Fp.Btw x a b) (ha : 0 < a) :
    ∃ q : ℚ, x = Fp.fin q ∧ a ≤ q ∧ q ≤ b := by
  obtain ⟨hf, h1, h2⟩ := h
  cases x with
  | fin q => exact ⟨q, rfl, h1, h2⟩
  | nzero =>
    simp only [Fp.val] at h1
    exact absurd h1 (not_le.mpr ha)
  | pinf => simp [Fp.isFinite] at hf
  | ninf => simp [Fp.isFinite] at hf
  | nan => simp [Fp.isFinite] at hf

/-- An integer literal is finite and stands for the integer. -/
theorem Fp.ofNat_btw (n : ℕ) (q : ℚ) (h : q = n) : Fp.Btw (OfNat.ofNat n : Fp) q q :=
  ⟨rfl, h.le, h.ge⟩

/-- A decimal literal is finite and within every pair of binary32 numbers that bound the
decimal number. -/
theorem Fp.ofScientific_btw (m : ℕ) (s : Bool) (e : ℕ) (lo hi : ℚ)
    (hlo : Fp.Rep binary32 lo) (hhi : Fp.Rep binary32 hi)
    (h : lo ≤ (OfScientific.ofScientific m s e : ℚ) ∧
      (OfScientific.ofScientific m s e : ℚ) ≤ hi) :
    Fp.Btw (OfScientific.ofScientific m s e : Fp) lo hi :=
  Fp.round_btw binary32 binary32_prec_pos _ lo hi hlo hhi (by exact_mod_cast h.1)
    (by exact_mod_cast h.2)

/-- Bounds on a binary32 sum. -/
theorem Fp.add_btw {x y : Fp} {a b c d : ℚ} (lo hi : ℚ) (hx : Fp.Btw x a b)
    (hy : Fp.Btw y c d) (hlo : Fp.Rep binary32 lo) (hhi : Fp.Rep binary32 hi)
    (h : lo ≤ a + c ∧ b + d ≤ hi) : Fp.Btw (x + y) lo hi :=
  Fp.addF_btw binary32 binary32_prec_pos lo hi hx.1 hy.1 hlo hhi
    (by linarith [hx.2.1, hy.2.1, h.1]) (by linarith [hx.2.2, hy.2.2, h.2])

/-- Bounds on a binary32 difference. -/
theorem Fp.sub_btw {x y : Fp} {a b c d : ℚ} (lo hi : ℚ) (hx : Fp.Btw x a b)
    (hy : Fp.Btw y c d) (hlo : Fp.Rep binary32 lo) (hhi : Fp.Rep binary32 hi)
    (h : lo ≤ a - d ∧ b - c ≤ hi) : Fp.Btw (x - y) lo hi := by
  have hn := Fp.neg_btw hy
  exact Fp.addF_btw binary32 binary32_prec_pos lo hi hx.1 hn.1 hlo hhi
    (by linarith [hx.2.1, hn.2.1, h.1]) (by linarith [hx.2.2, hn.2.2, h.2])

/-- Bounds on a product in the format, from the four products of the ends. -/
theorem Fp.mulF_corners (fmt : FpFormat) (hp1 : 1 ≤ fmt.prec) {x y : Fp} {a b c d : ℚ}
    (lo hi : ℚ) (hx : Fp.Btw x a b)
    (hy : Fp.Btw y c d) (hlo : Fp.Rep fmt lo) (hhi : Fp.Rep fmt hi)
    (h : (lo ≤ a * c ∧ lo ≤ a * d ∧ lo ≤ b * c ∧ lo ≤ b * d) ∧
      a * c ≤ hi ∧ a * d ≤ hi ∧ b * c ≤ hi ∧ b * d ≤ hi) :
    Fp.Btw (Fp.mulF fmt x y) lo hi := by
  obtain ⟨⟨l1, l2, l3, l4⟩, u1, u2, u3, u4⟩ := h
  have := mul_mem_corners hx.2.1 hx.2.2 hy.2.1 hy.2.2 l1 l2 l3 l4 u1 u2 u3 u4
  exact Fp.mulF_btw fmt hp1 lo hi hx.1 hy.1 hlo hhi this.1 this.2

/-- Bounds on a quotient in the format by a positive value, from the four quotients of
the ends. -/
theorem Fp.divF_corners (fmt : FpFormat) (hp1 : 1 ≤ fmt.prec) {x y : Fp} {a b c d : ℚ}
    (lo hi : ℚ) (hx : Fp.Btw x a b)
    (hy : Fp.Btw y c d) (hlo : Fp.Rep fmt lo) (hhi : Fp.Rep fmt hi)
    (h : 0 < c ∧ (lo ≤ a / c ∧ lo ≤ a / d ∧ lo ≤ b / c ∧ lo ≤ b / d) ∧
      a / c ≤ hi ∧ a / d ≤ hi ∧ b / c ≤ hi ∧ b / d ≤ hi) :
    Fp.Btw (Fp.divF fmt x y) lo hi := by
  obtain ⟨hc, ⟨l1, l2, l3, l4⟩, u1, u2, u3, u4⟩ := h
  have := div_mem_corners hc hx.2.1 hx.2.2 hy.2.1 hy.2.2 l1 l2 l3 l4 u1 u2 u3 u4
  have hy0 : y.val ≠ 0 := (lt_of_lt_of_le hc hy.2.1).ne'
  exact Fp.divF_btw fmt hp1 lo hi hx.1 hy.1 hy0 hlo hhi this.1 this.2

/-- Bounds on a binary32 product, from the four products of the ends. -/
theorem Fp.mul_btw {x y : Fp} {a b c d : ℚ} (lo hi : ℚ) (hx : Fp.Btw x a b)
    (hy : Fp.Btw y c d) (hlo : Fp.Rep binary32 lo) (hhi : Fp.Rep binary32 hi)
    (h : (lo ≤ a * c ∧ lo ≤ a * d ∧ lo ≤ b * c ∧ lo ≤ b * d) ∧
      a * c ≤ hi ∧ a * d ≤ hi ∧ b * c ≤ hi ∧ b * d ≤ hi) :
    Fp.Btw (x * y) lo hi :=
  Fp.mulF_corners binary32 binary32_prec_pos lo hi hx hy hlo hhi h

/-- Bounds on a binary32 quotient by a positive value, from the four quotients of the
ends. -/
theorem Fp.div_btw {x y : Fp} {a b c d : ℚ} (lo hi : ℚ) (hx : Fp.Btw x a b)
    (hy : Fp.Btw y c d) (hlo : Fp.Rep binary32 lo) (hhi : Fp.Rep binary32 hi)
    (h : 0 < c ∧ (lo ≤ a / c ∧ lo ≤ a / d ∧ lo ≤ b / c ∧ lo ≤ b / d) ∧
      a / c ≤ hi ∧ a / d ≤ hi ∧ b / c ≤ hi ∧ b / d ≤ hi) :
    Fp.Btw (x / y) lo hi :=
  Fp.divF_corners binary32 binary32_prec_pos lo hi hx hy hlo hhi h

/-- Bounds on the negative. -/
theorem Fp.neg_btw_op {x : Fp} {a b : ℚ} (hx : Fp.Btw x a b) : Fp.Btw (-x) (-b) (-a) :=
  Fp.neg_btw hx

/-- Bounds on a `double` converted to `float`. -/
theorem Fp.toFloat_btw {x : Fp} {a b : ℚ} (lo hi : ℚ) (hx : Fp.Btw x a b)
    (hlo : Fp.Rep binary32 lo) (hhi : Fp.Rep binary32 hi) (h : lo ≤ a ∧ b ≤ hi) :
    Fp.Btw (Fp.toFloat x) lo hi := by
  obtain ⟨h1, h2⟩ := h
  unfold Fp.toFloat
  split_ifs
  · exact Fp.round_btw binary32 binary32_prec_pos _ lo hi hlo hhi
      (by exact_mod_cast le_trans h1 hx.2.1) (by exact_mod_cast le_trans hx.2.2 h2)
  · exact Fp.btw_mono lo hi hx h1 h2

/-- Bounds on `M_PI`, the `double` nearest to pi. -/
theorem Fp.M_PI_btw : Fp.Btw Fp.libm.M_PI (3217 / 1024 - 1 / 4096) (3217 / 1024) := by
  apply Fp.round_btw binary64 binary64_prec_pos
  · exact Fp.rep64_of _ 12867 (-12) (by norm_num)
  · exact Fp.rep64_of _ 3217 (-10) (by norm_num)
  · have := Real.pi_gt_d6
    push_cast
    linarith
  · have := Real.pi_lt_d6
    push_cast
    linarith

/-- Bounds on `sinf` of a value from above 0 to 1: the sine lies between `x - x^3/4` and
`x`. -/
theorem Fp.sinf_btw {x : Fp} {a b : ℚ} (lo hi : ℚ) (hx : Fp.Btw x a b)
    (hlo : Fp.Rep binary32 lo) (hhi : Fp.Rep binary32 hi)
    (h : 0 < a ∧ b ≤ 1 ∧ lo ≤ a - a ^ 3 / 4 ∧ b ≤ hi) :
    Fp.Btw (Fp.libm.sinf x) lo hi := by
  obtain ⟨ha, hb, h1, h2⟩ := h
  obtain ⟨q, rfl, hq1, hq2⟩ := Fp.btw_eq_fin hx ha
  have hq0 : 0 < q := lt_of_lt_of_le ha hq1
  have hs : Fp.libm.sinf (Fp.fin q) = Fp.round binary32 (Real.sin ((q : ℚ) : ℝ)) := by
    simp [Fp.libm, Fp.isZero, Fp.isFinite, Fp.val, hq0.ne']
  rw [hs]
  have hqr : (0 : ℝ) < (q : ℝ) := by exact_mod_cast hq0
  have hq1r : (q : ℝ) ≤ 1 := by exact_mod_cast le_trans hq2 hb
  have har : (0 : ℝ) < (a : ℝ) := by exact_mod_cast ha
  have haq : (a : ℝ) ≤ (q : ℝ) := by exact_mod_cast hq1
  apply Fp.round_btw binary32 binary32_prec_pos _ lo hi hlo hhi
  · have h3 := Real.sin_gt_sub_cube hqr hq1r
    have h4 : ((lo : ℚ) : ℝ) ≤ (a : ℝ) - (a : ℝ) ^ 3 / 4 := by exact_mod_cast h1
    have h5 : (a : ℝ) - (a : ℝ) ^ 3 / 4 ≤ (q : ℝ) - (q : ℝ) ^ 3 / 4 := by
      nlinarith [mul_nonneg (sub_nonneg.mpr haq) har.le, sq_nonneg ((q : ℝ) - a),
        mul_nonneg (sub_nonneg.mpr haq) (sub_nonneg.mpr hq1r), sq_nonneg ((q : ℝ) + a),
        mul_nonneg (mul_nonneg (sub_nonneg.mpr haq) hqr.le) (sub_nonneg.mpr hq1r)]
    linarith
  · have h3 := Real.sin_lt hqr
    have h4 : (q : ℝ) ≤ ((hi : ℚ) : ℝ) := by exact_mod_cast le_trans hq2 h2
    linarith

/-- Bounds on `cosf` of a finite value of magnitude up to `b`: the cosine lies between
`1 - b^2/2` and 1. -/
theorem Fp.cosf_btw {x : Fp} {a b : ℚ} (lo hi : ℚ) (hx : Fp.Btw x a b)
    (hlo : Fp.Rep binary32 lo) (hhi : Fp.Rep binary32 hi)
    (h : 0 ≤ a ∧ lo ≤ 1 - b ^ 2 / 2 ∧ 1 ≤ hi) : Fp.Btw (Fp.libm.cosf x) lo hi := by
  obtain ⟨ha, h1, h2⟩ := h
  have hs : Fp.libm.cosf x = Fp.round binary32 (Real.cos ((x.val : ℚ) : ℝ)) := by
    simp [Fp.libm, hx.1]
  rw [hs]
  have hq0 : (0 : ℝ) ≤ (x.val : ℝ) := by exact_mod_cast le_trans ha hx.2.1
  have hqb : (x.val : ℝ) ≤ (b : ℝ) := by exact_mod_cast hx.2.2
  apply Fp.round_btw binary32 binary32_prec_pos _ lo hi hlo hhi
  · have h3 := Real.one_sub_sq_div_two_le_cos (x := (x.val : ℝ))
    have h4 : ((lo : ℚ) : ℝ) ≤ 1 - (b : ℝ) ^ 2 / 2 := by exact_mod_cast h1
    nlinarith
  · have h3 := Real.cos_le_one (x.val : ℝ)
    have h4 : (1 : ℝ) ≤ ((hi : ℚ) : ℝ) := by exact_mod_cast h2
    linarith

/-- Bounds on `sqrtf` of a positive finite value. -/
theorem Fp.sqrtf_btw {x : Fp} {a b : ℚ} (lo hi : ℚ) (hx : Fp.Btw x a b)
    (hlo : Fp.Rep binary32 lo) (hhi : Fp.Rep binary32 hi)
    (h : 0 < a ∧ lo ^ 2 ≤ a ∧ 0 ≤ hi ∧ b ≤ hi ^ 2) :
    Fp.Btw (Fp.libm.sqrtf x) lo hi := by
  obtain ⟨ha, h1, hh0, h2⟩ := h
  obtain ⟨q, rfl, hq1, hq2⟩ := Fp.btw_eq_fin hx ha
  have hq0 : 0 < q := lt_of_lt_of_le ha hq1
  have hs : Fp.libm.sqrtf (Fp.fin q) = Fp.round binary32 (Real.sqrt ((q : ℚ) : ℝ)) := by
    simp [Fp.libm, Fp.isZero, Fp.isNaN, Fp.isInf, Fp.signbit, Fp.val, hq0.ne', hq0.le,
      not_lt.mpr hq0.le]
  rw [hs]
  apply Fp.round_btw binary32 binary32_prec_pos _ lo hi hlo hhi
  · apply Real.le_sqrt_of_sq_le
    have : lo ^ 2 ≤ q := le_trans h1 hq1
    exact_mod_cast this
  · rw [Real.sqrt_le_left (by exact_mod_cast hh0)]
    have : q ≤ hi ^ 2 := le_trans hq2 h2
    exact_mod_cast this

/-- Bounds on `powf(10.0f, y)` for a finite `y`, from bounds on the powers of 10 at the
ends. -/
theorem Fp.powf_btw {y : Fp} {a b : ℚ} (lo hi : ℚ) (hy : Fp.Btw y a b)
    (hlo : Fp.Rep binary32 lo) (hhi : Fp.Rep binary32 hi)
    (h1 : ((lo : ℚ) : ℝ) ≤ (10 : ℝ) ^ ((a : ℚ) : ℝ))
    (h2 : (10 : ℝ) ^ ((b : ℚ) : ℝ) ≤ ((hi : ℚ) : ℝ)) :
    Fp.Btw (Fp.libm.powf 10 y) lo hi := by
  obtain ⟨hyn, hyi⟩ := Fp.finite_cases hy.1
  have hs : Fp.libm.powf 10 y = Fp.round binary32 ((10 : ℝ) ^ ((y.val : ℚ) : ℝ)) := by
    have h10 : ((10 : Fp)) = Fp.fin 10 := rfl
    simp [Fp.libm, h10, Fp.isFinite, Fp.val, hyn, hyi]
  rw [hs]
  have ha : ((a : ℚ) : ℝ) ≤ (y.val : ℝ) := by exact_mod_cast hy.2.1
  have hb : (y.val : ℝ) ≤ ((b : ℚ) : ℝ) := by exact_mod_cast hy.2.2
  apply Fp.round_btw binary32 binary32_prec_pos _ lo hi hlo hhi
  · exact le_trans h1 (Real.rpow_le_rpow_of_exponent_le (by norm_num) ha)
  · exact le_trans (Real.rpow_le_rpow_of_exponent_le (by norm_num) hb) h2

end Float32

section Float32Process

/-- The zero is a binary32 number. -/
theorem Fp.rep32_zero : Fp.Rep binary32 0 :=
  Fp.rep32_of 0 0 0 (by norm_num)

/-- A finite coefficient times a zeroed register is a zero. -/
theorem Fp.mul_zero_btw {c : Fp} (h : c.isFinite = true) : Fp.Btw (c * 0) 0 0 :=
  Fp.mulF_btw binary32 binary32_prec_pos 0 0 h rfl Fp.rep32_zero Fp.rep32_zero
    (by show (0 : ℚ) ≤ c.val * 0; rw [mul_zero])
    (by show c.val * 0 ≤ (0 : ℚ); rw [mul_zero])

/-- Adding a finite value to `+inf` leaves `+inf`. -/
theorem Fp.pinf_add_finite {z : Fp} (h : z.isFinite = true) : Fp.pinf + z = Fp.pinf := by
  cases z <;> simp [Fp.isFinite] at h <;> rfl

/-- Subtracting a finite value from `+inf` leaves `+inf`. -/
theorem Fp.pinf_sub_finite {z : Fp} (h : z.isFinite = true) : Fp.pinf - z = Fp.pinf := by
  have hn : (Fp.neg z).isFinite = true := (Fp.neg_btw ⟨h, le_rfl, le_rfl⟩).1
  exact Fp.pinf_add_finite hn

/-- A positive finite value times `+inf` is `+inf`. -/
theorem Fp.mul_pinf_of_pos {x : Fp} {a b : ℚ} (hx : Fp.Btw x a b) (ha : 0 < a) :
    x * Fp.pinf = Fp.pinf := by
  obtain ⟨q, rfl, hq1, -⟩ := Fp.btw_eq_fin hx ha
  have hq0 : 0 < q := lt_of_lt_of_le ha hq1
  show Fp.mulF binary32 (Fp.fin q) Fp.pinf = Fp.pinf
  simp [Fp.mulF, Fp.isNaN, Fp.isInf, Fp.isZero, Fp.signbit, Fp.signedInf, hq0.ne',
    not_lt.mpr hq0.le]

/-- The product of two positive finite values whose exact product is `2^128` or more is
`+inf`. -/
theorem Fp.mul_overflow {x y : Fp} {a b c d : ℚ} (hx : Fp.Btw x a b) (hy : Fp.Btw y c d)
    (ha : 0 < a) (hc : 0 < c) (h : (2 : ℚ) ^ (128 : ℤ) ≤ a * c) : x * y = Fp.pinf := by
  obtain ⟨q, rfl, hq1, -⟩ := Fp.btw_eq_fin hx ha
  obtain ⟨r, rfl, hr1, -⟩ := Fp.btw_eq_fin hy hc
  have hq0 : 0 < q := lt_of_lt_of_le ha hq1
  have hr0 : 0 < r := lt_of_lt_of_le hc hr1
  rw [Fp.fin_mul_fin q r hq0.ne' hr0.ne']
  apply Fp.round32_overflow
  calc (2 : ℚ) ^ (128 : ℤ) ≤ a * c := h
    _ ≤ q * r := mul_le_mul hq1 hr1 hc.le hq0.le

/-- The first sample out of a section with zeroed registers and finite coefficients lies
within the bounds of `a0 * x`. -/
theorem process_first_btw (f : MyBiquad Fp) (x : Fp) (lo hi : ℚ) (hz1 : f.z1 = 0)
    (hz2 : f.z2 = 0) (h1 : f.a1.isFinite = true) (h2 : f.a2.isFinite = true)
    (h3 : f.b1.isFinite = true) (h4 : f.b2.isFinite = true)
    (hlo : Fp.Rep binary32 lo) (hhi : Fp.Rep binary32 hi)
    (hp : Fp.Btw (f.a0 * x) lo hi) :
    Fp.Btw (Binary32.MyBiquad.Process f x).1 lo hi := by
  show Fp.Btw (f.a0 * x + f.a1 * f.z1 + f.a2 * f.z2 - f.b1 * f.z1 - f.b2 * f.z2) lo hi
  rw [hz1, hz2]
  have s1 := Fp.add_btw lo hi hp (Fp.mul_zero_btw h1) hlo hhi (by norm_num)
  have s2 := Fp.add_btw lo hi s1 (Fp.mul_zero_btw h2) hlo hhi (by norm_num)
  have s3 := Fp.sub_btw lo hi s2 (Fp.mul_zero_btw h3) hlo hhi (by norm_num)
  exact Fp.sub_btw lo hi s3 (Fp.mul_zero_btw h4) hlo hhi (by norm_num)

/-- The first sample out of a section with zeroed registers and finite coefficients is
`+inf` when `a0 * x` is. -/
theorem process_first_pinf (f : MyBiquad Fp) (x : Fp) (hz1 : f.z1 = 0)
    (hz2 : f.z2 = 0) (h1 : f.a1.isFinite = true) (h2 : f.a2.isFinite = true)
    (h3 : f.b1.isFinite = true) (h4 : f.b2.isFinite = true)
    (hp : f.a0 * x = Fp.pinf) :
    (Binary32.MyBiquad.Process f x).1 = Fp.pinf := by
  show f.a0 * x + f.a1 * f.z1 + f.a2 * f.z2 - f.b1 * f.z1 - f.b2 * f.z2 = Fp.pinf
  rw [hz1, hz2, hp, Fp.pinf_add_finite (Fp.mul_zero_btw h1).1,
    Fp.pinf_add_finite (Fp.mul_zero_btw h2).1, Fp.pinf_sub_finite (Fp.mul_zero_btw h3).1,
    Fp.pinf_sub_finite (Fp.mul_zero_btw h4).1]

/-- A lower bound on a power of 10 with a rational exponent `p / q`. -/
theorem pow10_lower (lo a : ℚ) (p : ℤ) (q : ℕ)
    (hyp : 0 < q ∧ a * q = p ∧ lo ^ q ≤ (10 : ℚ) ^ p) :
    ((lo : ℚ) : ℝ) ≤ (10 : ℝ) ^ ((a : ℚ) : ℝ) := by
  obtain ⟨hq, ha, h⟩ := hyp
  have hpow : ((10 : ℝ) ^ ((a : ℚ) : ℝ)) ^ q = (10 : ℝ) ^ p := by
    rw [← Real.rpow_natCast, ← Real.rpow_mul (by norm_num), ← Real.rpow_intCast]
    congr 1
    exact_mod_cast ha
  have hpos : (0 : ℝ) < (10 : ℝ) ^ ((a : ℚ) : ℝ) := Real.rpow_pos_of_pos (by norm_num) _
  by_contra hlt
  push_neg at hlt
  have h1 := pow_lt_pow_left₀ hlt hpos.le (Nat.pos_iff_ne_zero.mp hq)
  rw [hpow] at h1
  have h2 : (((lo ^ q : ℚ)) : ℝ) ≤ (((10 : ℚ) ^ p : ℚ) : ℝ) := Rat.cast_le.mpr h
  rw [Rat.cast_pow, Rat.cast_zpow, Rat.cast_ofNat] at h2
  linarith

/-- An upper bound on a power of 10 with a rational exponent `p / q`. -/
theorem pow10_upper (hi a : ℚ) (p : ℤ) (q : ℕ)
    (hyp : 0 < q ∧ a * q = p ∧ 0 ≤ hi ∧ (10 : ℚ) ^ p ≤ hi ^ q) :
    (10 : ℝ) ^ ((a : ℚ) : ℝ) ≤ ((hi : ℚ) : ℝ) := by
  obtain ⟨hq, ha, h0, h⟩ := hyp
  have hpow : ((10 : ℝ) ^ ((a : ℚ) : ℝ)) ^ q = (10 : ℝ) ^ p := by
    rw [← Real.rpow_natCast, ← Real.rpow_mul (by norm_num), ← Real.rpow_intCast]
    congr 1
    exact_mod_cast ha
  by_contra hlt
  push_neg at hlt
  have h1 := pow_lt_pow_left₀ hlt (by exact_mod_cast h0) (Nat.pos_iff_ne_zero.mp hq)
  rw [hpow] at h1
  have h2 : ((((10 : ℚ) ^ p : ℚ)) : ℝ) ≤ (((hi ^ q : ℚ)) : ℝ) := Rat.cast_le.mpr h
  rw [Rat.cast_pow, Rat.cast_zpow, Rat.cast_ofNat] at h2
  linarith

end Float32Process

section Float32Libm

/-- Bounds on `sinf` of a finite value from 0 to 1: the sine lies between 0 and `x`. -/
theorem Fp.sinf_btw_nonneg {x : Fp} {a b : ℚ} (hi : ℚ) (hx : Fp.Btw x a b)
    (hhi : Fp.Rep binary32 hi) (h : 0 ≤ a ∧ b ≤ 1 ∧ b ≤ hi) :
    Fp.Btw (Fp.libm.sinf x) 0 hi := by
  obtain ⟨ha, hb, h2⟩ := h
  have hv0 : 0 ≤ x.val := le_trans ha hx.2.1
  have hvb : x.val ≤ b := hx.2.2
  by_cases hz : x.isZero = true
  · have hs : Fp.libm.sinf x = x := by simp [Fp.libm, hz]
    rw [hs]
    have : x.val = 0 := Fp.val_of_isZero hz
    exact ⟨hx.1, by rw [this], by rw [this]; linarith⟩
  · have hs : Fp.libm.sinf x = Fp.round binary32 (Real.sin ((x.val : ℚ) : ℝ)) := by
      simp [Fp.libm, hz, hx.1]
    rw [hs]
    have hr0 : (0 : ℝ) ≤ (x.val : ℝ) := by exact_mod_cast hv0
    have hr1 : (x.val : ℝ) ≤ 1 := by exact_mod_cast le_trans hvb hb
    apply Fp.round_btw binary32 binary32_prec_pos _ 0 hi Fp.rep32_zero hhi
    · have := Real.sin_nonneg_of_nonneg_of_le_pi hr0 (by linarith [Real.pi_gt_three])
      simpa using this
    · have h3 := Real.sin_le hr0
      have h4 : (x.val : ℝ) ≤ ((hi : ℚ) : ℝ) := by exact_mod_cast le_trans hvb h2
      linarith

/-- Bounds on `sinf` of a finite value from 0 to `3217/1024`, just above pi: the sine lies
between `-2^-16` and 1. -/
theorem Fp.sinf_btw_wide {x : Fp} {a b : ℚ} (hx : Fp.Btw x a b)
    (h : 0 ≤ a ∧ b ≤ 3217 / 1024) :
    Fp.Btw (Fp.libm.sinf x) (-1 / 65536) 1 := by
  obtain ⟨ha, hb⟩ := h
  have hv0 : 0 ≤ x.val := le_trans ha hx.2.1
  have hvb : x.val ≤ 3217 / 1024 := le_trans hx.2.2 hb
  by_cases hz : x.isZero = true
  · have hs : Fp.libm.sinf x = x := by simp [Fp.libm, hz]
    rw [hs]
    have : x.val = 0 := Fp.val_of_isZero hz
    exact ⟨hx.1, by rw [this]; norm_num, by rw [this]; norm_num⟩
  · have hs : Fp.libm.sinf x = Fp.round binary32 (Real.sin ((x.val : ℚ) : ℝ)) := by
      simp [Fp.libm, hz, hx.1]
    rw [hs]
    have hr0 : (0 : ℝ) ≤ (x.val : ℝ) := by exact_mod_cast hv0
    have hr1 : (x.val : ℝ) ≤ 3217 / 1024 := by
      have := (Rat.cast_le (K := ℝ)).mpr hvb
      push_cast at this
      exact this
    apply Fp.round_btw binary32 binary32_prec_pos _ (-1 / 65536) 1
      (Fp.rep32_of _ (-1) (-16) (by norm_num)) (Fp.rep32_of _ 1 0 (by norm_num))
    · push_cast
      rcases le_or_lt ((x.val : ℚ) : ℝ) Real.pi with hp | hp
      · have := Real.sin_nonneg_of_nonneg_of_le_pi hr0 hp
        linarith
      · have h3 : Real.sin (((x.val : ℚ) : ℝ) - Real.pi) ≤ ((x.val : ℚ) : ℝ) - Real.pi :=
          Real.sin_le (by linarith)
        rw [Real.sin_sub_pi] at h3
        have := Real.pi_gt_d6
        linarith
    · have := Real.sin_le_one ((x.val : ℚ) : ℝ)
      push_cast
      linarith

/-- Bounds on `cosf` of any finite value: the cosine lies between -1 and 1. -/
theorem Fp.cosf_btw_wide {x : Fp} {a b : ℚ} (hx : Fp.Btw x a b) :
    Fp.Btw (Fp.libm.cosf x) (-1) 1 := by
  have hs : Fp.libm.cosf x = Fp.round binary32 (Real.cos ((x.val : ℚ) : ℝ)) := by
    simp [Fp.libm, hx.1]
  rw [hs]
  apply Fp.round_btw binary32 binary32_prec_pos _ (-1) 1
    (Fp.rep32_of _ (-1) 0 (by norm_num)) (Fp.rep32_of _ 1 0 (by norm_num))
  · have := Real.neg_one_le_cos ((x.val : ℚ) : ℝ)
    push_cast
    linarith
  · have := Real.cos_le_one ((x.val : ℚ) : ℝ)
    push_cast
    linarith

/-- A value within positive bounds is greater than 0 in the comparison of C. -/
theorem Fp.lt_zero_of_btw {x : Fp} {a b : ℚ} (hx : Fp.Btw x a b) (ha : 0 < a) :
    Fp.lt 0 x := by
  obtain ⟨q, rfl, hq1, -⟩ := Fp.btw_eq_fin hx ha
  refine ⟨rfl, rfl, ?_⟩
  show (((((0 : ℕ) : ℚ) : WithTop ℚ)) : WithBot (WithTop ℚ)) <
    (((q : ℚ) : WithTop ℚ) : WithBot (WithTop ℚ))
  rw [WithBot.coe_lt_coe, WithTop.coe_lt_coe, Nat.cast_zero]
  exact lt_of_lt_of_le ha hq1

end Float32Libm

section Float32Design

/-- The amplitude `A` of the bass band at `pot = 0.5` is exactly 1. -/
theorem float_designA_bass :
    Fp.Btw (Binary32.EQ3Band.designA Fp.libm (Binary32.EQ3Band.PotToDb 0.5 15))
      1 1 := by
  have h1 : Fp.Btw (0.5 : Fp) (1 / 2) (1 / 2) :=
    Fp.ofScientific_btw 5 true 1 _ _ (Fp.rep32_of _ 1 (-1) (by norm_num)) (Fp.rep32_of _ 1 (-1)
      (by norm_num)) (by norm_num)
  have h2 : Fp.Btw (0.5 - 0.5) 0 0 :=
    Fp.sub_btw _ _ h1 h1 (Fp.rep32_of _ 0 0 (by norm_num)) (Fp.rep32_of _ 0 0 (by norm_num))
      (by norm_num)
  have h3 : Fp.Btw (2 : Fp) 2 2 :=
    Fp.ofNat_btw 2 2 (by norm_num)
  have h4 : Fp.Btw ((0.5 - 0.5) * 2) 0 0 :=
    Fp.mul_btw _ _ h2 h3 (Fp.rep32_of _ 0 0 (by norm_num)) (Fp.rep32_of _ 0 0 (by norm_num))
      (by norm_num)
  have h5 : Fp.Btw (15 : Fp) 15 15 :=
    Fp.ofNat_btw 15 15 (by norm_num)
  have h6 : Fp.Btw (((0.5 - 0.5) * 2) * 15) 0 0 :=
    Fp.mul_btw _ _ h4 h5 (Fp.rep32_of _ 0 0 (by norm_num)) (Fp.rep32_of _ 0 0 (by norm_num))
      (by norm_num)
  have h7 : Fp.Btw (40 : Fp) 40 40 :=
    Fp.ofNat_btw 40 40 (by norm_num)
  have h8 : Fp.Btw ((((0.5 - 0.5) * 2) * 15) / 40) 0 0 :=
    Fp.div_btw _ _ h6 h7 (Fp.rep32_of _ 0 0 (by norm_num)) (Fp.rep32_of _ 0 0 (by norm_num))
      (by norm_num)
  exact Fp.powf_btw _ _ h8
    (Fp.rep32_of _ 1 0 (by norm_num))
    (Fp.rep32_of _ 1 0 (by norm_num))
    (pow10_lower _ _ 0 1 (by norm_num))
    (pow10_upper _ _ 0 1 (by norm_num))

/-- Bounds on the amplitude `A` of the mid band at `pot = 0` (12 dB). -/
theorem float_designA_mid :
    Fp.Btw (Binary32.EQ3Band.designA Fp.libm (Binary32.EQ3Band.PotToDb 0 12))
      (3641 / 2048) (2103 / 1024) := by
  have h1 : Fp.Btw (0.5 : Fp) (1 / 2) (1 / 2) :=
    Fp.ofScientific_btw 5 true 1 _ _ (Fp.rep32_of _ 1 (-1) (by norm_num)) (Fp.rep32_of _ 1 (-1)
      (by norm_num)) (by norm_num)
  have h2 : Fp.Btw (0 : Fp) 0 0 :=
    Fp.ofNat_btw 0 0 (by norm_num)
  have h3 : Fp.Btw (0.5 - 0) (1 / 2) (1 / 2) :=
    Fp.sub_btw _ _ h1 h2 (Fp.rep32_of _ 1 (-1) (by norm_num)) (Fp.rep32_of _ 1 (-1) (by norm_num))
      (by norm_num)
  have h4 : Fp.Btw (2 : Fp) 2 2 :=
    Fp.ofNat_btw 2 2 (by norm_num)
  have h5 : Fp.Btw ((0.5 - 0) * 2) 1 1 :=
    Fp.mul_btw _ _ h3 h4 (Fp.rep32_of _ 1 0 (by norm_num)) (Fp.rep32_of _ 1 0 (by norm_num))
      (by norm_num)
  have h6 : Fp.Btw (12 : Fp) 12 12 :=
    Fp.ofNat_btw 12 12 (by norm_num)
  have h7 : Fp.Btw (((0.5 - 0) * 2) * 12) 12 12 :=
    Fp.mul_btw _ _ h5 h6 (Fp.rep32_of _ 3 2 (by norm_num)) (Fp.rep32_of _ 3 2 (by norm_num))
      (by norm_num)
  have h8 : Fp.Btw (40 : Fp) 40 40 :=
    Fp.ofNat_btw 40 40 (by norm_num)
  have h9 : Fp.Btw ((((0.5 - 0) * 2) * 12) / 40) (1 / 4) (5 / 16) :=
    Fp.div_btw _ _ h7 h8 (Fp.rep32_of _ 1 (-2) (by norm_num)) (Fp.rep32_of _ 5 (-4) (by norm_num))
      (by norm_num)
  exact Fp.powf_btw _ _ h9
    (Fp.rep32_of _ 3641 (-11) (by norm_num))
    (Fp.rep32_of _ 2103 (-10) (by norm_num))
    (pow10_lower _ _ 1 4 (by norm_num))
    (pow10_upper _ _ 5 16 (by norm_num))

/-- Bounds on the amplitude `A` of the treble band at `pot = 1` (-15 dB). -/
theorem float_designA_treble :
    Fp.Btw (Binary32.EQ3Band.designA Fp.libm (Binary32.EQ3Band.PotToDb 1 15))
      (1727 / 4096) (3455 / 8192) := by
  have h1 : Fp.Btw (0.5 : Fp) (1 / 2) (1 / 2) :=
    Fp.ofScientific_btw 5 true 1 _ _ (Fp.rep32_of _ 1 (-1) (by norm_num)) (Fp.rep32_of _ 1 (-1)
      (by norm_num)) (by norm_num)
  have h2 : Fp.Btw (1 : Fp) 1 1 :=
    Fp.ofNat_btw 1 1 (by norm_num)
  have h3 : Fp.Btw (0.5 - 1) (-1 / 2) (-1 / 2) :=
    Fp.sub_btw _ _ h1 h2 (Fp.rep32_of _ (-1) (-1) (by norm_num)) (Fp.rep32_of _ (-1) (-1)
      (by norm_num)) (by norm_num)
  have h4 : Fp.Btw (2 : Fp) 2 2 :=
    Fp.ofNat_btw 2 2 (by norm_num)
  have h5 : Fp.Btw ((0.5 - 1) * 2) (-1) (-1) :=
    Fp.mul_btw _ _ h3 h4 (Fp.rep32_of _ (-1) 0 (by norm_num)) (Fp.rep32_of _ (-1) 0 (by norm_num))
      (by norm_num)
  have h6 : Fp.Btw (15 : Fp) 15 15 :=
    Fp.ofNat_btw 15 15 (by norm_num)
  have h7 : Fp.Btw (((0.5 - 1) * 2) * 15) (-15) (-15) :=
    Fp.mul_btw _ _ h5 h6 (Fp.rep32_of _ (-15) 0 (by norm_num)) (Fp.rep32_of _ (-15) 0
      (by norm_num)) (by norm_num)
  have h8 : Fp.Btw (40 : Fp) 40 40 :=
    Fp.ofNat_btw 40 40 (by norm_num)
  have h9 : Fp.Btw ((((0.5 - 1) * 2) * 15) / 40) (-3 / 8) (-3 / 8) :=
    Fp.div_btw _ _ h7 h8 (Fp.rep32_of _ (-3) (-3) (by norm_num)) (Fp.rep32_of _ (-3) (-3)
      (by norm_num)) (by norm_num)
  exact Fp.powf_btw _ _ h9
    (Fp.rep32_of _ 1727 (-12) (by norm_num))
    (Fp.rep32_of _ 3455 (-13) (by norm_num))
    (pow10_lower _ _ (-3) 8 (by norm_num))
    (pow10_upper _ _ (-3) 8 (by norm_num))

/-- Bounds on `w0` of the bass band at 48 kHz. -/
theorem float_designW0_bass :
    Fp.Btw (Binary32.EQ3Band.designW0 Fp.libm 48000 80) (702709 / 67108864) (702765 / 67108864) :=
      by
  have h1 : Fp.Btw (2 : Fp) 2 2 :=
    Fp.ofNat_btw 2 2 (by norm_num)
  have h2 : Fp.Btw (Fp.mulF binary64 2 Fp.libm.M_PI) (12867 / 2048) (3217 / 512) :=
    Fp.mulF_corners binary64 binary64_prec_pos _ _ h1 Fp.M_PI_btw (Fp.rep64_of _ 12867 (-11)
      (by norm_num)) (Fp.rep64_of _ 3217 (-9) (by norm_num)) (by norm_num)
  have h3 : Fp.Btw (80 : Fp) 80 80 :=
    Fp.ofNat_btw 80 80 (by norm_num)
  have h4 : Fp.Btw (Fp.mulF binary64 (Fp.mulF binary64 2 Fp.libm.M_PI) 80) (64335 / 128)
      (16085 / 32) :=
    Fp.mulF_corners binary64 binary64_prec_pos _ _ h2 h3 (Fp.rep64_of _ 64335 (-7) (by norm_num))
      (Fp.rep64_of _ 16085 (-5) (by norm_num)) (by norm_num)
  have h5 : Fp.Btw (48000 : Fp) 48000 48000 :=
    Fp.ofNat_btw 48000 48000 (by norm_num)
  have h6 : Fp.Btw (Fp.divF binary64 (Fp.mulF binary64 (Fp.mulF binary64 2 Fp.libm.M_PI) 80)
      48000) (359787397 / 34359738368) (719630719 / 68719476736) :=
    Fp.divF_corners binary64 binary64_prec_pos _ _ h4 h5 (Fp.rep64_of _ 359787397 (-35)
      (by norm_num)) (Fp.rep64_of _ 719630719 (-36) (by norm_num)) (by norm_num)
  have h7 : Fp.Btw (Fp.toFloat (Fp.divF binary64 (Fp.mulF binary64
      (Fp.mulF binary64 2 Fp.libm.M_PI) 80) 48000)) (702709 / 67108864) (702765 / 67108864) :=
    Fp.toFloat_btw _ _ h6 (Fp.rep32_of _ 702709 (-26) (by norm_num)) (Fp.rep32_of _ 702765 (-26)
      (by norm_num)) (by norm_num)
  exact h7

/-- Bounds on `w0` of the mid band at 48 kHz. -/
theorem float_designW0_mid :
    Fp.Btw (Binary32.EQ3Band.designW0 Fp.libm 48000 800) (878387 / 8388608) (109807 / 1048576) :=
      by
  have h1 : Fp.Btw (2 : Fp) 2 2 :=
    Fp.ofNat_btw 2 2 (by norm_num)
  have h2 : Fp.Btw (Fp.mulF binary64 2 Fp.libm.M_PI) (12867 / 2048) (3217 / 512) :=
    Fp.mulF_corners binary64 binary64_prec_pos _ _ h1 Fp.M_PI_btw (Fp.rep64_of _ 12867 (-11)
      (by norm_num)) (Fp.rep64_of _ 3217 (-9) (by norm_num)) (by norm_num)
  have h3 : Fp.Btw (800 : Fp) 800 800 :=
    Fp.ofNat_btw 800 800 (by norm_num)
  have h4 : Fp.Btw (Fp.mulF binary64 (Fp.mulF binary64 2 Fp.libm.M_PI) 800) (321675 / 64)
      (80425 / 16) :=
    Fp.mulF_corners binary64 binary64_prec_pos _ _ h2 h3 (Fp.rep64_of _ 321675 (-6) (by norm_num))
      (Fp.rep64_of _ 80425 (-4) (by norm_num)) (by norm_num)
  have h5 : Fp.Btw (48000 : Fp) 48000 48000 :=
    Fp.ofNat_btw 48000 48000 (by norm_num)
  have h6 : Fp.Btw (Fp.divF binary64 (Fp.mulF binary64 (Fp.mulF binary64 2 Fp.libm.M_PI) 800)
      48000) (224867123 / 2147483648) (449769199 / 4294967296) :=
    Fp.divF_corners binary64 binary64_prec_pos _ _ h4 h5 (Fp.rep64_of _ 224867123 (-31)
      (by norm_num)) (Fp.rep64_of _ 449769199 (-32) (by norm_num)) (by norm_num)
  have h7 : Fp.Btw (Fp.toFloat (Fp.divF binary64 (Fp.mulF binary64
      (Fp.mulF binary64 2 Fp.libm.M_PI) 800) 48000)) (878387 / 8388608) (109807 / 1048576) :=
    Fp.toFloat_btw _ _ h6 (Fp.rep32_of _ 878387 (-23) (by norm_num)) (Fp.rep32_of _ 109807 (-20)
      (by norm_num)) (by norm_num)
  exact h7

/-- Bounds on `w0` of the treble band at 48 kHz. -/
theorem float_designW0_treble :
    Fp.Btw (Binary32.EQ3Band.designW0 Fp.libm 48000 4000) (4289 / 8192) (549035 / 1048576) := by
  have h1 : Fp.Btw (2 : Fp) 2 2 :=
    Fp.ofNat_btw 2 2 (by norm_num)
  have h2 : Fp.Btw (Fp.mulF binary64 2 Fp.libm.M_PI) (12867 / 2048) (3217 / 512) :=
    Fp.mulF_corners binary64 binary64_prec_pos _ _ h1 Fp.M_PI_btw (Fp.rep64_of _ 12867 (-11)
      (by norm_num)) (Fp.rep64_of _ 3217 (-9) (by norm_num)) (by norm_num)
  have h3 : Fp.Btw (4000 : Fp) 4000 4000 :=
    Fp.ofNat_btw 4000 4000 (by norm_num)
  have h4 : Fp.Btw (Fp.mulF binary64 (Fp.mulF binary64 2 Fp.libm.M_PI) 4000) (1608375 / 64)
      (402125 / 16) :=
    Fp.mulF_corners binary64 binary64_prec_pos _ _ h2 h3 (Fp.rep64_of _ 1608375 (-6)
      (by norm_num)) (Fp.rep64_of _ 402125 (-4) (by norm_num)) (by norm_num)
  have h5 : Fp.Btw (48000 : Fp) 48000 48000 :=
    Fp.ofNat_btw 48000 48000 (by norm_num)
  have h6 : Fp.Btw (Fp.divF binary64 (Fp.mulF binary64 (Fp.mulF binary64 2 Fp.libm.M_PI) 4000)
      48000) (4289 / 8192) (562211499 / 1073741824) :=
    Fp.divF_corners binary64 binary64_prec_pos _ _ h4 h5 (Fp.rep64_of _ 4289 (-13) (by norm_num))
      (Fp.rep64_of _ 562211499 (-30) (by norm_num)) (by norm_num)
  have h7 : Fp.Btw (Fp.toFloat (Fp.divF binary64 (Fp.mulF binary64
      (Fp.mulF binary64 2 Fp.libm.M_PI) 4000) 48000)) (4289 / 8192) (549035 / 1048576) :=
    Fp.toFloat_btw _ _ h6 (Fp.rep32_of _ 4289 (-13) (by norm_num)) (Fp.rep32_of _ 549035 (-20)
      (by norm_num)) (by norm_num)
  exact h7

/-- Bounds on `alpha` of the bass band. -/
theorem float_alpha_bass :
    Fp.Btw ((Fp.libm.sinf (Binary32.EQ3Band.designW0 Fp.libm 48000 80)) / (2 * 0.707))
      (3881 / 524288) (1943 / 262144) := by
  have h1 : Fp.Btw (Fp.libm.sinf (Binary32.EQ3Band.designW0 Fp.libm 48000 80)) (343 / 32768)
      (1373 / 131072) :=
    Fp.sinf_btw _ _ float_designW0_bass (Fp.rep32_of _ 343 (-15) (by norm_num)) (Fp.rep32_of _
      1373 (-17) (by norm_num)) (by norm_num)
  have h2 : Fp.Btw (2 : Fp) 2 2 :=
    Fp.ofNat_btw 2 2 (by norm_num)
  have h3 : Fp.Btw (0.707 : Fp) (2895 / 4096) (181 / 256) :=
    Fp.ofScientific_btw 707 true 3 _ _ (Fp.rep32_of _ 2895 (-12) (by norm_num)) (Fp.rep32_of _ 181
      (-8) (by norm_num)) (by norm_num)
  have h4 : Fp.Btw (2 * 0.707) (2895 / 2048) (181 / 128) :=
    Fp.mul_btw _ _ h2 h3 (Fp.rep32_of _ 2895 (-11) (by norm_num)) (Fp.rep32_of _ 181 (-7)
      (by norm_num)) (by norm_num)
  have h5 : Fp.Btw ((Fp.libm.sinf (Binary32.EQ3Band.designW0 Fp.libm 48000 80)) / (2 * 0.707))
      (3881 / 524288) (1943 / 262144) :=
    Fp.div_btw _ _ h1 h4 (Fp.rep32_of _ 3881 (-19) (by norm_num)) (Fp.rep32_of _ 1943 (-18)
      (by norm_num)) (by norm_num)
  exact h5

/-- Bounds on `alpha` of the mid band. -/
theorem float_alpha_mid :
    Fp.Btw ((Fp.libm.sinf (Binary32.EQ3Band.designW0 Fp.libm 48000 800)) / (2 * 1)) (3421 / 65536)
      (429 / 8192) := by
  have h1 : Fp.Btw (Fp.libm.sinf (Binary32.EQ3Band.designW0 Fp.libm 48000 800)) (3421 / 32768)
      (429 / 4096) :=
    Fp.sinf_btw _ _ float_designW0_mid (Fp.rep32_of _ 3421 (-15) (by norm_num)) (Fp.rep32_of _ 429
      (-12) (by norm_num)) (by norm_num)
  have h2 : Fp.Btw (2 : Fp) 2 2 :=
    Fp.ofNat_btw 2 2 (by norm_num)
  have h3 : Fp.Btw (1 : Fp) 1 1 :=
    Fp.ofNat_btw 1 1 (by norm_num)
  have h4 : Fp.Btw (2 * 1) 2 2 :=
    Fp.mul_btw _ _ h2 h3 (Fp.rep32_of _ 1 1 (by norm_num)) (Fp.rep32_of _ 1 1 (by norm_num))
      (by norm_num)
  have h5 : Fp.Btw ((Fp.libm.sinf (Binary32.EQ3Band.designW0 Fp.libm 48000 800)) / (2 * 1))
      (3421 / 65536) (429 / 8192) :=
    Fp.div_btw _ _ h1 h4 (Fp.rep32_of _ 3421 (-16) (by norm_num)) (Fp.rep32_of _ 429 (-13)
      (by norm_num)) (by norm_num)
  exact h5

/-- Bounds on `alpha` of the treble band. -/
theorem float_alpha_treble :
    Fp.Btw ((Fp.libm.sinf (Binary32.EQ3Band.designW0 Fp.libm 48000 4000)) / (2 * 0.707))
      (2825 / 8192) (3035 / 8192) := by
  have h1 : Fp.Btw (Fp.libm.sinf (Binary32.EQ3Band.designW0 Fp.libm 48000 4000)) (3995 / 8192)
      (2145 / 4096) :=
    Fp.sinf_btw _ _ float_designW0_treble (Fp.rep32_of _ 3995 (-13) (by norm_num)) (Fp.rep32_of _
      2145 (-12) (by norm_num)) (by norm_num)
  have h2 : Fp.Btw (2 : Fp) 2 2 :=
    Fp.ofNat_btw 2 2 (by norm_num)
  have h3 : Fp.Btw (0.707 : Fp) (2895 / 4096) (181 / 256) :=
    Fp.ofScientific_btw 707 true 3 _ _ (Fp.rep32_of _ 2895 (-12) (by norm_num)) (Fp.rep32_of _ 181
      (-8) (by norm_num)) (by norm_num)
  have h4 : Fp.Btw (2 * 0.707) (2895 / 2048) (181 / 128) :=
    Fp.mul_btw _ _ h2 h3 (Fp.rep32_of _ 2895 (-11) (by norm_num)) (Fp.rep32_of _ 181 (-7)
      (by norm_num)) (by norm_num)
  have h5 : Fp.Btw ((Fp.libm.sinf (Binary32.EQ3Band.designW0 Fp.libm 48000 4000)) / (2 * 0.707))
      (2825 / 8192) (3035 / 8192) :=
    Fp.div_btw _ _ h1 h4 (Fp.rep32_of _ 2825 (-13) (by norm_num)) (Fp.rep32_of _ 3035 (-13)
      (by norm_num)) (by norm_num)
  exact h5

/-- Bounds on `cosw0` of the bass band. -/
theorem float_cosw0_bass :
    Fp.Btw (Fp.libm.cosf (Binary32.EQ3Band.designW0 Fp.libm 48000 80)) (4095 / 4096) 1 := by
  have h1 : Fp.Btw (Fp.libm.cosf (Binary32.EQ3Band.designW0 Fp.libm 48000 80)) (4095 / 4096) 1 :=
    Fp.cosf_btw _ _ float_designW0_bass (Fp.rep32_of _ 4095 (-12) (by norm_num)) (Fp.rep32_of _ 1
      0 (by norm_num)) (by norm_num)
  exact h1

/-- Bounds on `cosw0` of the mid band. -/
theorem float_cosw0_mid :
    Fp.Btw (Fp.libm.cosf (Binary32.EQ3Band.designW0 Fp.libm 48000 800)) (4073 / 4096) 1 := by
  have h1 : Fp.Btw (Fp.libm.cosf (Binary32.EQ3Band.designW0 Fp.libm 48000 800)) (4073 / 4096) 1 :=
    Fp.cosf_btw _ _ float_designW0_mid (Fp.rep32_of _ 4073 (-12) (by norm_num)) (Fp.rep32_of _ 1 0
      (by norm_num)) (by norm_num)
  exact h1

/-- Bounds on `cosw0` of the treble band. -/
theorem float_cosw0_treble :
    Fp.Btw (Fp.libm.cosf (Binary32.EQ3Band.designW0 Fp.libm 48000 4000)) (1767 / 2048) 1 := by
  have h1 : Fp.Btw (Fp.libm.cosf (Binary32.EQ3Band.designW0 Fp.libm 48000 4000)) (1767 / 2048) 1
      :=
    Fp.cosf_btw _ _ float_designW0_treble (Fp.rep32_of _ 1767 (-11) (by norm_num)) (Fp.rep32_of _
      1 0 (by norm_num)) (by norm_num)
  exact h1

/-- The root of `A` of the bass band is exactly 1. -/
theorem float_sqrtA_bass :
    Fp.Btw (Fp.libm.sqrtf (Binary32.EQ3Band.designA Fp.libm (Binary32.EQ3Band.PotToDb 0.5 15))) 1
      1 := by
  have h1 : Fp.Btw (Fp.libm.sqrtf (Binary32.EQ3Band.designA Fp.libm
      (Binary32.EQ3Band.PotToDb 0.5 15))) 1 1 :=
    Fp.sqrtf_btw _ _ float_designA_bass (Fp.rep32_of _ 1 0 (by norm_num)) (Fp.rep32_of _ 1 0
      (by norm_num)) (by norm_num)
  exact h1

/-- Bounds on the root of `A` of the treble band. -/
theorem float_sqrtA_treble :
    Fp.Btw (Fp.libm.sqrtf (Binary32.EQ3Band.designA Fp.libm (Binary32.EQ3Band.PotToDb 1 15)))
      (2659 / 4096) (2661 / 4096) := by
  have h1 : Fp.Btw (Fp.libm.sqrtf (Binary32.EQ3Band.designA Fp.libm
      (Binary32.EQ3Band.PotToDb 1 15))) (2659 / 4096) (2661 / 4096) :=
    Fp.sqrtf_btw _ _ float_designA_treble (Fp.rep32_of _ 2659 (-12) (by norm_num)) (Fp.rep32_of _
      2661 (-12) (by norm_num)) (by norm_num)
  exact h1

/-- The coefficients `SetLowShelf` stores at `A = 1`: the first within a small distance of 1, the
others finite. -/
theorem lowShelf_flat_coeffs (A s al c : Fp) (hA : Fp.Btw A 1 1)
    (hs : Fp.Btw s 1 1) (hal : Fp.Btw al (3881 / 524288) (1943 / 262144))
    (hc : Fp.Btw c (4095 / 4096) 1) :
    Fp.Btw ((A * (((A + 1) - ((A - 1) * c)) + ((2 * s) * al))) / (((A + 1) + ((A - 1) * c)) +
      ((2 * s) * al))) (2047 / 2048) (2049 / 2048) ∧
    Fp.isFinite (((2 * A) * ((A - 1) - ((A + 1) * c))) / (((A + 1) + ((A - 1) * c)) + ((2 * s) *
      al))) = true ∧
    Fp.isFinite ((A * (((A + 1) - ((A - 1) * c)) - ((2 * s) * al))) / (((A + 1) + ((A - 1) * c)) +
      ((2 * s) * al))) = true ∧
    Fp.isFinite (((-2) * ((A - 1) + ((A + 1) * c))) / (((A + 1) + ((A - 1) * c)) + ((2 * s) *
      al))) = true ∧
    Fp.isFinite ((((A + 1) + ((A - 1) * c)) - ((2 * s) * al)) / (((A + 1) + ((A - 1) * c)) +
      ((2 * s) * al))) = true := by
  have h1 : Fp.Btw (1 : Fp) 1 1 :=
    Fp.ofNat_btw 1 1 (by norm_num)
  have h2 : Fp.Btw (2 : Fp) 2 2 :=
    Fp.ofNat_btw 2 2 (by norm_num)
  have h3 : Fp.Btw (A + 1) 2 2 :=
    Fp.add_btw _ _ hA h1 (Fp.rep32_of _ 1 1 (by norm_num)) (Fp.rep32_of _ 1 1 (by norm_num))
      (by norm_num)
  have h4 : Fp.Btw (A - 1) 0 0 :=
    Fp.sub_btw _ _ hA h1 (Fp.rep32_of _ 0 0 (by norm_num)) (Fp.rep32_of _ 0 0 (by norm_num))
      (by norm_num)
  have h5 : Fp.Btw ((A - 1) * c) 0 0 :=
    Fp.mul_btw _ _ h4 hc (Fp.rep32_of _ 0 0 (by norm_num)) (Fp.rep32_of _ 0 0 (by norm_num))
      (by norm_num)
  have h6 : Fp.Btw ((A + 1) * c) (4095 / 2048) 2 :=
    Fp.mul_btw _ _ h3 hc (Fp.rep32_of _ 4095 (-11) (by norm_num)) (Fp.rep32_of _ 1 1
      (by norm_num)) (by norm_num)
  have h7 : Fp.Btw (2 * s) 2 2 :=
    Fp.mul_btw _ _ h2 hs (Fp.rep32_of _ 1 1 (by norm_num)) (Fp.rep32_of _ 1 1 (by norm_num))
      (by norm_num)
  have h8 : Fp.Btw ((2 * s) * al) (3881 / 262144) (1943 / 131072) :=
    Fp.mul_btw _ _ h7 hal (Fp.rep32_of _ 3881 (-18) (by norm_num)) (Fp.rep32_of _ 1943 (-17)
      (by norm_num)) (by norm_num)
  have h9 : Fp.Btw ((A + 1) - ((A - 1) * c)) 2 2 :=
    Fp.sub_btw _ _ h3 h5 (Fp.rep32_of _ 1 1 (by norm_num)) (Fp.rep32_of _ 1 1 (by norm_num))
      (by norm_num)
  have h10 : Fp.Btw (((A + 1) - ((A - 1) * c)) + ((2 * s) * al)) (2063 / 1024) (129 / 64) :=
    Fp.add_btw _ _ h9 h8 (Fp.rep32_of _ 2063 (-10) (by norm_num)) (Fp.rep32_of _ 129 (-6)
      (by norm_num)) (by norm_num)
  have h11 : Fp.Btw (A * (((A + 1) - ((A - 1) * c)) + ((2 * s) * al))) (2063 / 1024) (129 / 64) :=
    Fp.mul_btw _ _ hA h10 (Fp.rep32_of _ 2063 (-10) (by norm_num)) (Fp.rep32_of _ 129 (-6)
      (by norm_num)) (by norm_num)
  have h12 : Fp.Btw (2 * A) 2 2 :=
    Fp.mul_btw _ _ h2 hA (Fp.rep32_of _ 1 1 (by norm_num)) (Fp.rep32_of _ 1 1 (by norm_num))
      (by norm_num)
  have h13 : Fp.Btw ((A - 1) - ((A + 1) * c)) (-2) (-4095 / 2048) :=
    Fp.sub_btw _ _ h4 h6 (Fp.rep32_of _ (-1) 1 (by norm_num)) (Fp.rep32_of _ (-4095) (-11)
      (by norm_num)) (by norm_num)
  have h14 : Fp.Btw ((2 * A) * ((A - 1) - ((A + 1) * c))) (-4) (-4095 / 1024) :=
    Fp.mul_btw _ _ h12 h13 (Fp.rep32_of _ (-1) 2 (by norm_num)) (Fp.rep32_of _ (-4095) (-10)
      (by norm_num)) (by norm_num)
  have h15 : Fp.Btw (((A + 1) - ((A - 1) * c)) - ((2 * s) * al)) (4065 / 2048) (2033 / 1024) :=
    Fp.sub_btw _ _ h9 h8 (Fp.rep32_of _ 4065 (-11) (by norm_num)) (Fp.rep32_of _ 2033 (-10)
      (by norm_num)) (by norm_num)
  have h16 : Fp.Btw (A * (((A + 1) - ((A - 1) * c)) - ((2 * s) * al))) (4065 / 2048) (2033 / 1024)
      :=
    Fp.mul_btw _ _ hA h15 (Fp.rep32_of _ 4065 (-11) (by norm_num)) (Fp.rep32_of _ 2033 (-10)
      (by norm_num)) (by norm_num)
  have h17 : Fp.Btw ((A + 1) + ((A - 1) * c)) 2 2 :=
    Fp.add_btw _ _ h3 h5 (Fp.rep32_of _ 1 1 (by norm_num)) (Fp.rep32_of _ 1 1 (by norm_num))
      (by norm_num)
  have h18 : Fp.Btw (((A + 1) + ((A - 1) * c)) + ((2 * s) * al)) (2063 / 1024) (129 / 64) :=
    Fp.add_btw _ _ h17 h8 (Fp.rep32_of _ 2063 (-10) (by norm_num)) (Fp.rep32_of _ 129 (-6)
      (by norm_num)) (by norm_num)
  have h19 : Fp.Btw (2 : Fp) 2 2 :=
    Fp.ofNat_btw 2 2 (by norm_num)
  have h20 : Fp.Btw (-2 : Fp) (-2) (-2) :=
    Fp.neg_btw_op h19
  have h21 : Fp.Btw ((A - 1) + ((A + 1) * c)) (4095 / 2048) 2 :=
    Fp.add_btw _ _ h4 h6 (Fp.rep32_of _ 4095 (-11) (by norm_num)) (Fp.rep32_of _ 1 1
      (by norm_num)) (by norm_num)
  have h22 : Fp.Btw ((-2) * ((A - 1) + ((A + 1) * c))) (-4) (-4095 / 1024) :=
    Fp.mul_btw _ _ h20 h21 (Fp.rep32_of _ (-1) 2 (by norm_num)) (Fp.rep32_of _ (-4095) (-10)
      (by norm_num)) (by norm_num)
  have h23 : Fp.Btw (((A + 1) + ((A - 1) * c)) - ((2 * s) * al)) (4065 / 2048) (2033 / 1024) :=
    Fp.sub_btw _ _ h17 h8 (Fp.rep32_of _ 4065 (-11) (by norm_num)) (Fp.rep32_of _ 2033 (-10)
      (by norm_num)) (by norm_num)
  have h24 : Fp.Btw ((A * (((A + 1) - ((A - 1) * c)) + ((2 * s) * al))) / (((A + 1) + ((A - 1) *
      c)) + ((2 * s) * al))) (2047 / 2048) (2049 / 2048) :=
    Fp.div_btw _ _ h11 h18 (Fp.rep32_of _ 2047 (-11) (by norm_num)) (Fp.rep32_of _ 2049 (-11)
      (by norm_num)) (by norm_num)
  have h25 : Fp.Btw (((2 * A) * ((A - 1) - ((A + 1) * c))) / (((A + 1) + ((A - 1) * c)) + ((2 * s)
      * al))) (-4067 / 2048) (-4063 / 2048) :=
    Fp.div_btw _ _ h14 h18 (Fp.rep32_of _ (-4067) (-11) (by norm_num)) (Fp.rep32_of _ (-4063)
      (-11) (by norm_num)) (by norm_num)
  have h26 : Fp.Btw ((A * (((A + 1) - ((A - 1) * c)) - ((2 * s) * al))) / (((A + 1) + ((A - 1) *
      c)) + ((2 * s) * al))) (4033 / 4096) (4037 / 4096) :=
    Fp.div_btw _ _ h16 h18 (Fp.rep32_of _ 4033 (-12) (by norm_num)) (Fp.rep32_of _ 4037 (-12)
      (by norm_num)) (by norm_num)
  have h27 : Fp.Btw (((-2) * ((A - 1) + ((A + 1) * c))) / (((A + 1) + ((A - 1) * c)) + ((2 * s) *
      al))) (-4067 / 2048) (-4063 / 2048) :=
    Fp.div_btw _ _ h22 h18 (Fp.rep32_of _ (-4067) (-11) (by norm_num)) (Fp.rep32_of _ (-4063)
      (-11) (by norm_num)) (by norm_num)
  have h28 : Fp.Btw ((((A + 1) + ((A - 1) * c)) - ((2 * s) * al)) / (((A + 1) + ((A - 1) * c)) +
      ((2 * s) * al))) (4033 / 4096) (4037 / 4096) :=
    Fp.div_btw _ _ h23 h18 (Fp.rep32_of _ 4033 (-12) (by norm_num)) (Fp.rep32_of _ 4037 (-12)
      (by norm_num)) (by norm_num)
  exact ⟨h24, h25.1, h26.1, h27.1, h28.1⟩

/-- The coefficients `SetPeak` stores at 12 dB: the first above 1, the others finite. -/
theorem peak_boost_coeffs (A al c : Fp) (hA : Fp.Btw A (3641 / 2048) (2103 / 1024))
    (hal : Fp.Btw al (3421 / 65536) (429 / 8192)) (hc : Fp.Btw c (4073 / 4096) 1) :
    Fp.Btw ((1 + (al * A)) / (1 + (al / A))) (2173 / 2048) (2213 / 2048) ∧
    Fp.isFinite (((-2) * c) / (1 + (al / A))) = true ∧
    Fp.isFinite ((1 - (al * A)) / (1 + (al / A))) = true ∧
    Fp.isFinite (((-2) * c) / (1 + (al / A))) = true ∧
    Fp.isFinite ((1 - (al / A)) / (1 + (al / A))) = true := by
  have h1 : Fp.Btw (1 : Fp) 1 1 :=
    Fp.ofNat_btw 1 1 (by norm_num)
  have h2 : Fp.Btw (al * A) (95 / 1024) (3525 / 32768) :=
    Fp.mul_btw _ _ hal hA (Fp.rep32_of _ 95 (-10) (by norm_num)) (Fp.rep32_of _ 3525 (-15)
      (by norm_num)) (by norm_num)
  have h3 : Fp.Btw (1 + (al * A)) (1119 / 1024) (2269 / 2048) :=
    Fp.add_btw _ _ h1 h2 (Fp.rep32_of _ 1119 (-10) (by norm_num)) (Fp.rep32_of _ 2269 (-11)
      (by norm_num)) (by norm_num)
  have h4 : Fp.Btw (2 : Fp) 2 2 :=
    Fp.ofNat_btw 2 2 (by norm_num)
  have h5 : Fp.Btw (-2 : Fp) (-2) (-2) :=
    Fp.neg_btw_op h4
  have h6 : Fp.Btw ((-2) * c) (-2) (-4073 / 2048) :=
    Fp.mul_btw _ _ h5 hc (Fp.rep32_of _ (-1) 1 (by norm_num)) (Fp.rep32_of _ (-4073) (-11)
      (by norm_num)) (by norm_num)
  have h7 : Fp.Btw (1 - (al * A)) (3655 / 4096) (929 / 1024) :=
    Fp.sub_btw _ _ h1 h2 (Fp.rep32_of _ 3655 (-12) (by norm_num)) (Fp.rep32_of _ 929 (-10)
      (by norm_num)) (by norm_num)
  have h8 : Fp.Btw (al / A) (3331 / 131072) (3861 / 131072) :=
    Fp.div_btw _ _ hal hA (Fp.rep32_of _ 3331 (-17) (by norm_num)) (Fp.rep32_of _ 3861 (-17)
      (by norm_num)) (by norm_num)
  have h9 : Fp.Btw (1 + (al / A)) (525 / 512) (2109 / 2048) :=
    Fp.add_btw _ _ h1 h8 (Fp.rep32_of _ 525 (-9) (by norm_num)) (Fp.rep32_of _ 2109 (-11)
      (by norm_num)) (by norm_num)
  have h10 : Fp.Btw (1 - (al / A)) (3975 / 4096) (499 / 512) :=
    Fp.sub_btw _ _ h1 h8 (Fp.rep32_of _ 3975 (-12) (by norm_num)) (Fp.rep32_of _ 499 (-9)
      (by norm_num)) (by norm_num)
  have h11 : Fp.Btw ((1 + (al * A)) / (1 + (al / A))) (2173 / 2048) (2213 / 2048) :=
    Fp.div_btw _ _ h3 h9 (Fp.rep32_of _ 2173 (-11) (by norm_num)) (Fp.rep32_of _ 2213 (-11)
      (by norm_num)) (by norm_num)
  have h12 : Fp.Btw (((-2) * c) / (1 + (al / A))) (-3995 / 2048) (-3955 / 2048) :=
    Fp.div_btw _ _ h6 h9 (Fp.rep32_of _ (-3995) (-11) (by norm_num)) (Fp.rep32_of _ (-3955) (-11)
      (by norm_num)) (by norm_num)
  have h13 : Fp.Btw ((1 - (al * A)) / (1 + (al / A))) (3549 / 4096) (453 / 512) :=
    Fp.div_btw _ _ h7 h9 (Fp.rep32_of _ 3549 (-12) (by norm_num)) (Fp.rep32_of _ 453 (-9)
      (by norm_num)) (by norm_num)
  have h14 : Fp.Btw ((1 - (al / A)) / (1 + (al / A))) (965 / 1024) (1947 / 2048) :=
    Fp.div_btw _ _ h10 h9 (Fp.rep32_of _ 965 (-10) (by norm_num)) (Fp.rep32_of _ 1947 (-11)
      (by norm_num)) (by norm_num)
  exact ⟨h11, h12.1, h13.1, h12.1, h14.1⟩

/-- The coefficients `SetHighShelf` stores at -15 dB: the first well below 1, the others finite.
-/
theorem highShelf_cut_coeffs (A s al c : Fp) (hA : Fp.Btw A (1727 / 4096) (3455 / 8192))
    (hs : Fp.Btw s (2659 / 4096) (2661 / 4096)) (hal : Fp.Btw al (2825 / 8192) (3035 / 8192))
    (hc : Fp.Btw c (1767 / 2048) 1) :
    Fp.Btw ((A * (((A + 1) + ((A - 1) * c)) + ((2 * s) * al))) / (((A + 1) - ((A - 1) * c)) +
      ((2 * s) * al))) (1795 / 8192) (2051 / 8192) ∧
    Fp.isFinite ((((-2) * A) * ((A - 1) + ((A + 1) * c))) / (((A + 1) - ((A - 1) * c)) + ((2 * s)
      * al))) = true ∧
    Fp.isFinite ((A * (((A + 1) + ((A - 1) * c)) - ((2 * s) * al))) / (((A + 1) - ((A - 1) * c)) +
      ((2 * s) * al))) = true ∧
    Fp.isFinite ((2 * ((A - 1) - ((A + 1) * c))) / (((A + 1) - ((A - 1) * c)) + ((2 * s) * al))) =
      true ∧
    Fp.isFinite ((((A + 1) - ((A - 1) * c)) - ((2 * s) * al)) / (((A + 1) - ((A - 1) * c)) +
      ((2 * s) * al))) = true := by
  have h1 : Fp.Btw (1 : Fp) 1 1 :=
    Fp.ofNat_btw 1 1 (by norm_num)
  have h2 : Fp.Btw (2 : Fp) 2 2 :=
    Fp.ofNat_btw 2 2 (by norm_num)
  have h3 : Fp.Btw (A + 1) (2911 / 2048) (91 / 64) :=
    Fp.add_btw _ _ hA h1 (Fp.rep32_of _ 2911 (-11) (by norm_num)) (Fp.rep32_of _ 91 (-6)
      (by norm_num)) (by norm_num)
  have h4 : Fp.Btw (A - 1) (-2369 / 4096) (-37 / 64) :=
    Fp.sub_btw _ _ hA h1 (Fp.rep32_of _ (-2369) (-12) (by norm_num)) (Fp.rep32_of _ (-37) (-6)
      (by norm_num)) (by norm_num)
  have h5 : Fp.Btw ((A - 1) * c) (-2369 / 4096) (-2043 / 4096) :=
    Fp.mul_btw _ _ h4 hc (Fp.rep32_of _ (-2369) (-12) (by norm_num)) (Fp.rep32_of _ (-2043) (-12)
      (by norm_num)) (by norm_num)
  have h6 : Fp.Btw ((A + 1) * c) (2511 / 2048) (91 / 64) :=
    Fp.mul_btw _ _ h3 hc (Fp.rep32_of _ 2511 (-11) (by norm_num)) (Fp.rep32_of _ 91 (-6)
      (by norm_num)) (by norm_num)
  have h7 : Fp.Btw (2 * s) (2659 / 2048) (2661 / 2048) :=
    Fp.mul_btw _ _ h2 hs (Fp.rep32_of _ 2659 (-11) (by norm_num)) (Fp.rep32_of _ 2661 (-11)
      (by norm_num)) (by norm_num)
  have h8 : Fp.Btw ((2 * s) * al) (3667 / 8192) (493 / 1024) :=
    Fp.mul_btw _ _ h7 hal (Fp.rep32_of _ 3667 (-13) (by norm_num)) (Fp.rep32_of _ 493 (-10)
      (by norm_num)) (by norm_num)
  have h9 : Fp.Btw ((A + 1) + ((A - 1) * c)) (3453 / 4096) (3781 / 4096) :=
    Fp.add_btw _ _ h3 h5 (Fp.rep32_of _ 3453 (-12) (by norm_num)) (Fp.rep32_of _ 3781 (-12)
      (by norm_num)) (by norm_num)
  have h10 : Fp.Btw (((A + 1) + ((A - 1) * c)) + ((2 * s) * al)) (2643 / 2048) (2877 / 2048) :=
    Fp.add_btw _ _ h9 h8 (Fp.rep32_of _ 2643 (-11) (by norm_num)) (Fp.rep32_of _ 2877 (-11)
      (by norm_num)) (by norm_num)
  have h11 : Fp.Btw (A * (((A + 1) + ((A - 1) * c)) + ((2 * s) * al))) (557 / 1024) (2427 / 4096)
      :=
    Fp.mul_btw _ _ hA h10 (Fp.rep32_of _ 557 (-10) (by norm_num)) (Fp.rep32_of _ 2427 (-12)
      (by norm_num)) (by norm_num)
  have h12 : Fp.Btw (2 : Fp) 2 2 :=
    Fp.ofNat_btw 2 2 (by norm_num)
  have h13 : Fp.Btw (-2 : Fp) (-2) (-2) :=
    Fp.neg_btw_op h12
  have h14 : Fp.Btw ((-2) * A) (-3455 / 4096) (-1727 / 2048) :=
    Fp.mul_btw _ _ h13 hA (Fp.rep32_of _ (-3455) (-12) (by norm_num)) (Fp.rep32_of _ (-1727) (-11)
      (by norm_num)) (by norm_num)
  have h15 : Fp.Btw ((A - 1) + ((A + 1) * c)) (2653 / 4096) (27 / 32) :=
    Fp.add_btw _ _ h4 h6 (Fp.rep32_of _ 2653 (-12) (by norm_num)) (Fp.rep32_of _ 27 (-5)
      (by norm_num)) (by norm_num)
  have h16 : Fp.Btw (((-2) * A) * ((A - 1) + ((A + 1) * c))) (-729 / 1024) (-2237 / 4096) :=
    Fp.mul_btw _ _ h14 h15 (Fp.rep32_of _ (-729) (-10) (by norm_num)) (Fp.rep32_of _ (-2237) (-12)
      (by norm_num)) (by norm_num)
  have h17 : Fp.Btw (((A + 1) + ((A - 1) * c)) - ((2 * s) * al)) (1481 / 4096) (3895 / 8192) :=
    Fp.sub_btw _ _ h9 h8 (Fp.rep32_of _ 1481 (-12) (by norm_num)) (Fp.rep32_of _ 3895 (-13)
      (by norm_num)) (by norm_num)
  have h18 : Fp.Btw (A * (((A + 1) + ((A - 1) * c)) - ((2 * s) * al))) (2497 / 16384)
      (1643 / 8192) :=
    Fp.mul_btw _ _ hA h17 (Fp.rep32_of _ 2497 (-14) (by norm_num)) (Fp.rep32_of _ 1643 (-13)
      (by norm_num)) (by norm_num)
  have h19 : Fp.Btw ((A + 1) - ((A - 1) * c)) (983 / 512) (2049 / 1024) :=
    Fp.sub_btw _ _ h3 h5 (Fp.rep32_of _ 983 (-9) (by norm_num)) (Fp.rep32_of _ 2049 (-10)
      (by norm_num)) (by norm_num)
  have h20 : Fp.Btw (((A + 1) - ((A - 1) * c)) + ((2 * s) * al)) (303 / 128) (1271 / 512) :=
    Fp.add_btw _ _ h19 h8 (Fp.rep32_of _ 303 (-7) (by norm_num)) (Fp.rep32_of _ 1271 (-9)
      (by norm_num)) (by norm_num)
  have h21 : Fp.Btw ((A - 1) - ((A + 1) * c)) (-2049 / 1024) (-3695 / 2048) :=
    Fp.sub_btw _ _ h4 h6 (Fp.rep32_of _ (-2049) (-10) (by norm_num)) (Fp.rep32_of _ (-3695) (-11)
      (by norm_num)) (by norm_num)
  have h22 : Fp.Btw (2 * ((A - 1) - ((A + 1) * c))) (-2049 / 512) (-3695 / 1024) :=
    Fp.mul_btw _ _ h2 h21 (Fp.rep32_of _ (-2049) (-9) (by norm_num)) (Fp.rep32_of _ (-3695) (-10)
      (by norm_num)) (by norm_num)
  have h23 : Fp.Btw (((A + 1) - ((A - 1) * c)) - ((2 * s) * al)) (1473 / 1024) (1591 / 1024) :=
    Fp.sub_btw _ _ h19 h8 (Fp.rep32_of _ 1473 (-10) (by norm_num)) (Fp.rep32_of _ 1591 (-10)
      (by norm_num)) (by norm_num)
  have h24 : Fp.Btw ((A * (((A + 1) + ((A - 1) * c)) + ((2 * s) * al))) / (((A + 1) - ((A - 1) *
      c)) + ((2 * s) * al))) (1795 / 8192) (2051 / 8192) :=
    Fp.div_btw _ _ h11 h20 (Fp.rep32_of _ 1795 (-13) (by norm_num)) (Fp.rep32_of _ 2051 (-13)
      (by norm_num)) (by norm_num)
  have h25 : Fp.Btw ((((-2) * A) * ((A - 1) + ((A + 1) * c))) / (((A + 1) - ((A - 1) * c)) +
      ((2 * s) * al))) (-77 / 256) (-901 / 4096) :=
    Fp.div_btw _ _ h16 h20 (Fp.rep32_of _ (-77) (-8) (by norm_num)) (Fp.rep32_of _ (-901) (-12)
      (by norm_num)) (by norm_num)
  have h26 : Fp.Btw ((A * (((A + 1) + ((A - 1) * c)) - ((2 * s) * al))) / (((A + 1) - ((A - 1) *
      c)) + ((2 * s) * al))) (4023 / 65536) (2777 / 32768) :=
    Fp.div_btw _ _ h18 h20 (Fp.rep32_of _ 4023 (-16) (by norm_num)) (Fp.rep32_of _ 2777 (-15)
      (by norm_num)) (by norm_num)
  have h27 : Fp.Btw ((2 * ((A - 1) - ((A + 1) * c))) / (((A + 1) - ((A - 1) * c)) + ((2 * s) *
      al))) (-3463 / 2048) (-93 / 64) :=
    Fp.div_btw _ _ h22 h20 (Fp.rep32_of _ (-3463) (-11) (by norm_num)) (Fp.rep32_of _ (-93) (-6)
      (by norm_num)) (by norm_num)
  have h28 : Fp.Btw ((((A + 1) - ((A - 1) * c)) - ((2 * s) * al)) / (((A + 1) - ((A - 1) * c)) +
      ((2 * s) * al))) (2373 / 4096) (2689 / 4096) :=
    Fp.div_btw _ _ h23 h20 (Fp.rep32_of _ 2373 (-12) (by norm_num)) (Fp.rep32_of _ 2689 (-12)
      (by norm_num)) (by norm_num)
  exact ⟨h24, h25.1, h26.1, h27.1, h28.1⟩

/-- The bass section of the configured equalizer: `a0` within a small distance of 1, the other
coefficients finite. -/
theorem configured_bass :
    Fp.Btw (Binary32.EQ3Band.configured Fp.libm 48000 0.5 0 1).bass.a0
      (2047 / 2048) (2049 / 2048) ∧
    Fp.isFinite (Binary32.EQ3Band.configured Fp.libm 48000 0.5 0 1).bass.a1 = true ∧
    Fp.isFinite (Binary32.EQ3Band.configured Fp.libm 48000 0.5 0 1).bass.a2 = true ∧
    Fp.isFinite (Binary32.EQ3Band.configured Fp.libm 48000 0.5 0 1).bass.b1 = true ∧
    Fp.isFinite (Binary32.EQ3Band.configured Fp.libm 48000 0.5 0 1).bass.b2 = true :=
  lowShelf_flat_coeffs _ _ _ _ float_designA_bass float_sqrtA_bass float_alpha_bass
    float_cosw0_bass

/-- The mid section of the configured equalizer: `a0` above 1, the other coefficients finite. -/
theorem configured_mid :
    Fp.Btw (Binary32.EQ3Band.configured Fp.libm 48000 0.5 0 1).mid.a0
      (2173 / 2048) (2213 / 2048) ∧
    Fp.isFinite (Binary32.EQ3Band.configured Fp.libm 48000 0.5 0 1).mid.a1 = true ∧
    Fp.isFinite (Binary32.EQ3Band.configured Fp.libm 48000 0.5 0 1).mid.a2 = true ∧
    Fp.isFinite (Binary32.EQ3Band.configured Fp.libm 48000 0.5 0 1).mid.b1 = true ∧
    Fp.isFinite (Binary32.EQ3Band.configured Fp.libm 48000 0.5 0 1).mid.b2 = true :=
  peak_boost_coeffs _ _ _ float_designA_mid float_alpha_mid float_cosw0_mid

/-- The treble section of the configured equalizer: `a0` well below 1, the other coefficients
finite. -/
theorem configured_treble :
    Fp.Btw (Binary32.EQ3Band.configured Fp.libm 48000 0.5 0 1).treble.a0
      (1795 / 8192) (2051 / 8192) ∧
    Fp.isFinite (Binary32.EQ3Band.configured Fp.libm 48000 0.5 0 1).treble.a1 = true ∧
    Fp.isFinite (Binary32.EQ3Band.configured Fp.libm 48000 0.5 0 1).treble.a2 = true ∧
    Fp.isFinite (Binary32.EQ3Band.configured Fp.libm 48000 0.5 0 1).treble.b1 = true ∧
    Fp.isFinite (Binary32.EQ3Band.configured Fp.libm 48000 0.5 0 1).treble.b2 = true :=
  highShelf_cut_coeffs _ _ _ _ float_designA_treble float_sqrtA_treble float_alpha_treble
    float_cosw0_treble

end Float32Design

section Float32Monotone

variable {K : Type} [LinearOrderedField K] [FloorRing K]

/-- Rounding to nearest, ties to even, is monotone. -/
theorem roundHalfEven_mono {s t : K} (h : s ≤ t) : roundHalfEven s ≤ roundHalfEven t := by
  rcases eq_or_lt_of_le h with heq | hlt
  · rw [heq]
  rcases lt_or_eq_of_le (Int.floor_mono h) with hf | hf
  · have h1 : roundHalfEven s ≤ ⌊s⌋ + 1 :=
      roundHalfEven_le_of_le s (⌊s⌋ + 1) (by push_cast; exact (Int.lt_floor_add_one s).le)
    have h2 := floor_le_roundHalfEven t
    omega
  · by_cases h1 : s - ⌊s⌋ < 1 / 2
    · have : roundHalfEven s = ⌊s⌋ := by
        unfold roundHalfEven
        rw [if_pos h1]
      rw [this, hf]
      exact floor_le_roundHalfEven t
    · have h2 : 1 / 2 < t - ⌊t⌋ := by
        rw [← hf]
        linarith
      have h3 : roundHalfEven t = ⌊t⌋ + 1 := by
        unfold roundHalfEven
        rw [if_neg (by linarith), if_pos h2]
      have h4 : roundHalfEven s ≤ ⌊s⌋ + 1 :=
        roundHalfEven_le_of_le s (⌊s⌋ + 1) (by push_cast; exact (Int.lt_floor_add_one s).le)
      omega

/-- Rounding is monotone on the positive numbers. -/
theorem Fp.roundedValue_mono_pos (fmt : FpFormat) (hp1 : 1 ≤ fmt.prec) {x y : K}
    (hx : 0 < x) (h : x ≤ y) : Fp.roundedValue fmt x ≤ Fp.roundedValue fmt y := by
  have hy : 0 < y := lt_of_lt_of_le hx h
  have hlog : Int.log 2 |x| ≤ Int.log 2 |y| := by
    rw [abs_of_pos hx, abs_of_pos hy]
    exact Int.log_mono_right hx h
  have hqle : Fp.quantum fmt x ≤ Fp.quantum fmt y := by
    unfold Fp.quantum
    have := max_le_max_right fmt.emin hlog
    omega
  rcases eq_or_lt_of_le hqle with hq | hq
  · -- one binade: the quotients by the common unit round in order
    unfold Fp.roundedValue
    rw [hq]
    have hp : (0 : K) < (2 : K) ^ Fp.quantum fmt y := zpow_pos (by norm_num) _
    have hpq : (0 : ℚ) < (2 : ℚ) ^ Fp.quantum fmt y := zpow_pos (by norm_num) _
    have ht : x / (2 : K) ^ Fp.quantum fmt y ≤ y / (2 : K) ^ Fp.quantum fmt y :=
      div_le_div_of_nonneg_right h hp.le
    have := roundHalfEven_mono ht
    exact mul_le_mul_of_nonneg_right (by exact_mod_cast this) hpq.le
  · -- two binades: the power of two at the foot of the upper one lies between
    obtain ⟨m, hm⟩ : ∃ m : ℕ, fmt.prec = m + 1 := ⟨fmt.prec - 1, by omega⟩
    have hE : fmt.emin < Int.log 2 |y| ∧ Int.log 2 |x| < Int.log 2 |y| := by
      unfold Fp.quantum at hq
      rcases le_total (Int.log 2 |y|) fmt.emin with h1 | h1
      · rw [max_eq_right h1, max_eq_right (le_trans hlog h1)] at hq
        omega
      · rw [max_eq_left h1] at hq
        have := le_max_left (Int.log 2 |x|) fmt.emin
        have := le_max_right (Int.log 2 |x|) fmt.emin
        constructor <;> omega
    have hqy : Fp.quantum fmt y = Int.log 2 |y| - (fmt.prec - 1) := by
      unfold Fp.quantum
      rw [max_eq_left hE.1.le]
    have hsplit : ∀ (F : Type) [Field F] [CharZero F],
        ((2 ^ m : ℤ) : F) * (2 : F) ^ Fp.quantum fmt y = (2 : F) ^ Int.log 2 |y| := by
      intro F _ _
      push_cast
      rw [← zpow_natCast, ← zpow_add₀ (by norm_num), hqy, hm]
      congr 1
      push_cast
      ring
    have hn : |((2 : ℤ) ^ m)| < 2 ^ fmt.prec := by
      rw [abs_of_pos (by positivity), hm, pow_succ]
      have : (0 : ℤ) < 2 ^ m := by positivity
      omega
    have he : fmt.emin - fmt.prec + 1 ≤ Fp.quantum fmt y := by
      rw [hqy]
      omega
    have hxg : x ≤ ((2 ^ m : ℤ) : K) * (2 : K) ^ Fp.quantum fmt y := by
      rw [hsplit K]
      have h1 : x < (2 : K) ^ (Int.log 2 |x| + 1) := by
        have := Int.lt_zpow_succ_log_self (b := 2) (by norm_num) |x|
        rw [abs_of_pos hx] at this ⊢
        exact_mod_cast this
      have h2 : (2 : K) ^ (Int.log 2 |x| + 1) ≤ (2 : K) ^ Int.log 2 |y| :=
        zpow_le_zpow_right₀ (by norm_num) (by omega)
      exact (lt_of_lt_of_le h1 h2).le
    have hgy : ((2 ^ m : ℤ) : K) * (2 : K) ^ Fp.quantum fmt y ≤ y := by
      rw [hsplit K]
      have := Int.zpow_log_le_self (b := 2) (r := |y|) (by norm_num) (abs_pos.mpr hy.ne')
      rw [abs_of_pos hy] at this ⊢
      exact_mod_cast this
    exact le_trans (Fp.roundedValue_le_grid fmt hp1 x _ _ hn he hxg)
      (Fp.rep_le_roundedValue_pos fmt y _ _ hp1 hn he (by positivity) hgy)

/-- Rounding is monotone. -/
theorem Fp.roundedValue_mono (fmt : FpFormat) (hp1 : 1 ≤ fmt.prec) {x y : K} (h : x ≤ y) :
    Fp.roundedValue fmt x ≤ Fp.roundedValue fmt y := by
  rcases lt_or_le 0 x with hx | hx
  · exact Fp.roundedValue_mono_pos fmt hp1 hx h
  · rcases lt_or_le y 0 with hy | hy
    · have := Fp.roundedValue_mono_pos fmt hp1 (x := -y) (y := -x) (by linarith) (by linarith)
      rw [Fp.roundedValue_neg, Fp.roundedValue_neg] at this
      linarith
    · have h1 := Fp.roundedValue_nonpos fmt x hx
      have h2 := Fp.roundedValue_nonpos fmt (-y) (by linarith)
      rw [Fp.roundedValue_neg] at h2
      linarith

/-- A number that is not negative does not round to a negative one. -/
theorem Fp.roundedValue_nonneg (fmt : FpFormat) (x : K) (h : 0 ≤ x) :
    0 ≤ Fp.roundedValue fmt x := by
  have := Fp.roundedValue_nonpos fmt (-x) (by linarith)
  rw [Fp.roundedValue_neg] at this
  linarith

/-- The result of rounding in terms of the rounded value. -/
theorem Fp.round_eq (fmt : FpFormat) (x : K) :
    Fp.round fmt x =
      if (2 : ℚ) ^ fmt.emax ≤ |Fp.roundedValue fmt x| then
        (if 0 < x then Fp.pinf else Fp.ninf)
      else if Fp.roundedValue fmt x = 0 ∧ x < 0 then Fp.nzero
      else Fp.fin (Fp.roundedValue fmt x) := rfl

/-- Rounding never yields NaN. -/
theorem Fp.round_isNaN (fmt : FpFormat) (x : K) : (Fp.round fmt x).isNaN = false := by
  rw [Fp.round_eq]
  split_ifs <;> rfl

/-- The place of a rounded number in the order. -/
theorem Fp.ord_round (fmt : FpFormat) (x : K) :
    (Fp.round fmt x).ord =
      if (2 : ℚ) ^ fmt.emax ≤ |Fp.roundedValue fmt x| then
        (if 0 < x then ((⊤ : WithTop ℚ) : WithBot (WithTop ℚ)) else ⊥)
      else ((Fp.roundedValue fmt x : WithTop ℚ) : WithBot (WithTop ℚ)) := by
  rw [Fp.round_eq]
  split_ifs with h1 h2 h3
  · rfl
  · rfl
  · show (((0 : ℚ) : WithTop ℚ) : WithBot (WithTop ℚ)) = _
    rw [h3.1]
  · rfl

/-- Rounding is monotone, overflow included. -/
theorem Fp.ord_round_mono (fmt : FpFormat) (hp1 : 1 ≤ fmt.prec) {x y : K} (h : x ≤ y) :
    (Fp.round fmt x).ord ≤ (Fp.round fmt y).ord := by
  have hm := Fp.roundedValue_mono fmt hp1 h
  have hT : (0 : ℚ) < (2 : ℚ) ^ fmt.emax := by positivity
  rw [Fp.ord_round, Fp.ord_round]
  by_cases hy : (2 : ℚ) ^ fmt.emax ≤ |Fp.roundedValue fmt y|
  · rw [if_pos hy]
    by_cases hy0 : 0 < y
    · rw [if_pos hy0]
      exact le_top
    · rw [if_neg hy0]
      have hry := Fp.roundedValue_nonpos fmt y (not_lt.mp hy0)
      rw [abs_of_nonpos hry] at hy
      have hrx : Fp.roundedValue fmt x ≤ 0 := le_trans hm hry
      rw [if_pos (by rw [abs_of_nonpos hrx]; linarith),
        if_neg (not_lt.mpr (le_trans h (not_lt.mp hy0)))]
  · rw [if_neg hy]
    by_cases hx : (2 : ℚ) ^ fmt.emax ≤ |Fp.roundedValue fmt x|
    · rw [if_pos hx]
      by_cases hx0 : 0 < x
      · exfalso
        have hrx := Fp.roundedValue_nonneg fmt x hx0.le
        rw [abs_of_nonneg hrx] at hx
        apply hy
        rw [abs_of_nonneg (le_trans hrx hm)]
        linarith
      · rw [if_neg hx0]
        exact bot_le
    · rw [if_neg hx]
      exact WithBot.coe_le_coe.mpr (WithTop.coe_le_coe.mpr hm)

/-- A number of the format rounds to itself. -/
theorem Fp.round_rep (fmt : FpFormat) (hp1 : 1 ≤ fmt.prec) (g : ℚ) (hg : Fp.Rep fmt g) :
    Fp.round fmt (g : K) = Fp.fin g := by
  have hb := Fp.round_btw fmt hp1 (g : K) g g hg hg le_rfl le_rfl
  have hv : (Fp.round fmt (g : K)).val = g := le_antisymm hb.2.2 hb.2.1
  rw [Fp.round_eq] at hb hv ⊢
  split_ifs at hb hv ⊢ with h1 h2 h3
  · exact absurd hb.1 (by decide)
  · exact absurd hb.1 (by decide)
  · exfalso
    have h4 : (g : K) < 0 := h3.2
    have h5 : (0 : ℚ) = g := hv
    rw [← h5] at h4
    simp at h4
  · have h5 : Fp.roundedValue fmt (g : K) = g := hv
    rw [h5]

end Float32Monotone

section Float32PotToDb

/-- The place of a finite value in the order is the number it stands for. -/
theorem Fp.ord_of_finite {x : Fp} (h : x.isFinite = true) :
    x.ord = ((x.val : WithTop ℚ) : WithBot (WithTop ℚ)) := by
  cases x with
  | fin q => rfl
  | nzero => rfl
  | pinf => exact absurd h (by decide)
  | ninf => exact absurd h (by decide)
  | nan => exact absurd h (by decide)

/-- A value that is not NaN is an infinity or finite. -/
theorem Fp.not_nan_cases {x : Fp} (h : x.isNaN = false) :
    x = Fp.pinf ∨ x = Fp.ninf ∨ x.isFinite = true := by
  cases x with
  | fin q => exact Or.inr (Or.inr rfl)
  | nzero => exact Or.inr (Or.inr rfl)
  | pinf => exact Or.inl rfl
  | ninf => exact Or.inr (Or.inl rfl)
  | nan => exact absurd h (by decide)

/-- No finite value lies at or above `+inf`. -/
theorem Fp.not_top_le_finite {x : Fp} (h : x.isFinite = true) :
    ¬ Fp.pinf.ord ≤ x.ord := by
  rw [Fp.ord_of_finite h]
  show ¬ (((⊤ : WithTop ℚ)) : WithBot (WithTop ℚ)) ≤ _
  rw [WithBot.coe_le_coe, top_le_iff]
  exact WithTop.coe_ne_top

/-- No finite value lies at or below `-inf`. -/
theorem Fp.not_finite_le_bot {x : Fp} (h : x.isFinite = true) :
    ¬ x.ord ≤ Fp.ninf.ord := by
  rw [Fp.ord_of_finite h]
  show ¬ _ ≤ (⊥ : WithBot (WithTop ℚ))
  rw [le_bot_iff]
  exact WithBot.coe_ne_bot

/-- The infinity `+inf` does not lie at or below `-inf`. -/
theorem Fp.not_pinf_le_ninf : ¬ Fp.pinf.ord ≤ Fp.ninf.ord := by
  show ¬ (((⊤ : WithTop ℚ)) : WithBot (WithTop ℚ)) ≤ (⊥ : WithBot (WithTop ℚ))
  rw [le_bot_iff]
  exact WithBot.coe_ne_bot

/-- A binary32 number rounds to itself. -/
theorem Fp.round32_rep (g : ℚ) (hg : Fp.Rep binary32 g) :
    Fp.round binary32 g = Fp.fin g := by
  have := Fp.round_rep (K := ℚ) binary32 binary32_prec_pos g hg
  simpa using this

/-- For a finite `pot` the difference `0.5f - pot` is the rounded exact difference. -/
theorem Fp.half_sub_finite {x : Fp} (h : x.isFinite = true) :
    (0.5 : Fp) - x = Fp.round binary32 ((1 : ℚ) / 2 - x.val) := by
  rw [Fp.half_eq]
  show Fp.addF binary32 (Fp.fin (1 / 2)) (Fp.neg x) = _
  cases x with
  | fin q =>
    by_cases hq : q = 0
    · subst hq
      simp [Fp.addF, Fp.neg, Fp.isNaN, Fp.isInf, Fp.isZero, Fp.val]
    · by_cases hs : (1 : ℚ) / 2 - q = 0
      · have hs2 : (1 : ℚ) / 2 + -q = 0 := by rwa [← sub_eq_add_neg]
        have h2 : (2 : ℚ)⁻¹ + -q = 0 := by rwa [one_div] at hs2
        simp only [Fp.val]
        rw [hs, Fp.round32_zero]
        simp [Fp.addF, Fp.neg, Fp.isNaN, Fp.isInf, Fp.isZero, Fp.val, hq, h2]
      · have hs2 : (1 : ℚ) / 2 + -q ≠ 0 := by rwa [← sub_eq_add_neg]
        have h2 : (2 : ℚ)⁻¹ + -q ≠ 0 := by rwa [one_div] at hs2
        simp [Fp.addF, Fp.neg, Fp.isNaN, Fp.isInf, Fp.isZero, Fp.val, hq, h2, sub_eq_add_neg]
  | nzero => simp [Fp.addF, Fp.neg, Fp.isNaN, Fp.isInf, Fp.isZero, Fp.val]
  | pinf => exact absurd h (by decide)
  | ninf => exact absurd h (by decide)
  | nan => exact absurd h (by decide)

/-- The difference `0.5f - (+inf)` is `-inf`. -/
theorem Fp.half_sub_pinf : (0.5 : Fp) - Fp.pinf = Fp.ninf := by
  rw [Fp.half_eq]
  rfl

/-- The difference `0.5f - (-inf)` is `+inf`. -/
theorem Fp.half_sub_ninf : (0.5 : Fp) - Fp.ninf = Fp.pinf := by
  rw [Fp.half_eq]
  rfl

/-- The difference `0.5f - pot` is never NaN for a `pot` that is not NaN. -/
theorem Fp.half_sub_isNaN {x : Fp} (hx : x.isNaN = false) :
    ((0.5 : Fp) - x).isNaN = false := by
  rcases Fp.not_nan_cases hx with rfl | rfl | hf
  · rw [Fp.half_sub_pinf]
    rfl
  · rw [Fp.half_sub_ninf]
    rfl
  · rw [Fp.half_sub_finite hf]
    exact Fp.round_isNaN _ _

/-- The difference `0.5f - pot` does not grow when `pot` grows. -/
theorem Fp.half_sub_anti {x y : Fp} (hx : x.isNaN = false) (hy : y.isNaN = false)
    (h : x.ord ≤ y.ord) : ((0.5 : Fp) - y).ord ≤ ((0.5 : Fp) - x).ord := by
  rcases Fp.not_nan_cases hy with rfl | rfl | hfy
  · rw [Fp.half_sub_pinf]
    exact bot_le
  · rcases Fp.not_nan_cases hx with rfl | rfl | hfx
    · exact absurd h Fp.not_pinf_le_ninf
    · exact le_rfl
    · exact absurd h (Fp.not_finite_le_bot hfx)
  · rcases Fp.not_nan_cases hx with rfl | rfl | hfx
    · exact absurd h (Fp.not_top_le_finite hfy)
    · rw [Fp.half_sub_ninf]
      exact le_top
    · rw [Fp.half_sub_finite hfx, Fp.half_sub_finite hfy]
      rw [Fp.ord_of_finite hfx, Fp.ord_of_finite hfy, WithBot.coe_le_coe,
        WithTop.coe_le_coe] at h
      exact Fp.ord_round_mono binary32 binary32_prec_pos (by linarith)

/-- The zero `+0` times a positive finite constant is `+0`. -/
theorem Fp.zero_mul_pos (c : ℚ) (hc : 0 < c) : Fp.fin 0 * Fp.fin c = Fp.fin 0 := by
  show Fp.mulF binary32 (Fp.fin 0) (Fp.fin c) = Fp.fin 0
  simp [Fp.mulF, Fp.isNaN, Fp.isInf, Fp.isZero, Fp.signbit, Fp.signedZero, hc.ne',
    not_lt.mpr hc.le]

/-- A finite value times a positive finite constant: never NaN, and at the place of the
rounded exact product. -/
theorem Fp.mul_pos_finite (c : ℚ) (hc : 0 < c) {x : Fp} (h : x.isFinite = true) :
    (x * Fp.fin c).isNaN = false ∧
      (x * Fp.fin c).ord = (Fp.round binary32 (x.val * c)).ord := by
  cases x with
  | fin q =>
    by_cases hq : q = 0
    · subst hq
      rw [Fp.zero_mul_pos c hc]
      show _ ∧ _ = (Fp.round binary32 ((0 : ℚ) * c)).ord
      rw [zero_mul, Fp.round32_zero]
      exact ⟨rfl, rfl⟩
    · rw [Fp.fin_mul_fin q c hq hc.ne']
      exact ⟨Fp.round_isNaN _ _, rfl⟩
  | nzero =>
    have : Fp.nzero * Fp.fin c = Fp.nzero := by
      show Fp.mulF binary32 Fp.nzero (Fp.fin c) = Fp.nzero
      simp [Fp.mulF, Fp.isNaN, Fp.isInf, Fp.isZero, Fp.signbit, Fp.signedZero, hc.ne',
        not_lt.mpr hc.le]
    rw [this]
    show _ ∧ _ = (Fp.round binary32 ((0 : ℚ) * c)).ord
    rw [zero_mul, Fp.round32_zero]
    exact ⟨rfl, rfl⟩
  | pinf => exact absurd h (by decide)
  | ninf => exact absurd h (by decide)
  | nan => exact absurd h (by decide)

/-- The infinity `+inf` times a positive finite constant is `+inf`. -/
theorem Fp.pinf_mul_pos (c : ℚ) (hc : 0 < c) : Fp.pinf * Fp.fin c = Fp.pinf := by
  show Fp.mulF binary32 Fp.pinf (Fp.fin c) = Fp.pinf
  simp [Fp.mulF, Fp.isNaN, Fp.isInf, Fp.isZero, Fp.signbit, Fp.signedInf, hc.ne',
    not_lt.mpr hc.le]

/-- The infinity `-inf` times a positive finite constant is `-inf`. -/
theorem Fp.ninf_mul_pos (c : ℚ) (hc : 0 < c) : Fp.ninf * Fp.fin c = Fp.ninf := by
  show Fp.mulF binary32 Fp.ninf (Fp.fin c) = Fp.ninf
  simp [Fp.mulF, Fp.isNaN, Fp.isInf, Fp.isZero, Fp.signbit, Fp.signedInf, hc.ne',
    not_lt.mpr hc.le]

/-- A value that is not NaN times a positive finite constant is not NaN. -/
theorem Fp.mul_pos_isNaN (c : ℚ) (hc : 0 < c) {x : Fp} (hx : x.isNaN = false) :
    (x * Fp.fin c).isNaN = false := by
  rcases Fp.not_nan_cases hx with rfl | rfl | hf
  · rw [Fp.pinf_mul_pos c hc]
    rfl
  · rw [Fp.ninf_mul_pos c hc]
    rfl
  · exact (Fp.mul_pos_finite c hc hf).1

/-- Multiplying by a positive finite constant keeps the order. -/
theorem Fp.mul_pos_mono (c : ℚ) (hc : 0 < c) {x y : Fp} (hx : x.isNaN = false)
    (hy : y.isNaN = false) (h : x.ord ≤ y.ord) :
    (x * Fp.fin c).ord ≤ (y * Fp.fin c).ord := by
  rcases Fp.not_nan_cases hy with rfl | rfl | hfy
  · rw [Fp.pinf_mul_pos c hc]
    exact le_top
  · rcases Fp.not_nan_cases hx with rfl | rfl | hfx
    · exact absurd h Fp.not_pinf_le_ninf
    · exact le_rfl
    · exact absurd h (Fp.not_finite_le_bot hfx)
  · rcases Fp.not_nan_cases hx with rfl | rfl | hfx
    · exact absurd h (Fp.not_top_le_finite hfy)
    · rw [Fp.ninf_mul_pos c hc]
      exact bot_le
    · rw [(Fp.mul_pos_finite c hc hfx).2, (Fp.mul_pos_finite c hc hfy).2]
      rw [Fp.ord_of_finite hfx, Fp.ord_of_finite hfy, WithBot.coe_le_coe,
        WithTop.coe_le_coe] at h
      exact Fp.ord_round_mono binary32 binary32_prec_pos
        (mul_le_mul_of_nonneg_right h hc.le)

/-- In binary32 `PotToDb` does not grow when `pot` grows, for every positive finite
`maxDb`; no rounding step can reverse the order. -/
theorem potToDb32_anti (m : ℚ) (hm : 0 < m) {p1 p2 : Fp} (h1 : p1.isNaN = false)
    (h2 : p2.isNaN = false) (h : p1.ord ≤ p2.ord) :
    Fp.le (Binary32.EQ3Band.PotToDb p2 (Fp.fin m)) (Binary32.EQ3Band.PotToDb p1 (Fp.fin m)) := by
  have h2pos : (0 : ℚ) < ((2 : ℕ) : ℚ) := by norm_num
  have a1 := Fp.half_sub_isNaN h1
  have a2 := Fp.half_sub_isNaN h2
  have b1 := Fp.mul_pos_isNaN _ h2pos a1
  have b2 := Fp.mul_pos_isNaN _ h2pos a2
  have c1 := Fp.mul_pos_isNaN m hm b1
  have c2 := Fp.mul_pos_isNaN m hm b2
  have o1 := Fp.half_sub_anti h1 h2 h
  have o2 := Fp.mul_pos_mono _ h2pos a2 a1 o1
  have o3 := Fp.mul_pos_mono m hm b2 b1 o2
  exact ⟨c2, c1, o3⟩

/-- In binary32 `PotToDb` takes the values `maxDb`, `-maxDb` and `+0` at `pot = 0`, 1 and
0.5, for every positive binary32 number `maxDb`. -/
theorem potToDb32_points (m : ℚ) (hrep : Fp.Rep binary32 m) (hm : 0 < m) :
    Binary32.EQ3Band.PotToDb 0 (Fp.fin m) = Fp.fin m ∧
    Binary32.EQ3Band.PotToDb 1 (Fp.fin m) = Fp.fin (-m) ∧
    Binary32.EQ3Band.PotToDb 0.5 (Fp.fin m) = Fp.fin 0 := by
  have r1 : Fp.round binary32 ((1 : ℚ) / 2) = Fp.fin (1 / 2) :=
    Fp.round32_rep _ (Fp.rep32_of _ 1 (-1) (by norm_num))
  have r2 : Fp.round binary32 (-(1 : ℚ) / 2) = Fp.fin (-1 / 2) :=
    Fp.round32_rep _ (Fp.rep32_of _ (-1) (-1) (by norm_num))
  have r3 : Fp.round binary32 (1 : ℚ) = Fp.fin 1 :=
    Fp.round32_rep _ (Fp.rep32_of _ 1 0 (by norm_num))
  have r4 : Fp.round binary32 (-1 : ℚ) = Fp.fin (-1) :=
    Fp.round32_rep _ (Fp.rep32_of _ (-1) 0 (by norm_num))
  have d0 : (0.5 : Fp) - 0 = Fp.fin (1 / 2) := by
    rw [Fp.half_sub_finite (x := 0) rfl]
    show Fp.round binary32 ((1 : ℚ) / 2 - ((0 : ℕ) : ℚ)) = _
    rw [Nat.cast_zero, sub_zero, r1]
  have d1 : (0.5 : Fp) - 1 = Fp.fin (-1 / 2) := by
    rw [Fp.half_sub_finite (x := 1) rfl]
    show Fp.round binary32 ((1 : ℚ) / 2 - ((1 : ℕ) : ℚ)) = _
    rw [show (1 : ℚ) / 2 - ((1 : ℕ) : ℚ) = -1 / 2 by norm_num, r2]
  have dh : (0.5 : Fp) - 0.5 = Fp.fin 0 := by
    rw [Fp.half_sub_finite (x := 0.5) (by rw [Fp.half_eq]; rfl), Fp.half_eq]
    show Fp.round binary32 ((1 : ℚ) / 2 - 1 / 2) = _
    rw [sub_self, Fp.round32_zero]
  have two : (2 : Fp) = Fp.fin 2 := by
    rw [Fp.ofNat_eq]
    norm_num
  unfold Binary32.EQ3Band.PotToDb
  refine ⟨?_, ?_, ?_⟩
  · rw [d0, two, Fp.fin_mul_fin _ _ (by norm_num) (by norm_num),
      show (1 : ℚ) / 2 * 2 = 1 by norm_num, r3, Fp.fin_mul_fin _ _ (by norm_num) hm.ne',
      one_mul, Fp.round32_rep m hrep]
  · rw [d1, two, Fp.fin_mul_fin _ _ (by norm_num) (by norm_num),
      show (-1 : ℚ) / 2 * 2 = -1 by norm_num, r4, Fp.fin_mul_fin _ _ (by norm_num) hm.ne',
      neg_one_mul, Fp.round32_rep (-m) (Fp.rep_neg hrep)]
  · rw [dh, two, Fp.zero_mul_pos 2 (by norm_num), Fp.zero_mul_pos m hm]

end Float32PotToDb

section Float32Muted

/-- A zero is finite. -/
theorem Fp.isFinite_of_isZero {x : Fp} (h : x.isZero = true) : x.isFinite = true := by
  cases x with
  | fin q => rfl
  | nzero => rfl
  | pinf => exact absurd h (by decide)
  | ninf => exact absurd h (by decide)
  | nan => exact absurd h (by decide)

/-- A signed zero is a zero. -/
theorem Fp.isZero_signedZero (s : Bool) : (Fp.signedZero s).isZero = true := by
  cases s <;> rfl

/-- A zero times a finite value is a zero. -/
theorem Fp.isZero_mul_left {a b : Fp} (ha : a.isZero = true) (hb : b.isFinite = true) :
    (a * b).isZero = true := by
  obtain ⟨han, hai⟩ := Fp.finite_cases (Fp.isFinite_of_isZero ha)
  obtain ⟨hbn, hbi⟩ := Fp.finite_cases hb
  show (Fp.mulF binary32 a b).isZero = true
  unfold Fp.mulF
  simp only [han, hbn, hai, hbi, ha, Bool.or_self, Bool.false_and, Bool.and_false,
    Bool.true_or, Bool.false_eq_true, if_false, if_true]
  exact Fp.isZero_signedZero _

/-- A finite value times a zero is a zero. -/
theorem Fp.isZero_mul_right {a b : Fp} (ha : a.isFinite = true) (hb : b.isZero = true) :
    (a * b).isZero = true := by
  obtain ⟨han, hai⟩ := Fp.finite_cases ha
  obtain ⟨hbn, hbi⟩ := Fp.finite_cases (Fp.isFinite_of_isZero hb)
  show (Fp.mulF binary32 a b).isZero = true
  unfold Fp.mulF
  simp only [han, hbn, hai, hbi, hb, Bool.or_self, Bool.false_and, Bool.and_false,
    Bool.or_true, Bool.false_eq_true, if_false, if_true]
  exact Fp.isZero_signedZero _

/-- The sum of two zeros is a zero. -/
theorem Fp.isZero_add {a b : Fp} (ha : a.isZero = true) (hb : b.isZero = true) :
    (a + b).isZero = true := by
  obtain ⟨han, hai⟩ := Fp.finite_cases (Fp.isFinite_of_isZero ha)
  obtain ⟨hbn, hbi⟩ := Fp.finite_cases (Fp.isFinite_of_isZero hb)
  show (Fp.addF binary32 a b).isZero = true
  unfold Fp.addF
  simp only [han, hbn, hai, hbi, ha, hb, Bool.or_self, Bool.and_self, Bool.false_eq_true,
    if_false, if_true]
  exact Fp.isZero_signedZero _

/-- The negative of a zero is a zero. -/
theorem Fp.isZero_neg {a : Fp} (ha : a.isZero = true) : (Fp.neg a).isZero = true := by
  cases a with
  | fin q =>
    have hq : q = 0 := by simpa [Fp.isZero] using ha
    subst hq
    simp [Fp.neg, Fp.isZero]
  | nzero => rfl
  | pinf => exact absurd ha (by decide)
  | ninf => exact absurd ha (by decide)
  | nan => exact absurd ha (by decide)

/-- The difference of two zeros is a zero. -/
theorem Fp.isZero_sub {a b : Fp} (ha : a.isZero = true) (hb : b.isZero = true) :
    (a - b).isZero = true :=
  Fp.isZero_add ha (Fp.isZero_neg hb)

/-- A section with finite coefficients and zeros in its registers returns a zero whenever
`a0 * x` is a zero, and its registers hold zeros afterwards. -/
theorem process32_zero (f : MyBiquad Fp) (x : Fp) (hc : Binary32.MyBiquad.FiniteCoeffs f)
    (h1 : f.z1.isZero = true) (h2 : f.z2.isZero = true) (hp : (f.a0 * x).isZero = true) :
    (Binary32.MyBiquad.Process f x).1.isZero = true ∧
    (Binary32.MyBiquad.Process f x).2.z1.isZero = true ∧
    (Binary32.MyBiquad.Process f x).2.z2.isZero = true := by
  obtain ⟨-, c1, c2, c3, c4⟩ := hc
  have hy : (f.a0 * x + f.a1 * f.z1 + f.a2 * f.z2 - f.b1 * f.z1 - f.b2 * f.z2).isZero
      = true :=
    Fp.isZero_sub (Fp.isZero_sub (Fp.isZero_add (Fp.isZero_add hp (Fp.isZero_mul_right c1 h1))
      (Fp.isZero_mul_right c2 h2)) (Fp.isZero_mul_right c3 h1)) (Fp.isZero_mul_right c4 h2)
  exact ⟨hy, hy, h1⟩

/-- While `SetTreble` is not called, the treble section keeps its zero coefficients, and
as long as no infinity or NaN enters, every `Process` call returns a zero. -/
theorem run32_treble_unset (L : Libm Fp) (cs : List (Call Fp))
    (h : ∀ p, Call.SetTreble p ∉ cs) (e : EQ3Band Fp)
    (h0 : e.treble.a0.isZero = true) (hz1 : e.treble.z1.isZero = true)
    (hz2 : e.treble.z2.isZero = true) (ht : Binary32.EQ3Band.Tame L e cs) :
    ∀ y ∈ (Binary32.EQ3Band.run L e cs).2, y.isZero = true := by
  induction cs generalizing e with
  | nil => simp [Binary32.EQ3Band.run]
  | cons c cs ih =>
    have hcs : ∀ p, Call.SetTreble p ∉ cs := fun p hp => h p (List.mem_cons_of_mem _ hp)
    cases c with
    | SetBass pot => exact ih hcs _ h0 hz1 hz2 ht
    | SetMid pot => exact ih hcs _ h0 hz1 hz2 ht
    | SetTreble pot => exact absurd (List.mem_cons_self _ _) (h pot)
    | Process x =>
      obtain ⟨-, -, -, hct, -, hv, ht'⟩ := ht
      have hp := process32_zero e.treble
        (Binary32.MyBiquad.Process e.mid (Binary32.MyBiquad.Process e.bass x).1).1 hct hz1 hz2
        (Fp.isZero_mul_left h0 hv)
      intro y hy
      simp only [Binary32.EQ3Band.run, List.mem_cons] at hy
      rcases hy with hy | hy
      · rw [hy]
        exact hp.1
      · exact ih hcs (Binary32.EQ3Band.Process e x).2 h0 hp.2.1 hp.2.2 ht' y hy

/-- While `SetMid` is not called, the mid section keeps its zero coefficients, and as long
as no infinity or NaN enters, every `Process` call returns a zero. -/
theorem run32_mid_unset (L : Libm Fp) (cs : List (Call Fp))
    (h : ∀ p, Call.SetMid p ∉ cs) (e : EQ3Band Fp)
    (h0 : e.mid.a0.isZero = true) (hm1 : e.mid.z1.isZero = true)
    (hm2 : e.mid.z2.isZero = true) (hz1 : e.treble.z1.isZero = true)
    (hz2 : e.treble.z2.isZero = true) (ht : Binary32.EQ3Band.Tame L e cs) :
    ∀ y ∈ (Binary32.EQ3Band.run L e cs).2, y.isZero = true := by
  induction cs generalizing e with
  | nil => simp [Binary32.EQ3Band.run]
  | cons c cs ih =>
    have hcs : ∀ p, Call.SetMid p ∉ cs := fun p hp => h p (List.mem_cons_of_mem _ hp)
    cases c with
    | SetBass pot => exact ih hcs _ h0 hm1 hm2 hz1 hz2 ht
    | SetMid pot => exact absurd (List.mem_cons_self _ _) (h pot)
    | SetTreble pot => exact ih hcs _ h0 hm1 hm2 hz1 hz2 ht
    | Process x =>
      obtain ⟨-, -, hcm, hct, hu, -, ht'⟩ := ht
      have hpm := process32_zero e.mid (Binary32.MyBiquad.Process e.bass x).1 hcm hm1 hm2
        (Fp.isZero_mul_left h0 hu)
      have hpt := process32_zero e.treble
        (Binary32.MyBiquad.Process e.mid (Binary32.MyBiquad.Process e.bass x).1).1 hct hz1 hz2
        (Fp.isZero_mul_right hct.1 hpm.1)
      intro y hy
      simp only [Binary32.EQ3Band.run, List.mem_cons] at hy
      rcases hy with hy | hy
      · rw [hy]
        exact hpt.1
      · exact ih hcs (Binary32.EQ3Band.Process e x).2 h0 hpm.2.1 hpm.2.2 hpt.2.1 hpt.2.2 ht' y hy

/-- While `SetBass` is not called, the bass section keeps its zero coefficients, and as
long as no infinity or NaN enters, every `Process` call returns a zero. -/
theorem run32_bass_unset (L : Libm Fp) (cs : List (Call Fp))
    (h : ∀ p, Call.SetBass p ∉ cs) (e : EQ3Band Fp)
    (h0 : e.bass.a0.isZero = true) (hb1 : e.bass.z1.isZero = true)
    (hb2 : e.bass.z2.isZero = true) (hm1 : e.mid.z1.isZero = true)
    (hm2 : e.mid.z2.isZero = true) (hz1 : e.treble.z1.isZero = true)
    (hz2 : e.treble.z2.isZero = true) (ht : Binary32.EQ3Band.Tame L e cs) :
    ∀ y ∈ (Binary32.EQ3Band.run L e cs).2, y.isZero = true := by
  induction cs generalizing e with
  | nil => simp [Binary32.EQ3Band.run]
  | cons c cs ih =>
    have hcs : ∀ p, Call.SetBass p ∉ cs := fun p hp => h p (List.mem_cons_of_mem _ hp)
    cases c with
    | SetBass pot => exact absurd (List.mem_cons_self _ _) (h pot)
    | SetMid pot => exact ih hcs _ h0 hb1 hb2 hm1 hm2 hz1 hz2 ht
    | SetTreble pot => exact ih hcs _ h0 hb1 hb2 hm1 hm2 hz1 hz2 ht
    | Process x =>
      obtain ⟨hx, hcb, hcm, hct, -, -, ht'⟩ := ht
      have hpb := process32_zero e.bass x hcb hb1 hb2 (Fp.isZero_mul_left h0 hx)
      have hpm := process32_zero e.mid (Binary32.MyBiquad.Process e.bass x).1 hcm hm1 hm2
        (Fp.isZero_mul_right hcm.1 hpb.1)
      have hpt := process32_zero e.treble
        (Binary32.MyBiquad.Process e.mid (Binary32.MyBiquad.Process e.bass x).1).1 hct hz1 hz2
        (Fp.isZero_mul_right hct.1 hpm.1)
      intro y hy
      simp only [Binary32.EQ3Band.run, List.mem_cons] at hy
      rcases hy with hy | hy
      · rw [hy]
        exact hpt.1
      · exact ih hcs (Binary32.EQ3Band.Process e x).2 h0 hpb.2.1 hpb.2.2 hpm.2.1 hpm.2.2
          hpt.2.1 hpt.2.2 ht' y hy

end Float32Muted

section Float32Range

/-- Bounds on the amplitude `A` of a shelf (15 dB at most) for every `pot` from 0 to 1. -/
theorem float_designA_range15 (pot : Fp) (hpot : Fp.Btw pot 0 1) :
    Fp.Btw (Binary32.EQ3Band.designA Fp.libm (Binary32.EQ3Band.PotToDb pot 15))
      (1727 / 4096) (2429 / 1024) := by
  have h1 : Fp.Btw (0.5 : Fp) (1 / 2) (1 / 2) :=
    Fp.ofScientific_btw 5 true 1 _ _ (Fp.rep32_of _ 1 (-1) (by norm_num)) (Fp.rep32_of _ 1 (-1)
      (by norm_num)) (by norm_num)
  have h2 : Fp.Btw (0.5 - pot) (-1 / 2) (1 / 2) :=
    Fp.sub_btw _ _ h1 hpot (Fp.rep32_of _ (-1) (-1) (by norm_num)) (Fp.rep32_of _ 1 (-1)
      (by norm_num)) (by norm_num)
  have h3 : Fp.Btw (2 : Fp) 2 2 :=
    Fp.ofNat_btw 2 2 (by norm_num)
  have h4 : Fp.Btw ((0.5 - pot) * 2) (-1) 1 :=
    Fp.mul_btw _ _ h2 h3 (Fp.rep32_of _ (-1) 0 (by norm_num)) (Fp.rep32_of _ 1 0 (by norm_num))
      (by norm_num)
  have h5 : Fp.Btw (15 : Fp) 15 15 :=
    Fp.ofNat_btw 15 15 (by norm_num)
  have h6 : Fp.Btw (((0.5 - pot) * 2) * 15) (-15) 15 :=
    Fp.mul_btw _ _ h4 h5 (Fp.rep32_of _ (-15) 0 (by norm_num)) (Fp.rep32_of _ 15 0 (by norm_num))
      (by norm_num)
  have h7 : Fp.Btw (40 : Fp) 40 40 :=
    Fp.ofNat_btw 40 40 (by norm_num)
  have h8 : Fp.Btw ((((0.5 - pot) * 2) * 15) / 40) (-3 / 8) (3 / 8) :=
    Fp.div_btw _ _ h6 h7 (Fp.rep32_of _ (-3) (-3) (by norm_num)) (Fp.rep32_of _ 3 (-3)
      (by norm_num)) (by norm_num)
  exact Fp.powf_btw _ _ h8
    (Fp.rep32_of _ 1727 (-12) (by norm_num))
    (Fp.rep32_of _ 2429 (-10) (by norm_num))
    (pow10_lower _ _ (-3) 8 (by norm_num))
    (pow10_upper _ _ 3 8 (by norm_num))

/-- Bounds on the amplitude `A` of the mid band (12 dB at most) for every `pot` from 0 to 1. -/
theorem float_designA_range12 (pot : Fp) (hpot : Fp.Btw pot 0 1) :
    Fp.Btw (Binary32.EQ3Band.designA Fp.libm (Binary32.EQ3Band.PotToDb pot 12))
      (3989 / 8192) (2103 / 1024) := by
  have h1 : Fp.Btw (0.5 : Fp) (1 / 2) (1 / 2) :=
    Fp.ofScientific_btw 5 true 1 _ _ (Fp.rep32_of _ 1 (-1) (by norm_num)) (Fp.rep32_of _ 1 (-1)
      (by norm_num)) (by norm_num)
  have h2 : Fp.Btw (0.5 - pot) (-1 / 2) (1 / 2) :=
    Fp.sub_btw _ _ h1 hpot (Fp.rep32_of _ (-1) (-1) (by norm_num)) (Fp.rep32_of _ 1 (-1)
      (by norm_num)) (by norm_num)
  have h3 : Fp.Btw (2 : Fp) 2 2 :=
    Fp.ofNat_btw 2 2 (by norm_num)
  have h4 : Fp.Btw ((0.5 - pot) * 2) (-1) 1 :=
    Fp.mul_btw _ _ h2 h3 (Fp.rep32_of _ (-1) 0 (by norm_num)) (Fp.rep32_of _ 1 0 (by norm_num))
      (by norm_num)
  have h5 : Fp.Btw (12 : Fp) 12 12 :=
    Fp.ofNat_btw 12 12 (by norm_num)
  have h6 : Fp.Btw (((0.5 - pot) * 2) * 12) (-12) 12 :=
    Fp.mul_btw _ _ h4 h5 (Fp.rep32_of _ (-3) 2 (by norm_num)) (Fp.rep32_of _ 3 2 (by norm_num))
      (by norm_num)
  have h7 : Fp.Btw (40 : Fp) 40 40 :=
    Fp.ofNat_btw 40 40 (by norm_num)
  have h8 : Fp.Btw ((((0.5 - pot) * 2) * 12) / 40) (-5 / 16) (5 / 16) :=
    Fp.div_btw _ _ h6 h7 (Fp.rep32_of _ (-5) (-4) (by norm_num)) (Fp.rep32_of _ 5 (-4)
      (by norm_num)) (by norm_num)
  exact Fp.powf_btw _ _ h8
    (Fp.rep32_of _ 3989 (-13) (by norm_num))
    (Fp.rep32_of _ 2103 (-10) (by norm_num))
    (pow10_lower _ _ (-5) 16 (by norm_num))
    (pow10_upper _ _ 5 16 (by norm_num))

/-- Bounds on `w0` of the bass band for every finite sample rate from 8000. -/
theorem float_designW0_range_bass (sr : Fp) (hsr : Fp.Btw sr 8000 (2 ^ 128)) :
    Fp.Btw (Binary32.EQ3Band.designW0 Fp.libm sr 80) 0 (263537 / 4194304) := by
  have h1 : Fp.Btw (2 : Fp) 2 2 :=
    Fp.ofNat_btw 2 2 (by norm_num)
  have h2 : Fp.Btw (Fp.mulF binary64 2 Fp.libm.M_PI) (12867 / 2048) (3217 / 512) :=
    Fp.mulF_corners binary64 binary64_prec_pos _ _ h1 Fp.M_PI_btw (Fp.rep64_of _ 12867 (-11)
      (by norm_num)) (Fp.rep64_of _ 3217 (-9) (by norm_num)) (by norm_num)
  have h3 : Fp.Btw (80 : Fp) 80 80 :=
    Fp.ofNat_btw 80 80 (by norm_num)
  have h4 : Fp.Btw (Fp.mulF binary64 (Fp.mulF binary64 2 Fp.libm.M_PI) 80) (64335 / 128)
      (16085 / 32) :=
    Fp.mulF_corners binary64 binary64_prec_pos _ _ h2 h3 (Fp.rep64_of _ 64335 (-7) (by norm_num))
      (Fp.rep64_of _ 16085 (-5) (by norm_num)) (by norm_num)
  have h5 : Fp.Btw (Fp.divF binary64 (Fp.mulF binary64 (Fp.mulF binary64 2 Fp.libm.M_PI) 80) sr) 0
      (539723039 / 8589934592) :=
    Fp.divF_corners binary64 binary64_prec_pos _ _ h4 hsr (Fp.rep64_of _ 0 0 (by norm_num))
      (Fp.rep64_of _ 539723039 (-33) (by norm_num)) (by norm_num)
  have h6 : Fp.Btw (Fp.toFloat (Fp.divF binary64 (Fp.mulF binary64
      (Fp.mulF binary64 2 Fp.libm.M_PI) 80) sr)) 0 (263537 / 4194304) :=
    Fp.toFloat_btw _ _ h5 (Fp.rep32_of _ 0 0 (by norm_num)) (Fp.rep32_of _ 263537 (-22)
      (by norm_num)) (by norm_num)
  exact h6

/-- Bounds on `w0` of the mid band for every finite sample rate from 8000. -/
theorem float_designW0_range_mid (sr : Fp) (hsr : Fp.Btw sr 8000 (2 ^ 128)) :
    Fp.Btw (Binary32.EQ3Band.designW0 Fp.libm sr 800) 0 (329421 / 524288) := by
  have h1 : Fp.Btw (2 : Fp) 2 2 :=
    Fp.ofNat_btw 2 2 (by norm_num)
  have h2 : Fp.Btw (Fp.mulF binary64 2 Fp.libm.M_PI) (12867 / 2048) (3217 / 512) :=
    Fp.mulF_corners binary64 binary64_prec_pos _ _ h1 Fp.M_PI_btw (Fp.rep64_of _ 12867 (-11)
      (by norm_num)) (Fp.rep64_of _ 3217 (-9) (by norm_num)) (by norm_num)
  have h3 : Fp.Btw (800 : Fp) 800 800 :=
    Fp.ofNat_btw 800 800 (by norm_num)
  have h4 : Fp.Btw (Fp.mulF binary64 (Fp.mulF binary64 2 Fp.libm.M_PI) 800) (321675 / 64)
      (80425 / 16) :=
    Fp.mulF_corners binary64 binary64_prec_pos _ _ h2 h3 (Fp.rep64_of _ 321675 (-6) (by norm_num))
      (Fp.rep64_of _ 80425 (-4) (by norm_num)) (by norm_num)
  have h5 : Fp.Btw (Fp.divF binary64 (Fp.mulF binary64 (Fp.mulF binary64 2 Fp.libm.M_PI) 800) sr)
      0 (674653799 / 1073741824) :=
    Fp.divF_corners binary64 binary64_prec_pos _ _ h4 hsr (Fp.rep64_of _ 0 0 (by norm_num))
      (Fp.rep64_of _ 674653799 (-30) (by norm_num)) (by norm_num)
  have h6 : Fp.Btw (Fp.toFloat (Fp.divF binary64 (Fp.mulF binary64
      (Fp.mulF binary64 2 Fp.libm.M_PI) 800) sr)) 0 (329421 / 524288) :=
    Fp.toFloat_btw _ _ h5 (Fp.rep32_of _ 0 0 (by norm_num)) (Fp.rep32_of _ 329421 (-19)
      (by norm_num)) (by norm_num)
  exact h6

/-- Bounds on `w0` of the treble band for every finite sample rate from 8000: it does not pass the
`float` next to pi. -/
theorem float_designW0_range_treble (sr : Fp) (hsr : Fp.Btw sr 8000 (2 ^ 128)) :
    Fp.Btw (Binary32.EQ3Band.designW0 Fp.libm sr 4000) 0 (3217 / 1024) := by
  have h1 : Fp.Btw (2 : Fp) 2 2 :=
    Fp.ofNat_btw 2 2 (by norm_num)
  have h2 : Fp.Btw (Fp.mulF binary64 2 Fp.libm.M_PI) (12867 / 2048) (3217 / 512) :=
    Fp.mulF_corners binary64 binary64_prec_pos _ _ h1 Fp.M_PI_btw (Fp.rep64_of _ 12867 (-11)
      (by norm_num)) (Fp.rep64_of _ 3217 (-9) (by norm_num)) (by norm_num)
  have h3 : Fp.Btw (4000 : Fp) 4000 4000 :=
    Fp.ofNat_btw 4000 4000 (by norm_num)
  have h4 : Fp.Btw (Fp.mulF binary64 (Fp.mulF binary64 2 Fp.libm.M_PI) 4000) (1608375 / 64)
      (402125 / 16) :=
    Fp.mulF_corners binary64 binary64_prec_pos _ _ h2 h3 (Fp.rep64_of _ 1608375 (-6)
      (by norm_num)) (Fp.rep64_of _ 402125 (-4) (by norm_num)) (by norm_num)
  have h5 : Fp.Btw (Fp.divF binary64 (Fp.mulF binary64 (Fp.mulF binary64 2 Fp.libm.M_PI) 4000) sr)
      0 (3217 / 1024) :=
    Fp.divF_corners binary64 binary64_prec_pos _ _ h4 hsr (Fp.rep64_of _ 0 0 (by norm_num))
      (Fp.rep64_of _ 3217 (-10) (by norm_num)) (by norm_num)
  have h6 : Fp.Btw (Fp.toFloat (Fp.divF binary64 (Fp.mulF binary64
      (Fp.mulF binary64 2 Fp.libm.M_PI) 4000) sr)) 0 (3217 / 1024) :=
    Fp.toFloat_btw _ _ h5 (Fp.rep32_of _ 0 0 (by norm_num)) (Fp.rep32_of _ 3217 (-10)
      (by norm_num)) (by norm_num)
  exact h6

/-- Bounds on the divisor `2 * Q` of the shelves, `Q = 0.707f`. -/
theorem float_twoQ_shelf :
    Fp.Btw ((2 : Fp) * 0.707) (2895 / 2048) (181 / 128) := by
  have h1 : Fp.Btw (2 : Fp) 2 2 :=
    Fp.ofNat_btw 2 2 (by norm_num)
  have h2 : Fp.Btw (0.707 : Fp) (2895 / 4096) (181 / 256) :=
    Fp.ofScientific_btw 707 true 3 _ _ (Fp.rep32_of _ 2895 (-12) (by norm_num)) (Fp.rep32_of _ 181
      (-8) (by norm_num)) (by norm_num)
  have h3 : Fp.Btw (2 * 0.707) (2895 / 2048) (181 / 128) :=
    Fp.mul_btw _ _ h1 h2 (Fp.rep32_of _ 2895 (-11) (by norm_num)) (Fp.rep32_of _ 181 (-7)
      (by norm_num)) (by norm_num)
  exact h3

/-- The divisor `2 * Q` of the mid band, `Q = 1`. -/
theorem float_twoQ_peak :
    Fp.Btw ((2 : Fp) * 1) 2 2 := by
  have h1 : Fp.Btw (2 : Fp) 2 2 :=
    Fp.ofNat_btw 2 2 (by norm_num)
  have h2 : Fp.Btw (1 : Fp) 1 1 :=
    Fp.ofNat_btw 1 1 (by norm_num)
  have h3 : Fp.Btw (2 * 1) 2 2 :=
    Fp.mul_btw _ _ h1 h2 (Fp.rep32_of _ 1 1 (by norm_num)) (Fp.rep32_of _ 1 1 (by norm_num))
      (by norm_num)
  exact h3

/-- Bounds on `alpha` of the bass band for every finite sample rate from 8000. -/
theorem float_alpha_range_bass (sr : Fp) (hsr : Fp.Btw sr 8000 (2 ^ 128)) :
    Fp.Btw ((Fp.libm.sinf (Binary32.EQ3Band.designW0 Fp.libm sr 80)) / (2 * 0.707)) 0
      (1457 / 32768) := by
  have hw := float_designW0_range_bass sr hsr
  have h1 : Fp.Btw (Fp.libm.sinf (Binary32.EQ3Band.designW0 Fp.libm sr 80)) 0 (2059 / 32768) :=
    Fp.sinf_btw_nonneg _ hw (Fp.rep32_of _ 2059 (-15) (by norm_num)) (by norm_num)
  have h2 : Fp.Btw ((Fp.libm.sinf (Binary32.EQ3Band.designW0 Fp.libm sr 80)) / (2 * 0.707)) 0
      (1457 / 32768) :=
    Fp.div_btw _ _ h1 float_twoQ_shelf (Fp.rep32_of _ 0 0 (by norm_num)) (Fp.rep32_of _ 1457 (-15)
      (by norm_num)) (by norm_num)
  exact h2

/-- Bounds on `alpha` of the mid band for every finite sample rate from 8000. -/
theorem float_alpha_range_mid (sr : Fp) (hsr : Fp.Btw sr 8000 (2 ^ 128)) :
    Fp.Btw ((Fp.libm.sinf (Binary32.EQ3Band.designW0 Fp.libm sr 800)) / (2 * 1)) 0 (1287 / 4096)
      := by
  have hw := float_designW0_range_mid sr hsr
  have h1 : Fp.Btw (Fp.libm.sinf (Binary32.EQ3Band.designW0 Fp.libm sr 800)) 0 (1287 / 2048) :=
    Fp.sinf_btw_nonneg _ hw (Fp.rep32_of _ 1287 (-11) (by norm_num)) (by norm_num)
  have h2 : Fp.Btw ((Fp.libm.sinf (Binary32.EQ3Band.designW0 Fp.libm sr 800)) / (2 * 1)) 0
      (1287 / 4096) :=
    Fp.div_btw _ _ h1 float_twoQ_peak (Fp.rep32_of _ 0 0 (by norm_num)) (Fp.rep32_of _ 1287 (-12)
      (by norm_num)) (by norm_num)
  exact h2

/-- Bounds on `alpha` of the treble band for every finite sample rate from 8000; next to the
Nyquist rate it can be just below 0. -/
theorem float_alpha_range_treble (sr : Fp) (hsr : Fp.Btw sr 8000 (2 ^ 128)) :
    Fp.Btw ((Fp.libm.sinf (Binary32.EQ3Band.designW0 Fp.libm sr 4000)) / (2 * 0.707))
      (-1449 / 134217728) (1449 / 2048) := by
  have hw := float_designW0_range_treble sr hsr
  have h1 : Fp.Btw (Fp.libm.sinf (Binary32.EQ3Band.designW0 Fp.libm sr 4000)) (-1 / 65536) 1 :=
    Fp.sinf_btw_wide hw (by norm_num)
  have h2 : Fp.Btw ((Fp.libm.sinf (Binary32.EQ3Band.designW0 Fp.libm sr 4000)) / (2 * 0.707))
      (-1449 / 134217728) (1449 / 2048) :=
    Fp.div_btw _ _ h1 float_twoQ_shelf (Fp.rep32_of _ (-1449) (-27) (by norm_num)) (Fp.rep32_of _
      1449 (-11) (by norm_num)) (by norm_num)
  exact h2

/-- Bounds on `cosw0` of the bass band for every finite sample rate from 8000. -/
theorem float_cosw0_range_bass (sr : Fp) (hsr : Fp.Btw sr 8000 (2 ^ 128)) :
    Fp.Btw (Fp.libm.cosf (Binary32.EQ3Band.designW0 Fp.libm sr 80)) (4087 / 4096) 1 := by
  have hw := float_designW0_range_bass sr hsr
  have h1 : Fp.Btw (Fp.libm.cosf (Binary32.EQ3Band.designW0 Fp.libm sr 80)) (4087 / 4096) 1 :=
    Fp.cosf_btw _ _ hw (Fp.rep32_of _ 4087 (-12) (by norm_num)) (Fp.rep32_of _ 1 0 (by norm_num))
      (by norm_num)
  exact h1

/-- Bounds on `cosw0` of the treble band for every finite sample rate from 8000. -/
theorem float_cosw0_range_treble (sr : Fp) (hsr : Fp.Btw sr 8000 (2 ^ 128)) :
    Fp.Btw (Fp.libm.cosf (Binary32.EQ3Band.designW0 Fp.libm sr 4000)) (-1) 1 := by
  have hw := float_designW0_range_treble sr hsr
  have h1 : Fp.Btw (Fp.libm.cosf (Binary32.EQ3Band.designW0 Fp.libm sr 4000)) (-1) 1 :=
    Fp.cosf_btw_wide hw
  exact h1

/-- Bounds on the root of `A` of a shelf for every `pot` from 0 to 1. -/
theorem float_sqrtA_range15 (pot : Fp) (hpot : Fp.Btw pot 0 1) :
    Fp.Btw (Fp.libm.sqrtf (Binary32.EQ3Band.designA Fp.libm (Binary32.EQ3Band.PotToDb pot 15)))
      (2659 / 4096) (3155 / 2048) := by
  have hA := float_designA_range15 pot hpot
  have h1 : Fp.Btw (Fp.libm.sqrtf (Binary32.EQ3Band.designA Fp.libm
      (Binary32.EQ3Band.PotToDb pot 15))) (2659 / 4096) (3155 / 2048) :=
    Fp.sqrtf_btw _ _ hA (Fp.rep32_of _ 2659 (-12) (by norm_num)) (Fp.rep32_of _ 3155 (-11)
      (by norm_num)) (by norm_num)
  exact h1

/-- The divisor `a0` of `SetLowShelf` is positive and finite over the whole range of the bass
band. -/
theorem lowShelf_a0_range (A s al c : Fp) (hA : Fp.Btw A (1727 / 4096) (2429 / 1024))
    (hs : Fp.Btw s (2659 / 4096) (3155 / 2048)) (hal : Fp.Btw al 0 (1457 / 32768))
    (hc : Fp.Btw c (4087 / 4096) 1) :
    Fp.Btw (((A + 1) + ((A - 1) * c)) + ((2 * s) * al)) (3453 / 4096) (625 / 128) := by
  have h1 : Fp.Btw (1 : Fp) 1 1 :=
    Fp.ofNat_btw 1 1 (by norm_num)
  have h2 : Fp.Btw (2 : Fp) 2 2 :=
    Fp.ofNat_btw 2 2 (by norm_num)
  have h3 : Fp.Btw (A + 1) (2911 / 2048) (3453 / 1024) :=
    Fp.add_btw _ _ hA h1 (Fp.rep32_of _ 2911 (-11) (by norm_num)) (Fp.rep32_of _ 3453 (-10)
      (by norm_num)) (by norm_num)
  have h4 : Fp.Btw (A - 1) (-2369 / 4096) (1405 / 1024) :=
    Fp.sub_btw _ _ hA h1 (Fp.rep32_of _ (-2369) (-12) (by norm_num)) (Fp.rep32_of _ 1405 (-10)
      (by norm_num)) (by norm_num)
  have h5 : Fp.Btw ((A - 1) * c) (-2369 / 4096) (1405 / 1024) :=
    Fp.mul_btw _ _ h4 hc (Fp.rep32_of _ (-2369) (-12) (by norm_num)) (Fp.rep32_of _ 1405 (-10)
      (by norm_num)) (by norm_num)
  have h6 : Fp.Btw (2 * s) (2659 / 2048) (3155 / 1024) :=
    Fp.mul_btw _ _ h2 hs (Fp.rep32_of _ 2659 (-11) (by norm_num)) (Fp.rep32_of _ 3155 (-10)
      (by norm_num)) (by norm_num)
  have h7 : Fp.Btw ((2 * s) * al) 0 (2245 / 16384) :=
    Fp.mul_btw _ _ h6 hal (Fp.rep32_of _ 0 0 (by norm_num)) (Fp.rep32_of _ 2245 (-14)
      (by norm_num)) (by norm_num)
  have h8 : Fp.Btw ((A + 1) + ((A - 1) * c)) (3453 / 4096) (2429 / 512) :=
    Fp.add_btw _ _ h3 h5 (Fp.rep32_of _ 3453 (-12) (by norm_num)) (Fp.rep32_of _ 2429 (-9)
      (by norm_num)) (by norm_num)
  have h9 : Fp.Btw (((A + 1) + ((A - 1) * c)) + ((2 * s) * al)) (3453 / 4096) (625 / 128) :=
    Fp.add_btw _ _ h8 h7 (Fp.rep32_of _ 3453 (-12) (by norm_num)) (Fp.rep32_of _ 625 (-7)
      (by norm_num)) (by norm_num)
  exact h9

/-- The divisor `a0` of `SetPeak` is positive and finite over the whole range of the mid band. -/
theorem peak_a0_range (A al : Fp) (hA : Fp.Btw A (3989 / 8192) (2103 / 1024))
    (hal : Fp.Btw al 0 (1287 / 4096)) :
    Fp.Btw (1 + (al / A)) 1 (1685 / 1024) := by
  have h1 : Fp.Btw (1 : Fp) 1 1 :=
    Fp.ofNat_btw 1 1 (by norm_num)
  have h2 : Fp.Btw (al / A) 0 (661 / 1024) :=
    Fp.div_btw _ _ hal hA (Fp.rep32_of _ 0 0 (by norm_num)) (Fp.rep32_of _ 661 (-10)
      (by norm_num)) (by norm_num)
  have h3 : Fp.Btw (1 + (al / A)) 1 (1685 / 1024) :=
    Fp.add_btw _ _ h1 h2 (Fp.rep32_of _ 1 0 (by norm_num)) (Fp.rep32_of _ 1685 (-10)
      (by norm_num)) (by norm_num)
  exact h3

/-- The divisor `a0` of `SetHighShelf` is positive and finite over the whole range of the treble
band, the Nyquist rate included. -/
theorem highShelf_a0_range (A s al c : Fp) (hA : Fp.Btw A (1727 / 4096) (2429 / 1024))
    (hs : Fp.Btw s (2659 / 4096) (3155 / 2048)) (hal : Fp.Btw al (-1449 / 134217728) (1449 / 2048))
    (hc : Fp.Btw c (-1) 1) :
    Fp.Btw (((A + 1) - ((A - 1) * c)) + ((2 * s) * al)) (3229 / 65536) (1773 / 256) := by
  have h1 : Fp.Btw (1 : Fp) 1 1 :=
    Fp.ofNat_btw 1 1 (by norm_num)
  have h2 : Fp.Btw (2 : Fp) 2 2 :=
    Fp.ofNat_btw 2 2 (by norm_num)
  have h3 : Fp.Btw (A + 1) (2911 / 2048) (3453 / 1024) :=
    Fp.add_btw _ _ hA h1 (Fp.rep32_of _ 2911 (-11) (by norm_num)) (Fp.rep32_of _ 3453 (-10)
      (by norm_num)) (by norm_num)
  have h4 : Fp.Btw (A - 1) (-2369 / 4096) (1405 / 1024) :=
    Fp.sub_btw _ _ hA h1 (Fp.rep32_of _ (-2369) (-12) (by norm_num)) (Fp.rep32_of _ 1405 (-10)
      (by norm_num)) (by norm_num)
  have h5 : Fp.Btw ((A - 1) * c) (-1405 / 1024) (1405 / 1024) :=
    Fp.mul_btw _ _ h4 hc (Fp.rep32_of _ (-1405) (-10) (by norm_num)) (Fp.rep32_of _ 1405 (-10)
      (by norm_num)) (by norm_num)
  have h6 : Fp.Btw (2 * s) (2659 / 2048) (3155 / 1024) :=
    Fp.mul_btw _ _ h2 hs (Fp.rep32_of _ 2659 (-11) (by norm_num)) (Fp.rep32_of _ 3155 (-10)
      (by norm_num)) (by norm_num)
  have h7 : Fp.Btw ((2 * s) * al) (-2233 / 67108864) (2233 / 1024) :=
    Fp.mul_btw _ _ h6 hal (Fp.rep32_of _ (-2233) (-26) (by norm_num)) (Fp.rep32_of _ 2233 (-10)
      (by norm_num)) (by norm_num)
  have h8 : Fp.Btw ((A + 1) - ((A - 1) * c)) (101 / 2048) (2429 / 512) :=
    Fp.sub_btw _ _ h3 h5 (Fp.rep32_of _ 101 (-11) (by norm_num)) (Fp.rep32_of _ 2429 (-9)
      (by norm_num)) (by norm_num)
  have h9 : Fp.Btw (((A + 1) - ((A - 1) * c)) + ((2 * s) * al)) (3229 / 65536) (1773 / 256) :=
    Fp.add_btw _ _ h8 h7 (Fp.rep32_of _ 3229 (-16) (by norm_num)) (Fp.rep32_of _ 1773 (-8)
      (by norm_num)) (by norm_num)
  exact h9

end Float32Range

section Float32Locals

/-- In binary32 the section `SetLowShelf` leaves is `SetCoeffs` of its locals, each
divided by `a0`. -/
theorem SetLowShelf32_eq_locals (L : Libm Fp) (e : EQ3Band Fp) (f : MyBiquad Fp)
    (freq Q dbGain : Fp) :
    Binary32.EQ3Band.SetLowShelf L e f freq Q dbGain =
      Binary32.MyBiquad.SetCoeffs f
        ((Binary32.EQ3Band.lowShelfLocals L e.sr_ freq Q dbGain).b0 /
          (Binary32.EQ3Band.lowShelfLocals L e.sr_ freq Q dbGain).a0)
        ((Binary32.EQ3Band.lowShelfLocals L e.sr_ freq Q dbGain).b1 /
          (Binary32.EQ3Band.lowShelfLocals L e.sr_ freq Q dbGain).a0)
        ((Binary32.EQ3Band.lowShelfLocals L e.sr_ freq Q dbGain).b2 /
          (Binary32.EQ3Band.lowShelfLocals L e.sr_ freq Q dbGain).a0)
        ((Binary32.EQ3Band.lowShelfLocals L e.sr_ freq Q dbGain).a1 /
          (Binary32.EQ3Band.lowShelfLocals L e.sr_ freq Q dbGain).a0)
        ((Binary32.EQ3Band.lowShelfLocals L e.sr_ freq Q dbGain).a2 /
          (Binary32.EQ3Band.lowShelfLocals L e.sr_ freq Q dbGain).a0) :=
  rfl

/-- In binary32 the section `SetHighShelf` leaves is `SetCoeffs` of its locals, each
divided by `a0`. -/
theorem SetHighShelf32_eq_locals (L : Libm Fp) (e : EQ3Band Fp) (f : MyBiquad Fp)
    (freq Q dbGain : Fp) :
    Binary32.EQ3Band.SetHighShelf L e f freq Q dbGain =
      Binary32.MyBiquad.SetCoeffs f
        ((Binary32.EQ3Band.highShelfLocals L e.sr_ freq Q dbGain).b0 /
          (Binary32.EQ3Band.highShelfLocals L e.sr_ freq Q dbGain).a0)
        ((Binary32.EQ3Band.highShelfLocals L e.sr_ freq Q dbGain).b1 /
          (Binary32.EQ3Band.highShelfLocals L e.sr_ freq Q dbGain).a0)
        ((Binary32.EQ3Band.highShelfLocals L e.sr_ freq Q dbGain).b2 /
          (Binary32.EQ3Band.highShelfLocals L e.sr_ freq Q dbGain).a0)
        ((Binary32.EQ3Band.highShelfLocals L e.sr_ freq Q dbGain).a1 /
          (Binary32.EQ3Band.highShelfLocals L e.sr_ freq Q dbGain).a0)
        ((Binary32.EQ3Band.highShelfLocals L e.sr_ freq Q dbGain).a2 /
          (Binary32.EQ3Band.highShelfLocals L e.sr_ freq Q dbGain).a0) :=
  rfl

/-- In binary32 the section `SetPeak` leaves is `SetCoeffs` of its locals, each divided by
`a0`. -/
theorem SetPeak32_eq_locals (L : Libm Fp) (e : EQ3Band Fp) (f : MyBiquad Fp)
    (freq Q dbGain : Fp) :
    Binary32.EQ3Band.SetPeak L e f freq Q dbGain =
      Binary32.MyBiquad.SetCoeffs f
        ((Binary32.EQ3Band.peakLocals L e.sr_ freq Q dbGain).b0 /
          (Binary32.EQ3Band.peakLocals L e.sr_ freq Q dbGain).a0)
        ((Binary32.EQ3Band.peakLocals L e.sr_ freq Q dbGain).b1 /
          (Binary32.EQ3Band.peakLocals L e.sr_ freq Q dbGain).a0)
        ((Binary32.EQ3Band.peakLocals L e.sr_ freq Q dbGain).b2 /
          (Binary32.EQ3Band.peakLocals L e.sr_ freq Q dbGain).a0)
        ((Binary32.EQ3Band.peakLocals L e.sr_ freq Q dbGain).a1 /
          (Binary32.EQ3Band.peakLocals L e.sr_ freq Q dbGain).a0)
        ((Binary32.EQ3Band.peakLocals L e.sr_ freq Q dbGain).a2 /
          (Binary32.EQ3Band.peakLocals L e.sr_ freq Q dbGain).a0) :=
  rfl

end Float32Locals

section Float32Tame

/-- After `Init(48000)`, `SetBass(0.5)` and `SetMid(0)` the call `Process(1)` meets no
infinity and no NaN: the coefficients are finite and the sample leaves the bass section
near 1 and the mid section between 1 and 5/4. -/
theorem tame_bass_mid_one :
    Binary32.EQ3Band.Tame Fp.libm (Binary32.EQ3Band.Init Binary32.EQ3Band.fresh 48000)
      [Call.SetBass (0.5 : Fp), Call.SetMid 0, Call.Process 1] := by
  obtain ⟨hb0, hb1, hb2, hb3, hb4⟩ := configured_bass
  obtain ⟨hm0, hm1, hm2, hm3, hm4⟩ := configured_mid
  have hx : Fp.Btw (1 : Fp) 1 1 := Fp.ofNat_btw 1 1 (by norm_num)
  have hu : Fp.Btw (Binary32.MyBiquad.Process
      (Binary32.EQ3Band.configured Fp.libm 48000 0.5 0 1).bass 1).1
      (2047 / 2048) (2049 / 2048) :=
    process_first_btw _ _ _ _ rfl rfl hb1 hb2 hb3 hb4
      (Fp.rep32_of _ 2047 (-11) (by norm_num)) (Fp.rep32_of _ 2049 (-11) (by norm_num))
      (Fp.mul_btw _ _ hb0 hx (Fp.rep32_of _ 2047 (-11) (by norm_num))
        (Fp.rep32_of _ 2049 (-11) (by norm_num)) (by norm_num))
  have hv : Fp.Btw (Binary32.MyBiquad.Process
      (Binary32.EQ3Band.configured Fp.libm 48000 0.5 0 1).mid
      (Binary32.MyBiquad.Process
        (Binary32.EQ3Band.configured Fp.libm 48000 0.5 0 1).bass 1).1).1 1 (5 / 4) :=
    process_first_btw _ _ _ _ rfl rfl hm1 hm2 hm3 hm4
      (Fp.rep32_of _ 1 0 (by norm_num)) (Fp.rep32_of _ 5 (-2) (by norm_num))
      (Fp.mul_btw _ _ hm0 hu (Fp.rep32_of _ 1 0 (by norm_num))
        (Fp.rep32_of _ 5 (-2) (by norm_num)) (by norm_num))
  exact ⟨rfl, ⟨hb0.1, hb1, hb2, hb3, hb4⟩, ⟨hm0.1, hm1, hm2, hm3, hm4⟩,
    ⟨rfl, rfl, rfl, rfl, rfl⟩, hu.1, hv.1, trivial⟩

end Float32Tame

/-! ## Claims -/

section Claims

variable {α : Type} [Field α]

/-- C1: `MyBiquad.Process` returns `y = ff*x + (c1 - d1)*z1 + (c2 - d2)*z2`, where the
coefficients `ff, c1, c2, d1, d2` are the stored `a0, a1, a2, b1, b2`; afterwards `z2` is
the old `z1`, `z1` is `y`, and the five coefficients are unchanged. -/
theorem C1_process_recurrence (f : MyBiquad α) (x : α) :
    (f.Process x).1 = f.a0 * x + (f.a1 - f.b1) * f.z1 + (f.a2 - f.b2) * f.z2 ∧
    (f.Process x).2.z2 = f.z1 ∧
    (f.Process x).2.z1 = (f.Process x).1 ∧
    (f.Process x).2.a0 = f.a0 ∧ (f.Process x).2.a1 = f.a1 ∧ (f.Process x).2.a2 = f.a2 ∧
    (f.Process x).2.b1 = f.b1 ∧ (f.Process x).2.b2 = f.b2 := by
  refine ⟨?_, rfl, rfl, rfl, rfl, rfl, rfl, rfl⟩
  simp only [MyBiquad.Process]
  ring

/-- C2: `EQ3Band.Process` steps the bass section on `x`, the mid section on the bass
output and the treble section on the mid output, returns the treble output, and stores
in each section the state left by the `Process` call of that section; nothing else
changes. -/
theorem C2_process_cascade (e : EQ3Band α) (x : α) :
    (e.Process x).1 = (e.treble.Process (e.mid.Process (e.bass.Process x).1).1).1 ∧
    (e.Process x).2.bass = (e.bass.Process x).2 ∧
    (e.Process x).2.mid = (e.mid.Process (e.bass.Process x).1).2 ∧
    (e.Process x).2.treble = (e.treble.Process (e.mid.Process (e.bass.Process x).1).1).2 ∧
    (e.Process x).2 =
      { e with
        bass := (e.bass.Process x).2
        mid := (e.mid.Process (e.bass.Process x).1).2
        treble := (e.treble.Process (e.mid.Process (e.bass.Process x).1).1).2 } :=
  ⟨rfl, rfl, rfl, rfl, rfl⟩

/-- C3: after `Init(sr)`, `SetBass(pot)` installs into the bass section exactly the
normalized RBJ low-shelf coefficients of the specification, computed with sample rate
`sr`, centre frequency 80, Q 0.707 and gain `(0.5 - pot)*2*15` decibels. -/
theorem C3_setBass_lowShelf (L : Libm α) (e : EQ3Band α) (sr pot : α) :
    ((e.Init sr).SetBass L pot).bass.coeffs =
      Spec.lowShelf L sr 80 0.707 ((0.5 - pot) * 2 * 15) := by
  rfl

/-- C4: after `Init(sr)`, `SetMid(pot)` installs into the mid section exactly the
normalized RBJ peaking coefficients of the specification, computed with sample rate `sr`,
centre frequency 800, Q 1.0 and gain `(0.5 - pot)*2*12` decibels. -/
theorem C4_setMid_peaking (L : Libm α) (e : EQ3Band α) (sr pot : α) :
    ((e.Init sr).SetMid L pot).mid.coeffs =
      Spec.peaking L sr 800 1 ((0.5 - pot) * 2 * 12) := by
  rfl

/-- C5: after `Init(sr)`, `SetTreble(pot)` installs into the treble section exactly the
normalized RBJ high-shelf coefficients of the specification, computed with sample rate
`sr`, centre frequency 4000, Q 0.707 and gain `(0.5 - pot)*2*15` decibels. -/
theorem C5_setTreble_highShelf (L : Libm α) (e : EQ3Band α) (sr pot : α) :
    ((e.Init sr).SetTreble L pot).treble.coeffs =
      Spec.highShelf L sr 4000 0.707 ((0.5 - pot) * 2 * 15) := by
  rfl

/-- In exact arithmetic, that is over every ordered field, for every `maxDb > 0` the
mapping `PotToDb(pot, maxDb)` is strictly decreasing in `pot`, and takes the values
`+maxDb`, `-maxDb` and 0 at `pot = 0`, 1 and 0.5. -/
theorem potToDb_strictAnti_exact {K : Type} [LinearOrderedField K] (maxDb : K)
    (h : 0 < maxDb) :
    (∀ pot1 pot2 : K, pot1 < pot2 →
      EQ3Band.PotToDb pot2 maxDb < EQ3Band.PotToDb pot1 maxDb) ∧
    EQ3Band.PotToDb 0 maxDb = maxDb ∧
    EQ3Band.PotToDb 1 maxDb = -maxDb ∧
    EQ3Band.PotToDb 0.5 maxDb = 0 := by
  refine ⟨?_, ?_, ?_, ?_⟩
  · intro pot1 pot2 h12
    unfold EQ3Band.PotToDb
    have h2 : (0.5 - pot2) * 2 < (0.5 - pot1) * 2 := by linarith
    exact mul_lt_mul_of_pos_right h2 h
  · unfold EQ3Band.PotToDb
    norm_num
  · unfold EQ3Band.PotToDb
    norm_num
  · unfold EQ3Band.PotToDb
    norm_num

/-- C7 (flatness): after `Init(48000)`, `SetBass(0.5)`, `SetMid(0.5)`, `SetTreble(0.5)`,
whatever the six delay registers hold, every sample `EQ3Band.Process` returns on any
input stream equals the sample it was given (gain exactly 0 dB in exact arithmetic). -/
theorem C7_flat_at_half (e : EQ3Band ℝ) (zb1 zb2 zm1 zm2 zt1 zt2 : ℝ) (x : ℕ → ℝ)
    (n : ℕ) :
    (((((e.Init 48000).SetBass realLibm 0.5).SetMid realLibm 0.5).SetTreble
      realLibm 0.5).withDelays zb1 zb2 zm1 zm2 zt1 zt2).output x n = x n := by
  apply EQ3Band.flat_output
  have hb := SetLowShelf_zero_unity (e.Init 48000) (e.Init 48000).bass 80 0.707
    (by
      show 0 < Real.sin (EQ3Band.designW0 realLibm 48000 80)
      rw [designW0_bass]
      exact sin_pi_div_pos 300 (by norm_num))
    (by norm_num)
  have hm := SetPeak_zero_unity ((e.Init 48000).SetBass realLibm 0.5)
    ((e.Init 48000).SetBass realLibm 0.5).mid 800 1
    (by
      show 0 < Real.sin (EQ3Band.designW0 realLibm 48000 800)
      rw [designW0_mid]
      exact sin_pi_div_pos 30 (by norm_num))
    (by norm_num)
  have ht := SetHighShelf_zero_unity
    (((e.Init 48000).SetBass realLibm 0.5).SetMid realLibm 0.5)
    (((e.Init 48000).SetBass realLibm 0.5).SetMid realLibm 0.5).treble 4000 0.707
    (by
      show 0 < Real.sin (EQ3Band.designW0 realLibm 48000 4000)
      rw [designW0_treble]
      exact sin_pi_div_pos 6 (by norm_num))
    (by norm_num)
  refine ⟨?_, ?_, ?_⟩
  · have := hb
    simpa only [EQ3Band.withDelays, EQ3Band.SetTreble, EQ3Band.SetMid, EQ3Band.SetBass,
      PotToDb_half, MyBiquad.Unity] using this
  · have := hm
    simpa only [EQ3Band.withDelays, EQ3Band.SetTreble, EQ3Band.SetMid,
      PotToDb_half, MyBiquad.Unity] using this
  · have := ht
    simpa only [EQ3Band.withDelays, EQ3Band.SetTreble,
      PotToDb_half, MyBiquad.Unity] using this

/-- C8 (the code at the failing input): after `Init(48000)` and `SetTreble(0)`, a 15 dB
treble boost, the treble section started from zeroed delay registers and fed the unit
impulse returns at step `n` a sample of size at least `2 ^ n`; its impulse response does
not converge to 0, and `z^2 - (c1-d1)*z - (c2-d2)` has a real root `z ≤ -1`. -/
theorem C8_treble_impulse_diverges (e : EQ3Band ℝ) :
    (∀ n : ℕ, (2 : ℝ) ^ n ≤
      |((e.Init 48000).SetTreble realLibm 0).treble.output unitImpulse n|) ∧
    ¬ Filter.Tendsto
      (fun n => ((e.Init 48000).SetTreble realLibm 0).treble.output unitImpulse n)
      Filter.atTop (nhds 0) ∧
    ∃ z : ℝ, z ≤ -1 ∧
      z ^ 2 - (((e.Init 48000).SetTreble realLibm 0).treble.a1 -
          ((e.Init 48000).SetTreble realLibm 0).treble.b1) * z -
        (((e.Init 48000).SetTreble realLibm 0).treble.a2 -
          ((e.Init 48000).SetTreble realLibm 0).treble.b2) = 0 := by
  obtain ⟨h0, hp, hq, hz1, hz2⟩ := treble_boost_facts e
  have h := MyBiquad.impulse_output_ge h0 hp hq hz1 hz2
  exact ⟨h, not_tendsto_zero_of_pow_le _ h, exists_root_le_neg_one _ _ hp hq⟩

/-- C9 (counterexample): the setters do not clamp.  After `Init(48000)`, `SetMid(2)`
installs coefficients different from those `SetMid` installs for the clamped value
`clampPot 2 = 1`, and the gain it hands to the design, -36 dB, lies below -12 dB. -/
theorem C9_setMid_not_clamped :
    (((EQ3Band.fresh : EQ3Band ℝ).Init 48000).SetMid realLibm 2).mid.coeffs ≠
      (((EQ3Band.fresh : EQ3Band ℝ).Init 48000).SetMid realLibm (Spec.clampPot 2)).mid.coeffs ∧
    EQ3Band.PotToDb (2 : ℝ) 12 < -12 := by
  constructor
  · intro h
    have hff := congrArg FilterCoefficients.ff h
    have hclamp : Spec.clampPot (2 : ℝ) = 1 := by
      unfold Spec.clampPot
      norm_num
    have hg2 : EQ3Band.PotToDb (2 : ℝ) 12 / 40 = -(9 / 10) := by
      unfold EQ3Band.PotToDb
      norm_num
    have hg1 : EQ3Band.PotToDb (1 : ℝ) 12 / 40 = -(3 / 10) := by
      unfold EQ3Band.PotToDb
      norm_num
    simp only [MyBiquad.coeffs, EQ3Band.SetMid, EQ3Band.Init, EQ3Band.SetPeak,
      MyBiquad.SetCoeffs, realLibm_powf, realLibm_sinf, designW0_mid, hclamp, hg2,
      hg1] at hff
    have hα : 0 < Real.sin (Real.pi / 30) / (2 * 1) := by
      have := sin_pi_div_pos 30 (by norm_num)
      positivity
    have hA : (10 : ℝ) ^ (-(9 / 10 : ℝ)) < (10 : ℝ) ^ (-(3 / 10 : ℝ)) :=
      (Real.rpow_lt_rpow_left_iff (by norm_num)).mpr (by norm_num)
    have hA1 : (0 : ℝ) < (10 : ℝ) ^ (-(9 / 10 : ℝ)) := by positivity
    generalize Real.sin (Real.pi / 30) / (2 * 1) = t at hα hff
    generalize (10 : ℝ) ^ (-(9 / 10 : ℝ)) = A1 at hA hA1 hff
    generalize (10 : ℝ) ^ (-(3 / 10 : ℝ)) = A2 at hA hff
    have hA2 : 0 < A2 := lt_trans hA1 hA
    have hu : t / A2 < t / A1 := div_lt_div_of_pos_left hα hA1 hA
    have hu2 : 0 < t / A2 := div_pos hα hA2
    have hn : 1 + t * A1 < 1 + t * A2 := by nlinarith
    have hlt : (1 + t * A1) / (1 + t / A1) < (1 + t * A2) / (1 + t / A2) :=
      div_lt_div₀ hn (by linarith) (by nlinarith) (by linarith)
    exact absurd hff (ne_of_lt hlt)
  · unfold EQ3Band.PotToDb
    norm_num

/-- C9 (amended): for every `pot` in `[0, 1]` each of `SetBass`, `SetMid`, `SetTreble`
hands to its coefficient design the gain `PotToDb(pot, maxDb)` (`maxDb` = 15, 12, 15),
that gain lies in `[-maxDb, +maxDb]`, and the equalizer it leaves is the one it leaves
for `pot` clamped to `[0, 1]`. -/
theorem C9_setters_in_range (L : Libm ℝ) (e : EQ3Band ℝ) (pot : ℝ) (h0 : 0 ≤ pot)
    (h1 : pot ≤ 1) :
    (e.SetBass L pot =
        { e with
          bass := EQ3Band.SetLowShelf L e e.bass e.bass_freq_ e.bass_q_
            (EQ3Band.PotToDb pot 15) } ∧
      (-15 ≤ EQ3Band.PotToDb pot 15 ∧ EQ3Band.PotToDb pot 15 ≤ 15) ∧
      e.SetBass L pot = e.SetBass L (Spec.clampPot pot)) ∧
    (e.SetMid L pot =
        { e with
          mid := EQ3Band.SetPeak L e e.mid e.mid_freq_ e.mid_q_
            (EQ3Band.PotToDb pot 12) } ∧
      (-12 ≤ EQ3Band.PotToDb pot 12 ∧ EQ3Band.PotToDb pot 12 ≤ 12) ∧
      e.SetMid L pot = e.SetMid L (Spec.clampPot pot)) ∧
    (e.SetTreble L pot =
        { e with
          treble := EQ3Band.SetHighShelf L e e.treble e.treble_freq_ e.treble_q_
            (EQ3Band.PotToDb pot 15) } ∧
      (-15 ≤ EQ3Band.PotToDb pot 15 ∧ EQ3Band.PotToDb pot 15 ≤ 15) ∧
      e.SetTreble L pot = e.SetTreble L (Spec.clampPot pot)) := by
  have hc : Spec.clampPot pot = pot := by
    unfold Spec.clampPot
    rw [min_eq_right h1, max_eq_right h0]
  have h15 : -15 ≤ EQ3Band.PotToDb pot 15 ∧ EQ3Band.PotToDb pot 15 ≤ 15 := by
    unfold EQ3Band.PotToDb
    constructor <;> norm_num <;> linarith
  have h12 : -12 ≤ EQ3Band.PotToDb pot 12 ∧ EQ3Band.PotToDb pot 12 ≤ 12 := by
    unfold EQ3Band.PotToDb
    constructor <;> norm_num <;> linarith
  rw [hc]
  exact ⟨⟨rfl, h15, rfl⟩, ⟨rfl, h12, rfl⟩, ⟨rfl, h15, rfl⟩⟩

/-- Witness of the amended C9 at `pot = 1/4` after `Init(48000)`. -/
theorem C9_setters_in_range_witness :
    (0 : ℝ) ≤ 1 / 4 ∧ (1 / 4 : ℝ) ≤ 1 ∧
    ((((EQ3Band.fresh : EQ3Band ℝ).Init 48000).SetBass realLibm (1 / 4) =
        { (EQ3Band.fresh : EQ3Band ℝ).Init 48000 with
          bass := EQ3Band.SetLowShelf realLibm ((EQ3Band.fresh : EQ3Band ℝ).Init 48000)
            ((EQ3Band.fresh : EQ3Band ℝ).Init 48000).bass
            ((EQ3Band.fresh : EQ3Band ℝ).Init 48000).bass_freq_
            ((EQ3Band.fresh : EQ3Band ℝ).Init 48000).bass_q_
            (EQ3Band.PotToDb (1 / 4) 15) } ∧
      (-15 ≤ EQ3Band.PotToDb (1 / 4 : ℝ) 15 ∧ EQ3Band.PotToDb (1 / 4 : ℝ) 15 ≤ 15) ∧
      ((EQ3Band.fresh : EQ3Band ℝ).Init 48000).SetBass realLibm (1 / 4) =
        ((EQ3Band.fresh : EQ3Band ℝ).Init 48000).SetBass realLibm
          (Spec.clampPot (1 / 4))) ∧
    (((EQ3Band.fresh : EQ3Band ℝ).Init 48000).SetMid realLibm (1 / 4) =
        { (EQ3Band.fresh : EQ3Band ℝ).Init 48000 with
          mid := EQ3Band.SetPeak realLibm ((EQ3Band.fresh : EQ3Band ℝ).Init 48000)
            ((EQ3Band.fresh : EQ3Band ℝ).Init 48000).mid
            ((EQ3Band.fresh : EQ3Band ℝ).Init 48000).mid_freq_
            ((EQ3Band.fresh : EQ3Band ℝ).Init 48000).mid_q_
            (EQ3Band.PotToDb (1 / 4) 12) } ∧
      (-12 ≤ EQ3Band.PotToDb (1 / 4 : ℝ) 12 ∧ EQ3Band.PotToDb (1 / 4 : ℝ) 12 ≤ 12) ∧
      ((EQ3Band.fresh : EQ3Band ℝ).Init 48000).SetMid realLibm (1 / 4) =
        ((EQ3Band.fresh : EQ3Band ℝ).Init 48000).SetMid realLibm
          (Spec.clampPot (1 / 4))) ∧
    (((EQ3Band.fresh : EQ3Band ℝ).Init 48000).SetTreble realLibm (1 / 4) =
        { (EQ3Band.fresh : EQ3Band ℝ).Init 48000 with
          treble := EQ3Band.SetHighShelf realLibm
            ((EQ3Band.fresh : EQ3Band ℝ).Init 48000)
            ((EQ3Band.fresh : EQ3Band ℝ).Init 48000).treble
            ((EQ3Band.fresh : EQ3Band ℝ).Init 48000).treble_freq_
            ((EQ3Band.fresh : EQ3Band ℝ).Init 48000).treble_q_
            (EQ3Band.PotToDb (1 / 4) 15) } ∧
      (-15 ≤ EQ3Band.PotToDb (1 / 4 : ℝ) 15 ∧ EQ3Band.PotToDb (1 / 4 : ℝ) 15 ≤ 15) ∧
      ((EQ3Band.fresh : EQ3Band ℝ).Init 48000).SetTreble realLibm (1 / 4) =
        ((EQ3Band.fresh : EQ3Band ℝ).Init 48000).SetTreble realLibm
          (Spec.clampPot (1 / 4)))) :=
  ⟨by norm_num, by norm_num,
    C9_setters_in_range realLibm ((EQ3Band.fresh : EQ3Band ℝ).Init 48000) (1 / 4)
      (by norm_num) (by norm_num)⟩

/-- C11: `EQ3Band.Init(sr)` stores `sr`, sets the band descriptors to (80, 0.707),
(800, 1.0), (4000, 0.707), zeroes the six delay registers and leaves the fifteen stored
coefficients as they were; `MyBiquad.Init` zeroes `z1`, `z2` and keeps the coefficients. -/
theorem C11_init_effect (e : EQ3Band α) (sr : α) :
    (e.Init sr).sr_ = sr ∧
    ((e.Init sr).bass_freq_ = 80 ∧ (e.Init sr).bass_q_ = 0.707) ∧
    ((e.Init sr).mid_freq_ = 800 ∧ (e.Init sr).mid_q_ = 1) ∧
    ((e.Init sr).treble_freq_ = 4000 ∧ (e.Init sr).treble_q_ = 0.707) ∧
    ((e.Init sr).bass.z1 = 0 ∧ (e.Init sr).bass.z2 = 0) ∧
    ((e.Init sr).mid.z1 = 0 ∧ (e.Init sr).mid.z2 = 0) ∧
    ((e.Init sr).treble.z1 = 0 ∧ (e.Init sr).treble.z2 = 0) ∧
    (e.Init sr).bass.coeffs = e.bass.coeffs ∧
    (e.Init sr).mid.coeffs = e.mid.coeffs ∧
    (e.Init sr).treble.coeffs = e.treble.coeffs ∧
    ∀ f : MyBiquad α, f.Init.z1 = 0 ∧ f.Init.z2 = 0 ∧ f.Init.coeffs = f.coeffs :=
  ⟨rfl, ⟨rfl, rfl⟩, ⟨rfl, rfl⟩, ⟨rfl, rfl⟩, ⟨rfl, rfl⟩, ⟨rfl, rfl⟩, ⟨rfl, rfl⟩, rfl, rfl,
    rfl, fun _ => ⟨rfl, rfl, rfl⟩⟩

/-- C12: each of `SetBass`, `SetMid`, `SetTreble` leaves the equalizer as it was except
for the five coefficients of its own section (the delay registers of all three sections,
the other two sections, the sample rate and the band descriptors are kept), and
`MyBiquad.SetCoeffs` stores exactly the five given coefficients and keeps `z1`, `z2`. -/
theorem C12_setters_frame (L : Libm α) (e : EQ3Band α) (pot : α) :
    e.SetBass L pot =
      { e with bass := { (e.SetBass L pot).bass with z1 := e.bass.z1, z2 := e.bass.z2 } } ∧
    e.SetMid L pot =
      { e with mid := { (e.SetMid L pot).mid with z1 := e.mid.z1, z2 := e.mid.z2 } } ∧
    e.SetTreble L pot =
      { e with
        treble := { (e.SetTreble L pot).treble with
          z1 := e.treble.z1, z2 := e.treble.z2 } } ∧
    ∀ (f : MyBiquad α) (c0 c1 c2 d1 d2 : α),
      (f.SetCoeffs c0 c1 c2 d1 d2).coeffs = ⟨c0, c1, c2, d1, d2⟩ ∧
      (f.SetCoeffs c0 c1 c2 d1 d2).z1 = f.z1 ∧ (f.SetCoeffs c0 c1 c2 d1 d2).z2 = f.z2 :=
  ⟨rfl, rfl, rfl, fun _ _ _ _ _ _ => ⟨rfl, rfl, rfl⟩⟩

/-- C13: the zero-initialised equalizer after `Init(sr)` and no setter call mutes its
input: every sample `Process` returns is 0, and after any number of samples all fifteen
coefficients and all six delay registers are still 0. -/
theorem C13_muted_before_setters (sr : α) (x : ℕ → α) (n : ℕ) :
    ((EQ3Band.fresh : EQ3Band α).Init sr).output x n = 0 ∧
    (((EQ3Band.fresh : EQ3Band α).Init sr).stateAfter x n).bass = MyBiquad.fresh ∧
    (((EQ3Band.fresh : EQ3Band α).Init sr).stateAfter x n).mid = MyBiquad.fresh ∧
    (((EQ3Band.fresh : EQ3Band α).Init sr).stateAfter x n).treble = MyBiquad.fresh := by
  obtain ⟨hb, hm, ht⟩ := EQ3Band.init_fresh_sections sr
  have hs := EQ3Band.stateAfter_all_fresh _ hb hm ht x n
  refine ⟨?_, ?_, ?_, ?_⟩
  · show ((((EQ3Band.fresh : EQ3Band α).Init sr).stateAfter x n).Process (x n)).1 = 0
    rw [hs, EQ3Band.process_all_fresh _ hb hm ht]
  · rw [hs, hb]
  · rw [hs, hm]
  · rw [hs, ht]

/-- C14: calling `SetBass(pot)` twice in a row leaves the same equalizer state as calling
it once, and likewise for `SetMid` and `SetTreble`. -/
theorem C14_setters_idempotent (L : Libm α) (e : EQ3Band α) (pot : α) :
    (e.SetBass L pot).SetBass L pot = e.SetBass L pot ∧
    (e.SetMid L pot).SetMid L pot = e.SetMid L pot ∧
    (e.SetTreble L pot).SetTreble L pot = e.SetTreble L pot :=
  ⟨rfl, rfl, rfl⟩

/-- C17: `MyBiquad.Process` is not the canonical direct-form section with the same
coefficients.  In every field, for `(ff, c1, c2, d1, d2) = (2, 1, 0, 0, 0)` and the unit
impulse, both started from zero history, the second output sample is 2 for `MyBiquad` and
1 for the canonical section; and the delay pair of `MyBiquad` only ever receives the
output just computed and the previous `z1`, never an input. -/
theorem C17_not_canonical_biquad :
    (∃ (c : FilterCoefficients α) (x : ℕ → α) (n : ℕ),
      ((MyBiquad.fresh : MyBiquad α).SetCoeffs c.ff c.c1 c.c2 c.d1 c.d2).output x n ≠
        Spec.directFormOutput c x n) ∧
    ∀ (f : MyBiquad α) (x : α),
      (f.Process x).2.z1 = (f.Process x).1 ∧ (f.Process x).2.z2 = f.z1 := by
  refine ⟨⟨⟨2, 1, 0, 0, 0⟩, unitImpulse, 1, ?_⟩, fun _ _ => ⟨rfl, rfl⟩⟩
  have h1 : ((MyBiquad.fresh : MyBiquad α).SetCoeffs 2 1 0 0 0).output unitImpulse 1 = 2 := by
    simp [MyBiquad.output, MyBiquad.stateAfter, MyBiquad.Process, MyBiquad.SetCoeffs,
      MyBiquad.fresh, unitImpulse]
  have h2 : Spec.directFormOutput (⟨2, 1, 0, 0, 0⟩ : FilterCoefficients α) unitImpulse 1
      = 1 := by
    simp [Spec.directFormOutput, Spec.directFormState, Spec.directFormStep, unitImpulse]
  show ((MyBiquad.fresh : MyBiquad α).SetCoeffs 2 1 0 0 0).output unitImpulse 1 ≠
    Spec.directFormOutput (⟨2, 1, 0, 0, 0⟩ : FilterCoefficients α) unitImpulse 1
  rw [h1, h2]
  intro h
  have h3 : (1 : α) + 1 = 1 + 0 := by rw [one_add_one_eq_two, add_zero]; exact h
  exact (one_ne_zero : (1 : α) ≠ 0) (add_left_cancel h3)

/-- In exact arithmetic, that is over every field and so without overflow, infinity or
NaN, on the zero-initialised equalizer after `Init(sr)`, for any sequence of setter and
`Process` calls in which at least one of `SetBass`, `SetMid`, `SetTreble` never occurs,
every sample a `Process` call returns is 0. -/
theorem EQ3Band.run_muted_exact (L : Libm α) (sr : α) (cs : List (Call α))
    (h : (∀ p, Call.SetBass p ∉ cs) ∨ (∀ p, Call.SetMid p ∉ cs) ∨
      (∀ p, Call.SetTreble p ∉ cs)) :
    ∀ y ∈ (EQ3Band.run L ((EQ3Band.fresh : EQ3Band α).Init sr) cs).2, y = 0 := by
  rcases h with h | h | h
  · exact EQ3Band.run_bass_unset L cs h _ rfl rfl rfl rfl rfl
  · exact EQ3Band.run_mid_unset L cs h _ rfl rfl rfl
  · exact EQ3Band.run_treble_unset L cs h _ rfl

/-- In exact real arithmetic, where `powf` neither underflows nor overflows, for every
sample rate `sr > 8000` and every real `pot`, after `Init(sr)` the divisor `a0` that
`SetLowShelf`, `SetPeak` and `SetHighShelf` compute is strictly positive, and so are the
other divisors: `sr`, `2*Q` of each band and the `A` that `SetPeak` divides `alpha`
by. -/
theorem divisors_positive_exact (e : EQ3Band ℝ) (sr pot : ℝ) (hsr : 8000 < sr) :
    0 < (EQ3Band.lowShelfLocals realLibm (e.Init sr).sr_ (e.Init sr).bass_freq_
      (e.Init sr).bass_q_ (EQ3Band.PotToDb pot 15)).a0 ∧
    0 < (EQ3Band.peakLocals realLibm (e.Init sr).sr_ (e.Init sr).mid_freq_
      (e.Init sr).mid_q_ (EQ3Band.PotToDb pot 12)).a0 ∧
    0 < (EQ3Band.highShelfLocals realLibm (e.Init sr).sr_ (e.Init sr).treble_freq_
      (e.Init sr).treble_q_ (EQ3Band.PotToDb pot 15)).a0 ∧
    0 < (e.Init sr).sr_ ∧
    0 < 2 * (e.Init sr).bass_q_ ∧ 0 < 2 * (e.Init sr).mid_q_ ∧
    0 < 2 * (e.Init sr).treble_q_ ∧
    0 < (EQ3Band.peakLocals realLibm (e.Init sr).sr_ (e.Init sr).mid_freq_
      (e.Init sr).mid_q_ (EQ3Band.PotToDb pot 12)).A := by
  have hA : ∀ g : ℝ, 0 < (10 : ℝ) ^ (g / 40) := fun g =>
    Real.rpow_pos_of_pos (by norm_num) _
  have hsB := sin_w0_pos sr 80 (by norm_num) (by linarith)
  have hsM := sin_w0_pos sr 800 (by norm_num) (by linarith)
  have hsT := sin_w0_pos sr 4000 (by norm_num) (by linarith)
  refine ⟨?_, ?_, ?_, ?_, ?_, ?_, ?_, ?_⟩
  · simp only [EQ3Band.lowShelfLocals, EQ3Band.Init, realLibm_powf, realLibm_sinf,
      realLibm_cosf, realLibm_sqrtf, realLibm_M_PI]
    exact shelf_divisor_pos_add _ _ _ _ (hA _) (Real.neg_one_le_cos _) (Real.cos_le_one _)
      (Real.sqrt_pos.mpr (hA _)) (div_pos hsB (by norm_num))
  · simp only [EQ3Band.peakLocals, EQ3Band.Init, realLibm_powf, realLibm_sinf,
      realLibm_M_PI]
    have : 0 < Real.sin (2 * Real.pi * 800 / sr) / (2 * 1) /
        (10 : ℝ) ^ (EQ3Band.PotToDb pot 12 / 40) :=
      div_pos (div_pos hsM (by norm_num)) (hA _)
    linarith
  · simp only [EQ3Band.highShelfLocals, EQ3Band.Init, realLibm_powf, realLibm_sinf,
      realLibm_cosf, realLibm_sqrtf, realLibm_M_PI]
    exact shelf_divisor_pos_sub _ _ _ _ (hA _) (Real.neg_one_le_cos _) (Real.cos_le_one _)
      (Real.sqrt_pos.mpr (hA _)) (div_pos hsT (by norm_num))
  · show 0 < sr
    linarith
  · show (0 : ℝ) < 2 * 0.707
    norm_num
  · show (0 : ℝ) < 2 * 1
    norm_num
  · show (0 : ℝ) < 2 * 0.707
    norm_num
  · simp only [EQ3Band.peakLocals, realLibm_powf]
    exact hA _

/-- C15 (counterexample): for sample rate 48000, the bass band and 15 dB (`SetBass(0)`
after `Init(48000)`), the `A` the low-shelf design computes is not within relative
tolerance 1e-4 of the quoted 1.7783, and its `alpha` is not within 1e-4 of the quoted
0.007400. -/
theorem C15_quoted_values_off :
    ¬ Spec.withinRel
      (EQ3Band.lowShelfLocals realLibm ((EQ3Band.fresh : EQ3Band ℝ).Init 48000).sr_
        ((EQ3Band.fresh : EQ3Band ℝ).Init 48000).bass_freq_
        ((EQ3Band.fresh : EQ3Band ℝ).Init 48000).bass_q_ (EQ3Band.PotToDb 0 15)).A
      1.7783 0.0001 ∧
    ¬ Spec.withinRel
      (EQ3Band.lowShelfLocals realLibm ((EQ3Band.fresh : EQ3Band ℝ).Init 48000).sr_
        ((EQ3Band.fresh : EQ3Band ℝ).Init 48000).bass_freq_
        ((EQ3Band.fresh : EQ3Band ℝ).Init 48000).bass_q_ (EQ3Band.PotToDb 0 15)).alpha
      0.007400 0.0001 := by
  obtain ⟨hA1, hA2⟩ := boost_amplitude_tight
  obtain ⟨-, -, hs1, hs2, -, -⟩ := bass_w0_bounds
  constructor
  · rw [withinRel_iff_of_pos _ _ _ (by norm_num)]
    simp only [EQ3Band.lowShelfLocals, realLibm_powf]
    rintro ⟨-, h⟩
    norm_num at h
    linarith
  · rw [withinRel_iff_of_pos _ _ _ (by norm_num)]
    simp only [EQ3Band.lowShelfLocals, EQ3Band.Init, realLibm_sinf, realLibm_M_PI]
    rintro ⟨-, h⟩
    have hd : (0.00740571 : ℝ) < Real.sin (2 * Real.pi * 80 / 48000) / (2 * 0.707) := by
      rw [lt_div_iff₀ (by norm_num)]
      norm_num
      linarith
    norm_num at h hd
    linarith

/-- C15 (amended): for sample rate 48000, the bass band (80 Hz, Q 0.707) and 15 dB
(`SetBass(0)` after `Init(48000)`), the low-shelf design computes `A ≈ 2.3714`,
`w0 ≈ 0.010472`, `alpha ≈ 0.0074058` and `cosw0 ≈ 0.999945`, each to within relative
tolerance 1e-4 of the value given here. -/
theorem C15_bass_boost_locals (e : EQ3Band ℝ) :
    Spec.withinRel
      (EQ3Band.lowShelfLocals realLibm (e.Init 48000).sr_ (e.Init 48000).bass_freq_
        (e.Init 48000).bass_q_ (EQ3Band.PotToDb 0 15)).A 2.3714 0.0001 ∧
    Spec.withinRel
      (EQ3Band.lowShelfLocals realLibm (e.Init 48000).sr_ (e.Init 48000).bass_freq_
        (e.Init 48000).bass_q_ (EQ3Band.PotToDb 0 15)).w0 0.010472 0.0001 ∧
    Spec.withinRel
      (EQ3Band.lowShelfLocals realLibm (e.Init 48000).sr_ (e.Init 48000).bass_freq_
        (e.Init 48000).bass_q_ (EQ3Band.PotToDb 0 15)).alpha 0.0074058 0.0001 ∧
    Spec.withinRel
      (EQ3Band.lowShelfLocals realLibm (e.Init 48000).sr_ (e.Init 48000).bass_freq_
        (e.Init 48000).bass_q_ (EQ3Band.PotToDb 0 15)).cosw0 0.999945 0.0001 := by
  obtain ⟨hA1, hA2⟩ := boost_amplitude_tight
  obtain ⟨hw1, hw2, hs1, hs2, hc1, hc2⟩ := bass_w0_bounds
  have hd1 : (0.00740571 : ℝ) < Real.sin (2 * Real.pi * 80 / 48000) / (2 * 0.707) := by
    rw [lt_div_iff₀ (by norm_num)]
    norm_num
    linarith
  have hd2 : Real.sin (2 * Real.pi * 80 / 48000) / (2 * 0.707) < (0.00740594 : ℝ) := by
    rw [div_lt_iff₀ (by norm_num)]
    norm_num
    linarith
  rw [withinRel_iff_of_pos _ _ _ (by norm_num), withinRel_iff_of_pos _ _ _ (by norm_num),
    withinRel_iff_of_pos _ _ _ (by norm_num), withinRel_iff_of_pos _ _ _ (by norm_num)]
  simp only [EQ3Band.lowShelfLocals, EQ3Band.Init, realLibm_powf, realLibm_sinf,
    realLibm_cosf, realLibm_M_PI]
  norm_num at *
  refine ⟨⟨?_, ?_⟩, ⟨?_, ?_⟩, ⟨?_, ?_⟩, ⟨?_, ?_⟩⟩ <;> linarith

/-- C6 (counterexample): in binary32 the mapping is not strictly decreasing.  For
`maxDb = 15` the values `pot1 = 0` and `pot2 = 2^-30` satisfy `pot1 < pot2`, yet
`PotToDb(pot1)` and `PotToDb(pot2)` are both 15, since `0.5f - pot2` rounds to `0.5f`;
so `PotToDb(pot1) > PotToDb(pot2)` fails. -/
theorem C6_binary32_not_strict :
    Fp.lt 0 (Fp.fin (1 / 2 ^ 30)) ∧
    Binary32.EQ3Band.PotToDb 0 15 = Fp.fin 15 ∧
    Binary32.EQ3Band.PotToDb (Fp.fin (1 / 2 ^ 30)) 15 = Fp.fin 15 ∧
    ¬ Fp.lt (Binary32.EQ3Band.PotToDb (Fp.fin (1 / 2 ^ 30)) 15)
      (Binary32.EQ3Band.PotToDb 0 15) := by
  refine ⟨?_, potToDb32_zero, potToDb32_absorbed, ?_⟩
  · refine ⟨rfl, rfl, ?_⟩
    show (((((0 : ℕ) : ℚ) : WithTop ℚ)) : WithBot (WithTop ℚ)) <
      ((((1 / 2 ^ 30 : ℚ)) : WithTop ℚ) : WithBot (WithTop ℚ))
    rw [WithBot.coe_lt_coe, WithTop.coe_lt_coe]
    norm_num
  · rw [potToDb32_zero, potToDb32_absorbed]
    rintro ⟨-, -, h⟩
    exact lt_irrefl _ h

/-- C18 (counterexample): in binary32 a never-set section does not mute every input.
After `Init(48000)` with no setter called, `Process(+inf)` returns NaN (`0 * inf`); and
after `Init(48000)` and `SetBass(-1000)`, whose gain of 30015 dB overflows `powf` and
stores a NaN coefficient, `Process(0.5)` returns NaN although `SetMid` and `SetTreble`
were never called.  NaN is not 0. -/
theorem C18_binary32_not_muted :
    (Binary32.EQ3Band.run Fp.libm
        (Binary32.EQ3Band.Init Binary32.EQ3Band.fresh 48000)
        [Call.Process Fp.pinf]).2 = [Fp.nan] ∧
    (Binary32.EQ3Band.run Fp.libm
        (Binary32.EQ3Band.Init Binary32.EQ3Band.fresh 48000)
        [Call.SetBass (Fp.fin (-1000)), Call.Process 0.5]).2 = [Fp.nan] ∧
    Fp.isZero Fp.nan = false := by
  refine ⟨?_, ?_, rfl⟩
  · show [(Binary32.EQ3Band.Process
      (Binary32.EQ3Band.Init Binary32.EQ3Band.fresh 48000) Fp.pinf).1] = [Fp.nan]
    rw [eq32_process_nan _ _ process32_fresh_inf]
  · show [(Binary32.EQ3Band.Process (Binary32.EQ3Band.SetBass Fp.libm
      (Binary32.EQ3Band.Init Binary32.EQ3Band.fresh 48000) (Fp.fin (-1000))) 0.5).1]
      = [Fp.nan]
    rw [eq32_process_nan]
    apply process32_nan_coeff
    simp only [Binary32.EQ3Band.SetBass, Binary32.EQ3Band.SetLowShelf,
      Binary32.MyBiquad.SetCoeffs, potToDb32_far_left, designA32_overflow]
    exact lowShelf32_ff_nan _ _

/-- C19 (counterexample): in binary32 a division by zero does occur.  At sample rate
48000, above 8000, `SetMid(100)` computes the gain -2388 dB, `A = powf(10, -59.7)`
underflows to 0, `SetPeak` divides `alpha` by this `A`, and the coefficient `a2 / a0` it
stores is NaN. -/
theorem C19_binary32_zero_divisor :
    Fp.lt 8000 48000 ∧
    Binary32.EQ3Band.designA Fp.libm (Binary32.EQ3Band.PotToDb 100 12) = Fp.fin 0 ∧
    (Binary32.EQ3Band.SetMid Fp.libm
      (Binary32.EQ3Band.Init Binary32.EQ3Band.fresh 48000) 100).mid.b2 = Fp.nan := by
  refine ⟨?_, ?_, ?_⟩
  · refine ⟨rfl, rfl, ?_⟩
    show (((((8000 : ℕ) : ℚ) : WithTop ℚ)) : WithBot (WithTop ℚ)) <
      (((((48000 : ℕ) : ℚ)) : WithTop ℚ) : WithBot (WithTop ℚ))
    rw [WithBot.coe_lt_coe, WithTop.coe_lt_coe]
    norm_num
  · rw [potToDb32_far_right, designA32_underflow]
  · simp only [Binary32.EQ3Band.SetMid, Binary32.EQ3Band.SetPeak,
      Binary32.MyBiquad.SetCoeffs, potToDb32_far_right, designA32_underflow]
    exact peak32_b2_nan _

/-- C16: order sensitivity.  At sample rate 48000, with the pots at 0.5 (bass), 0 (mid)
and 1 (treble) and zeroed delay registers, the one-sample input `31 * 2^123`, a finite
binary32 number, comes out of the cascade bass, mid, treble of the source as `+inf`, and
out of the same three sections in the order bass, treble, mid as a finite sample: the mid
boost overflows unless the treble cut comes first.  So the two outputs differ. -/
theorem C16_order_sensitive :
    Fp.Rep binary32 (31 * 2 ^ 123) ∧
    (Binary32.EQ3Band.Process (Binary32.EQ3Band.configured Fp.libm 48000 0.5 0 1)
      (Fp.fin (31 * 2 ^ 123))).1 = Fp.pinf ∧
    Fp.Btw (Binary32.EQ3Band.Process
      (Binary32.EQ3Band.trebleBeforeMid (Binary32.EQ3Band.configured Fp.libm 48000 0.5 0 1))
      (Fp.fin (31 * 2 ^ 123))).1 (461 * 2 ^ 117) (2149 * 2 ^ 115) ∧
    (Binary32.EQ3Band.Process (Binary32.EQ3Band.configured Fp.libm 48000 0.5 0 1)
      (Fp.fin (31 * 2 ^ 123))).1 ≠
    (Binary32.EQ3Band.Process
      (Binary32.EQ3Band.trebleBeforeMid (Binary32.EQ3Band.configured Fp.libm 48000 0.5 0 1))
      (Fp.fin (31 * 2 ^ 123))).1 := by
  obtain ⟨hb0, hb1, hb2, hb3, hb4⟩ := configured_bass
  obtain ⟨hm0, hm1, hm2, hm3, hm4⟩ := configured_mid
  obtain ⟨ht0, ht1, ht2, ht3, ht4⟩ := configured_treble
  have hx : Fp.Btw (Fp.fin (31 * 2 ^ 123)) (31 * 2 ^ 123) (31 * 2 ^ 123) :=
    ⟨rfl, le_rfl, le_rfl⟩
  have hu : Fp.Btw (Binary32.MyBiquad.Process
      (Binary32.EQ3Band.configured Fp.libm 48000 0.5 0 1).bass (Fp.fin (31 * 2 ^ 123))).1
      (1983 * 2 ^ 117) (1985 * 2 ^ 117) :=
    process_first_btw _ _ _ _ rfl rfl hb1 hb2 hb3 hb4
      (Fp.rep32_of _ 16244736 104 (by norm_num)) (Fp.rep32_of _ 16261120 104 (by norm_num))
      (Fp.mul_btw _ _ hb0 hx (Fp.rep32_of _ 16244736 104 (by norm_num))
        (Fp.rep32_of _ 16261120 104 (by norm_num)) (by norm_num))
  have hA1 : (Binary32.MyBiquad.Process (Binary32.EQ3Band.configured Fp.libm 48000 0.5 0 1).mid
      (Binary32.MyBiquad.Process (Binary32.EQ3Band.configured Fp.libm 48000 0.5 0 1).bass
        (Fp.fin (31 * 2 ^ 123))).1).1 = Fp.pinf :=
    process_first_pinf _ _ rfl rfl hm1 hm2 hm3 hm4
      (Fp.mul_overflow hm0 hu (by norm_num) (by norm_num) (by norm_num))
  have hA2 : (Binary32.MyBiquad.Process
      (Binary32.EQ3Band.configured Fp.libm 48000 0.5 0 1).treble Fp.pinf).1 = Fp.pinf :=
    process_first_pinf _ _ rfl rfl ht1 ht2 ht3 ht4 (Fp.mul_pinf_of_pos ht0 (by norm_num))
  have hB1 : Fp.Btw (Binary32.MyBiquad.Process
      (Binary32.EQ3Band.configured Fp.libm 48000 0.5 0 1).treble
      (Binary32.MyBiquad.Process (Binary32.EQ3Band.configured Fp.libm 48000 0.5 0 1).bass
        (Fp.fin (31 * 2 ^ 123))).1).1 (3476 * 2 ^ 114) (3976 * 2 ^ 114) :=
    process_first_btw _ _ _ _ rfl rfl ht1 ht2 ht3 ht4
      (Fp.rep32_of _ 3559424 104 (by norm_num)) (Fp.rep32_of _ 4071424 104 (by norm_num))
      (Fp.mul_btw _ _ ht0 hu (Fp.rep32_of _ 3559424 104 (by norm_num))
        (Fp.rep32_of _ 4071424 104 (by norm_num)) (by norm_num))
  have hB2 : Fp.Btw (Binary32.MyBiquad.Process
      (Binary32.EQ3Band.configured Fp.libm 48000 0.5 0 1).mid
      (Binary32.MyBiquad.Process (Binary32.EQ3Band.configured Fp.libm 48000 0.5 0 1).treble
        (Binary32.MyBiquad.Process (Binary32.EQ3Band.configured Fp.libm 48000 0.5 0 1).bass
          (Fp.fin (31 * 2 ^ 123))).1).1).1 (461 * 2 ^ 117) (2149 * 2 ^ 115) :=
    process_first_btw _ _ _ _ rfl rfl hm1 hm2 hm3 hm4
      (Fp.rep32_of _ 3776512 104 (by norm_num)) (Fp.rep32_of _ 4401152 104 (by norm_num))
      (Fp.mul_btw _ _ hm0 hB1 (Fp.rep32_of _ 3776512 104 (by norm_num))
        (Fp.rep32_of _ 4401152 104 (by norm_num)) (by norm_num))
  have hA : (Binary32.EQ3Band.Process (Binary32.EQ3Band.configured Fp.libm 48000 0.5 0 1)
      (Fp.fin (31 * 2 ^ 123))).1 = Fp.pinf := by
    show (Binary32.MyBiquad.Process (Binary32.EQ3Band.configured Fp.libm 48000 0.5 0 1).treble
      (Binary32.MyBiquad.Process (Binary32.EQ3Band.configured Fp.libm 48000 0.5 0 1).mid
        (Binary32.MyBiquad.Process (Binary32.EQ3Band.configured Fp.libm 48000 0.5 0 1).bass
          (Fp.fin (31 * 2 ^ 123))).1).1).1 = Fp.pinf
    rw [hA1, hA2]
  have hB : Fp.Btw (Binary32.EQ3Band.Process
      (Binary32.EQ3Band.trebleBeforeMid (Binary32.EQ3Band.configured Fp.libm 48000 0.5 0 1))
      (Fp.fin (31 * 2 ^ 123))).1 (461 * 2 ^ 117) (2149 * 2 ^ 115) := hB2
  refine ⟨Fp.rep32_of _ 16252928 104 (by norm_num), hA, hB, ?_⟩
  rw [hA]
  intro hc
  have hf := hB.1
  rw [← hc] at hf
  exact absurd hf (by decide)

/-- C6 (amended): in binary32, for every positive binary32 number `maxDb` (in particular
15, 12, 15 for bass, mid, treble), `PotToDb(pot, maxDb)` is weakly decreasing in `pot`:
`pot1 < pot2` implies `PotToDb(pot2) <= PotToDb(pot1)`, no rounding step reversing the
order; and `PotToDb(0, maxDb) = +maxDb`, `PotToDb(1, maxDb) = -maxDb`,
`PotToDb(0.5, maxDb) = 0`.  The decrease is strict only where nothing is rounded, as on
the rationals. -/
theorem C6_potToDb_weakly_decreasing (maxDb : ℚ) (hrep : Fp.Rep binary32 maxDb)
    (hpos : 0 < maxDb) :
    (∀ pot1 pot2 : Fp, Fp.lt pot1 pot2 →
      Fp.le (Binary32.EQ3Band.PotToDb pot2 (Fp.fin maxDb))
        (Binary32.EQ3Band.PotToDb pot1 (Fp.fin maxDb))) ∧
    Binary32.EQ3Band.PotToDb 0 (Fp.fin maxDb) = Fp.fin maxDb ∧
    Binary32.EQ3Band.PotToDb 1 (Fp.fin maxDb) = Fp.fin (-maxDb) ∧
    Binary32.EQ3Band.PotToDb 0.5 (Fp.fin maxDb) = Fp.fin 0 ∧
    (∀ pot1 pot2 : ℚ, pot1 < pot2 →
      EQ3Band.PotToDb pot2 maxDb < EQ3Band.PotToDb pot1 maxDb) := by
  obtain ⟨p0, p1, ph⟩ := potToDb32_points maxDb hrep hpos
  refine ⟨?_, p0, p1, ph, ?_⟩
  · intro pot1 pot2 h
    exact potToDb32_anti maxDb hpos h.1 h.2.1 h.2.2.le
  · intro pot1 pot2 h12
    unfold EQ3Band.PotToDb
    have h2 : (0.5 - pot2) * 2 < (0.5 - pot1) * 2 := by linarith
    exact mul_lt_mul_of_pos_right h2 hpos

/-- Witness of the amended C6 at `maxDb = 15`, the value of the bass and treble bands. -/
theorem C6_potToDb_weakly_decreasing_witness :
    Fp.Rep binary32 15 ∧ (0 : ℚ) < 15 ∧
    (∀ pot1 pot2 : Fp, Fp.lt pot1 pot2 →
      Fp.le (Binary32.EQ3Band.PotToDb pot2 (Fp.fin 15))
        (Binary32.EQ3Band.PotToDb pot1 (Fp.fin 15))) ∧
    Binary32.EQ3Band.PotToDb 0 (Fp.fin 15) = Fp.fin 15 ∧
    Binary32.EQ3Band.PotToDb 1 (Fp.fin 15) = Fp.fin (-15) ∧
    Binary32.EQ3Band.PotToDb 0.5 (Fp.fin 15) = Fp.fin 0 :=
  have h1 : Fp.Rep binary32 15 := Fp.rep32_of _ 15 0 (by norm_num)
  have h := C6_potToDb_weakly_decreasing 15 h1 (by norm_num)
  ⟨h1, by norm_num, h.1, h.2.1, h.2.2.1, h.2.2.2.1⟩


/-- C18 (amended): in binary32, on the zero-initialised equalizer after `Init(sr)`, for any
sequence of setter and `Process` calls in which at least one of `SetBass`, `SetMid`,
`SetTreble` never occurs, every sample a `Process` call returns is a zero (`+0` or `-0`),
as long as no infinity or NaN enters: every sample given to `Process` is finite, the
stored coefficients are finite, and the samples out of the bass and mid sections are
finite.  A never-set section multiplies by 0, and `0 * x` is a zero only for finite
`x`. -/
theorem C18_muted_while_finite (L : Libm Fp) (sr : Fp) (cs : List (Call Fp))
    (h : (∀ p, Call.SetBass p ∉ cs) ∨ (∀ p, Call.SetMid p ∉ cs) ∨
      (∀ p, Call.SetTreble p ∉ cs))
    (ht : Binary32.EQ3Band.Tame L (Binary32.EQ3Band.Init Binary32.EQ3Band.fresh sr) cs) :
    ∀ y ∈ (Binary32.EQ3Band.run L (Binary32.EQ3Band.Init Binary32.EQ3Band.fresh sr) cs).2,
      y.isZero = true := by
  rcases h with h | h | h
  · exact run32_bass_unset L cs h _ rfl rfl rfl rfl rfl rfl rfl ht
  · exact run32_mid_unset L cs h _ rfl rfl rfl rfl rfl ht
  · exact run32_treble_unset L cs h _ rfl rfl rfl ht

/-- Witness of the amended C18: after `Init(48000)`, `SetBass(0.5)` and `SetMid(0)`, with
`SetTreble` never called, the sample 1 passes the bass and mid sections as finite values
and `Process` returns a zero. -/
theorem C18_muted_while_finite_witness :
    ((∀ p, Call.SetBass p ∉ [Call.SetBass (0.5 : Fp), Call.SetMid 0, Call.Process 1]) ∨
      (∀ p, Call.SetMid p ∉ [Call.SetBass (0.5 : Fp), Call.SetMid 0, Call.Process 1]) ∨
      (∀ p, Call.SetTreble p ∉ [Call.SetBass (0.5 : Fp), Call.SetMid 0, Call.Process 1])) ∧
    Binary32.EQ3Band.Tame Fp.libm (Binary32.EQ3Band.Init Binary32.EQ3Band.fresh 48000)
      [Call.SetBass (0.5 : Fp), Call.SetMid 0, Call.Process 1] ∧
    ∀ y ∈ (Binary32.EQ3Band.run Fp.libm
        (Binary32.EQ3Band.Init Binary32.EQ3Band.fresh 48000)
        [Call.SetBass (0.5 : Fp), Call.SetMid 0, Call.Process 1]).2, y.isZero = true :=
  have h1 : (∀ p, Call.SetBass p ∉ [Call.SetBass (0.5 : Fp), Call.SetMid 0, Call.Process 1]) ∨
      (∀ p, Call.SetMid p ∉ [Call.SetBass (0.5 : Fp), Call.SetMid 0, Call.Process 1]) ∨
      (∀ p, Call.SetTreble p ∉ [Call.SetBass (0.5 : Fp), Call.SetMid 0, Call.Process 1]) :=
    Or.inr (Or.inr (by simp))
  have h2 : Binary32.EQ3Band.Tame Fp.libm
      (Binary32.EQ3Band.Init Binary32.EQ3Band.fresh 48000)
      [Call.SetBass (0.5 : Fp), Call.SetMid 0, Call.Process 1] :=
    tame_bass_mid_one
  ⟨h1, h2, C18_muted_while_finite Fp.libm 48000
    [Call.SetBass (0.5 : Fp), Call.SetMid 0, Call.Process 1] h1 h2⟩


/-- C19 (amended): in binary32, for every finite sample rate `sr` of 8000 or more and every
`pot` from 0 to 1, after `Init(sr)` the divisor `a0` that `SetLowShelf` (via `SetBass`),
`SetPeak` (via `SetMid`) and `SetHighShelf` (via `SetTreble`) compute is strictly
positive, and so are the other divisors: `sr`, `2*Q` of each band and the `A` that
`SetPeak` divides `alpha` by.  So no setter divides by zero in that range; outside it the
claim fails. -/
theorem C19_divisors_positive_in_range (e : EQ3Band Fp) (sr pot : Fp)
    (hsr : Fp.Btw sr 8000 (2 ^ 128)) (hpot : Fp.Btw pot 0 1) :
    Fp.lt 0 (Binary32.EQ3Band.lowShelfLocals Fp.libm (Binary32.EQ3Band.Init e sr).sr_
      (Binary32.EQ3Band.Init e sr).bass_freq_ (Binary32.EQ3Band.Init e sr).bass_q_
      (Binary32.EQ3Band.PotToDb pot 15)).a0 ∧
    Fp.lt 0 (Binary32.EQ3Band.peakLocals Fp.libm (Binary32.EQ3Band.Init e sr).sr_
      (Binary32.EQ3Band.Init e sr).mid_freq_ (Binary32.EQ3Band.Init e sr).mid_q_
      (Binary32.EQ3Band.PotToDb pot 12)).a0 ∧
    Fp.lt 0 (Binary32.EQ3Band.highShelfLocals Fp.libm (Binary32.EQ3Band.Init e sr).sr_
      (Binary32.EQ3Band.Init e sr).treble_freq_ (Binary32.EQ3Band.Init e sr).treble_q_
      (Binary32.EQ3Band.PotToDb pot 15)).a0 ∧
    Fp.lt 0 (Binary32.EQ3Band.Init e sr).sr_ ∧
    Fp.lt 0 (2 * (Binary32.EQ3Band.Init e sr).bass_q_) ∧
    Fp.lt 0 (2 * (Binary32.EQ3Band.Init e sr).mid_q_) ∧
    Fp.lt 0 (2 * (Binary32.EQ3Band.Init e sr).treble_q_) ∧
    Fp.lt 0 (Binary32.EQ3Band.peakLocals Fp.libm (Binary32.EQ3Band.Init e sr).sr_
      (Binary32.EQ3Band.Init e sr).mid_freq_ (Binary32.EQ3Band.Init e sr).mid_q_
      (Binary32.EQ3Band.PotToDb pot 12)).A := by
  refine ⟨?_, ?_, ?_, ?_, ?_, ?_, ?_, ?_⟩
  · exact Fp.lt_zero_of_btw (lowShelf_a0_range _ _ _ _ (float_designA_range15 pot hpot)
      (float_sqrtA_range15 pot hpot) (float_alpha_range_bass sr hsr)
      (float_cosw0_range_bass sr hsr)) (by norm_num)
  · exact Fp.lt_zero_of_btw (peak_a0_range _ _ (float_designA_range12 pot hpot)
      (float_alpha_range_mid sr hsr)) (by norm_num)
  · exact Fp.lt_zero_of_btw (highShelf_a0_range _ _ _ _ (float_designA_range15 pot hpot)
      (float_sqrtA_range15 pot hpot) (float_alpha_range_treble sr hsr)
      (float_cosw0_range_treble sr hsr)) (by norm_num)
  · exact Fp.lt_zero_of_btw hsr (by norm_num)
  · exact Fp.lt_zero_of_btw float_twoQ_shelf (by norm_num)
  · exact Fp.lt_zero_of_btw float_twoQ_peak (by norm_num)
  · exact Fp.lt_zero_of_btw float_twoQ_shelf (by norm_num)
  · exact Fp.lt_zero_of_btw (float_designA_range12 pot hpot) (by norm_num)

/-- Witness of the amended C19 at sample rate 48000 and `pot = 0`. -/
theorem C19_divisors_positive_in_range_witness :
    Fp.Btw 48000 8000 (2 ^ 128) ∧ Fp.Btw 0 0 1 ∧
    Fp.lt 0 (Binary32.EQ3Band.lowShelfLocals Fp.libm 48000 80 0.707
      (Binary32.EQ3Band.PotToDb 0 15)).a0 ∧
    Fp.lt 0 (Binary32.EQ3Band.peakLocals Fp.libm 48000 800 1
      (Binary32.EQ3Band.PotToDb 0 12)).a0 ∧
    Fp.lt 0 (Binary32.EQ3Band.highShelfLocals Fp.libm 48000 4000 0.707
      (Binary32.EQ3Band.PotToDb 0 15)).a0 :=
  have h1 : Fp.Btw 48000 8000 (2 ^ 128) :=
    Fp.btw_mono _ _ (Fp.ofNat_btw 48000 48000 (by norm_num)) (by norm_num) (by norm_num)
  have h2 : Fp.Btw 0 0 1 :=
    Fp.btw_mono _ _ (Fp.ofNat_btw 0 0 (by norm_num)) (by norm_num) (by norm_num)
  have h := C19_divisors_positive_in_range Binary32.EQ3Band.fresh 48000 0 h1 h2
  ⟨h1, h2, h.1, h.2.1, h.2.2.1⟩


end Claims

end DigiBassPreamp
